import Mathlib

/-!
Verification of the workflow-run aggregation core of the dashboard server
(src/main.go of dashboard-github-actions).

All definitions below are shallow embeddings of the Go source:
time instants are modelled as proleptic-Gregorian civil datetimes at
second precision in the server's single local timezone (the program
converts every timestamp into one local timezone before comparing, so a
one-zone model is faithful); absolute-time comparison and subtraction go
through a days-from-civil conversion.  Go machine arithmetic on whole
seconds is exact integer arithmetic here (Int.tdiv / Int.tmod mirror
Go's truncated-toward-zero int conversion and % operator).
-/

namespace Dash

/-- A civil datetime in the local timezone: what Go's time.Date fields
expose.  The month is 1..12 and the day 1..31 for valid values; the
embedding never needs to normalize out-of-range fields except through
explicit day arithmetic (addDays below). -/
structure GTime where
  year : Int
  month : Int
  day : Int
  hour : Int
  minute : Int
  second : Int
deriving DecidableEq

/-- Day count since 1970-01-01 of a civil date, proleptic Gregorian
(the standard days-from-civil algorithm, also what Go's time package
computes internally when comparing instants). -/
def daysFromCivil (y m d : Int) : Int :=
  let y := if m ≤ 2 then y - 1 else y
  let era := (if 0 ≤ y then y else y - 399).tdiv 400
  let yoe := y - era * 400
  let doy := (153 * (m + (if 2 < m then -3 else 9)) + 2).tdiv 5 + d - 1
  let doe := yoe * 365 + yoe.tdiv 4 - yoe.tdiv 100 + doy
  era * 146097 + doe - 719468

/-- Inverse of daysFromCivil: civil date of a day count. -/
def civilFromDays (z : Int) : Int × Int × Int :=
  let z := z + 719468
  let era := (if 0 ≤ z then z else z - 146096).tdiv 146097
  let doe := z - era * 146097
  let yoe := (doe - doe.tdiv 1460 + doe.tdiv 36524 - doe.tdiv 146096).tdiv 365
  let y := yoe + era * 400
  let doy := doe - (365 * yoe + yoe.tdiv 4 - yoe.tdiv 100)
  let mp := (5 * doy + 2).tdiv 153
  let d := doy - (153 * mp + 2).tdiv 5 + 1
  let m := mp + (if mp < 10 then 3 else -9)
  (y + (if m ≤ 2 then 1 else 0), m, d)

/-- Absolute second count of an instant (Go compares time.Time values by
their absolute instant; at second precision this is that instant). -/
def toSecs (t : GTime) : Int :=
  daysFromCivil t.year t.month t.day * 86400
    + t.hour * 3600 + t.minute * 60 + t.second

/-- Go time.Time.After. -/
def after (a b : GTime) : Bool := toSecs b < toSecs a

/-- Go time.Time.Before. -/
def before (a b : GTime) : Bool := toSecs a < toSecs b

/-- Go t.AddDate(0, 0, n): calendar-normalized day arithmetic keeping the
clock fields. -/
def addDays (t : GTime) (n : Int) : GTime :=
  let z := daysFromCivil t.year t.month t.day + n
  let c := civilFromDays z
  ⟨c.1, c.2.1, c.2.2, t.hour, t.minute, t.second⟩

/-- Go t.Add(s * time.Second): absolute-instant addition. -/
def addSecs (t : GTime) (s : Int) : GTime :=
  let total := toSecs t + s
  let z := total / 86400
  let sod := total % 86400
  let c := civilFromDays z
  ⟨c.1, c.2.1, c.2.2, sod / 3600, sod / 60 % 60, sod % 60⟩

/-- The clock fields are in range (always true of a Go time.Time's
Hour/Minute/Second accessors). -/
def ClockValid (t : GTime) : Prop :=
  0 ≤ t.hour ∧ t.hour < 24 ∧ 0 ≤ t.minute ∧ t.minute < 60 ∧
    0 ≤ t.second ∧ t.second < 60

instance (t : GTime) : Decidable (ClockValid t) := by
  unfold ClockValid; infer_instance

/-! ### Presentation formatters (src/main.go lines 98-135) -/

/-- pluralize (main.go 130-135). -/
def pluralize (n : Int) : String := if n = 1 then "" else "s"

/-- The arithmetic core of formatDuration (main.go 98-110) on a whole
number of elapsed seconds: hours := int(d.Hours()), minutes :=
int(d.Minutes()) % 60, seconds := int(d.Seconds()) % 60, with Go's
truncated conversion and remainder. -/
def fmtDurSecs (d : Int) : String :=
  let hours := d.tdiv 3600
  let minutes := (d.tdiv 60).tmod 60
  let seconds := d.tmod 60
  if 0 < hours then
    toString hours ++ "h " ++ toString minutes ++ "m " ++ toString seconds ++ "s"
  else if 0 < minutes then
    toString minutes ++ "m " ++ toString seconds ++ "s"
  else
    toString seconds ++ "s"

/-- formatDuration (main.go 98-110). -/
def formatDuration (start e : GTime) : String :=
  fmtDurSecs (toSecs e - toSecs start)

/-- formatTimeAgo (main.go 112-128); now is time.Now() passed explicitly.
days := int(diff.Hours() / 24), hours := int(diff.Hours()),
minutes := int(diff.Minutes()). -/
def formatTimeAgo (now t : GTime) : String :=
  let d := toSecs now - toSecs t
  let days := d.tdiv 86400
  let hours := d.tdiv 3600
  let minutes := d.tdiv 60
  if 0 < days then toString days ++ " day" ++ pluralize days ++ " ago"
  else if 0 < hours then toString hours ++ " hour" ++ pluralize hours ++ " ago"
  else if 0 < minutes then toString minutes ++ " minute" ++ pluralize minutes ++ " ago"
  else "just now"

/-!
### Go's sort.Slice

main.go line 394 sorts the collected jobs with sort.Slice, whose runtime
(Go 1.19 and later) is the pattern-defeating quicksort of
sort/zsortanyfunc.go.  The whole algorithm is ported below over lists,
with explicit fuel for the loops (every fuel argument strictly exceeds
the number of iterations the Go loop can make on that range, so the fuel
is never exhausted on a real execution).  sort.Slice is documented as
NOT guaranteed to be stable, and the port lets us decide what it does on
concrete inputs.
-/

namespace GoSort

variable {α : Type}

/-- data.Less(i, j) of Go's lessSwap: compare the elements currently at
positions i and j. -/
def lessAt [Inhabited α] (lt : α → α → Bool) (l : List α) (i j : Nat) : Bool :=
  lt (l.getD i default) (l.getD j default)

/-- data.Swap(i, j). -/
def swapAt (l : List α) (i j : Nat) : List α :=
  match l.get? i, l.get? j with
  | some x, some y => (l.set i y).set j x
  | _, _ => l

variable [Inhabited α]

/-- Inner loop of insertionSort_func: sift the element now at position
j+1 left while it is less than its predecessor and above a. -/
def insertInner (lt : α → α → Bool) (a : Nat) : List α → Nat → List α
  | l, 0 => l
  | l, j+1 =>
    if a < j + 1 ∧ lessAt lt l (j+1) j then insertInner lt a (swapAt l (j+1) j) j
    else l

/-- Outer loop of insertionSort_func, i running from a+1 while i < b. -/
def insertLoop (lt : α → α → Bool) (a b : Nat) : List α → Nat → Nat → List α
  | l, _, 0 => l
  | l, i, fuel+1 =>
    if i < b then insertLoop lt a b (insertInner lt a l i) (i+1) fuel else l

/-- insertionSort_func. -/
def insertionSort (lt : α → α → Bool) (a b : Nat) (l : List α) : List α :=
  insertLoop lt a b l (a+1) b

/-- Loop of siftDown_func. -/
def siftLoop (lt : α → α → Bool) (first hi : Nat) : List α → Nat → Nat → List α
  | l, _, 0 => l
  | l, root, fuel+1 =>
    let child := 2*root + 1
    if hi ≤ child then l
    else
      let child := if child+1 < hi ∧ lessAt lt l (first+child) (first+child+1)
        then child+1 else child
      if ¬ lessAt lt l (first+root) (first+child) then l
      else siftLoop lt first hi (swapAt l (first+root) (first+child)) child fuel

/-- siftDown_func. -/
def siftDown (lt : α → α → Bool) (first lo hi : Nat) (l : List α) : List α :=
  siftLoop lt first hi l lo (hi+1)

/-- First phase of heapSort_func: build the heap, i counting down from
(hi-1)/2; the Nat argument is i+1. -/
def heapInit (lt : α → α → Bool) (first hi : Nat) : List α → Nat → List α
  | l, 0 => l
  | l, k+1 => heapInit lt first hi (siftDown lt first k hi l) k

/-- Second phase of heapSort_func: pop the maximum, i counting down from
hi-1; the Nat argument is i+1. -/
def heapExtract (lt : α → α → Bool) (first : Nat) : List α → Nat → List α
  | l, 0 => l
  | l, k+1 => heapExtract lt first (siftDown lt first 0 k (swapAt l first (first+k))) k

/-- heapSort_func. -/
def heapSort (lt : α → α → Bool) (a b : Nat) (l : List α) : List α :=
  let hi := b - a
  heapExtract lt a (heapInit lt a hi l ((hi-1)/2 + 1)) hi

/-- reverseRange_func. -/
def revLoop : List α → Nat → Nat → Nat → List α
  | l, _, _, 0 => l
  | l, i, j, fuel+1 => if i < j then revLoop (swapAt l i j) (i+1) (j-1) fuel else l

/-- reverseRange_func entry point. -/
def reverseRange (a b : Nat) (l : List α) : List α := revLoop l a (b-1) b

/-- order2_func: order two indices by the elements they point at,
counting performed index swaps. -/
def order2 (lt : α → α → Bool) (l : List α) (a b swaps : Nat) : Nat × Nat × Nat :=
  if lessAt lt l b a then (b, a, swaps+1) else (a, b, swaps)

/-- median_func: index of the median of three elements, threading the
swap count. -/
def median (lt : α → α → Bool) (l : List α) (a b c swaps : Nat) : Nat × Nat :=
  let r1 := order2 lt l a b swaps
  let r2 := order2 lt l r1.2.1 c r1.2.2
  let r3 := order2 lt l r1.1 r2.1 r2.2.2
  (r3.2.1, r3.2.2)

/-- medianAdjacent_func. -/
def medianAdjacent (lt : α → α → Bool) (l : List α) (i swaps : Nat) : Nat × Nat :=
  median lt l (i-1) i (i+1) swaps

/-- The sortedness hint returned by choosePivot_func. -/
inductive Hint | increasing | decreasing | unknown
deriving DecidableEq

/-- choosePivot_func (shortestNinther = 50, maxSwaps = 12). -/
def choosePivot (lt : α → α → Bool) (l : List α) (a b : Nat) : Nat × Hint :=
  let len := b - a
  let i0 := a + (len / 4) * 1
  let j0 := a + (len / 4) * 2
  let k0 := a + (len / 4) * 3
  let r :=
    if 8 ≤ len then
      if 50 ≤ len then
        let ri := medianAdjacent lt l i0 0
        let rj := medianAdjacent lt l j0 ri.2
        let rk := medianAdjacent lt l k0 rj.2
        median lt l ri.1 rj.1 rk.1 rk.2
      else
        median lt l i0 j0 k0 0
    else (j0, 0)
  if r.2 = 0 then (r.1, Hint.increasing)
  else if r.2 = 12 then (r.1, Hint.decreasing)
  else (r.1, Hint.unknown)

/-- Scan of partialInsertionSort_func: advance i while the element at i
is not less than its predecessor. -/
def pisScan (lt : α → α → Bool) (l : List α) (b : Nat) : Nat → Nat → Nat
  | i, 0 => i
  | i, fuel+1 => if i < b ∧ ¬ lessAt lt l i (i-1) then pisScan lt l b (i+1) fuel else i

/-- Shift-left loop of partialInsertionSort_func (argument is the Go
loop variable j, stopping below 1). -/
def pisShiftLeft (lt : α → α → Bool) : List α → Nat → List α
  | l, 0 => l
  | l, j+1 =>
    if ¬ lessAt lt l (j+1) j then l
    else pisShiftLeft lt (swapAt l (j+1) j) j

/-- Shift-right loop of partialInsertionSort_func. -/
def pisShiftRight (lt : α → α → Bool) (b : Nat) : List α → Nat → Nat → List α
  | l, _, 0 => l
  | l, j, fuel+1 =>
    if j < b then
      if ¬ lessAt lt l j (j-1) then l
      else pisShiftRight lt b (swapAt l j (j-1)) (j+1) fuel
    else l

/-- Step loop of partialInsertionSort_func (maxSteps = 5,
shortestShifting = 50). -/
def pisLoop (lt : α → α → Bool) (a b : Nat) : List α → Nat → Nat → List α × Bool
  | l, _, 0 => (l, false)
  | l, i, steps+1 =>
    let i1 := pisScan lt l b i b
    if i1 = b then (l, true)
    else if b - a < 50 then (l, false)
    else
      let l1 := swapAt l i1 (i1-1)
      let l2 := if 2 ≤ i1 - a then pisShiftLeft lt l1 (i1-1) else l1
      let l3 := if 2 ≤ b - i1 then pisShiftRight lt b l2 (i1+1) b else l2
      pisLoop lt a b l3 i1 steps

/-- partialInsertionSort_func: returns true if the whole range got
sorted within maxSteps repairs. -/
def partialInsertionSort (lt : α → α → Bool) (a b : Nat) (l : List α) : List α × Bool :=
  pisLoop lt a b l (a+1) 5

/-- partition_func scan: advance i while i ≤ j and data.Less(i, a). -/
def partScanI (lt : α → α → Bool) (l : List α) (aIdx j : Nat) : Nat → Nat → Nat
  | i, 0 => i
  | i, fuel+1 => if i ≤ j ∧ lessAt lt l i aIdx then partScanI lt l aIdx j (i+1) fuel else i

/-- partition_func scan: retreat j while i ≤ j and not data.Less(j, a). -/
def partScanJ (lt : α → α → Bool) (l : List α) (aIdx i : Nat) : Nat → Nat → Nat
  | j, 0 => j
  | j, fuel+1 => if i ≤ j ∧ ¬ lessAt lt l j aIdx then partScanJ lt l aIdx i (j-1) fuel else j

/-- Main loop of partition_func; returns the final position j. -/
def partLoop (lt : α → α → Bool) (aIdx b : Nat) : List α → Nat → Nat → Nat → List α × Nat
  | l, _, j, 0 => (l, j)
  | l, i, j, fuel+1 =>
    let i1 := partScanI lt l aIdx j i b
    let j1 := partScanJ lt l aIdx i1 j b
    if j1 < i1 then (l, j1)
    else partLoop lt aIdx b (swapAt l i1 j1) (i1+1) (j1-1) fuel

/-- partition_func: returns (data, newpivot, alreadyPartitioned). -/
def partition (lt : α → α → Bool) (a b pivot : Nat) (l : List α) : List α × Nat × Bool :=
  let l0 := swapAt l a pivot
  let i1 := partScanI lt l0 a (b-1) (a+1) b
  let j1 := partScanJ lt l0 a i1 (b-1) b
  if j1 < i1 then (swapAt l0 j1 a, j1, true)
  else
    let r := partLoop lt a b (swapAt l0 i1 j1) (i1+1) (j1-1) b
    (swapAt r.1 r.2 a, r.2, false)

/-- partitionEqual_func scan: advance i while i ≤ j and not
data.Less(a, i). -/
def peScanI (lt : α → α → Bool) (l : List α) (aIdx j : Nat) : Nat → Nat → Nat
  | i, 0 => i
  | i, fuel+1 => if i ≤ j ∧ ¬ lessAt lt l aIdx i then peScanI lt l aIdx j (i+1) fuel else i

/-- partitionEqual_func scan: retreat j while i ≤ j and data.Less(a, j). -/
def peScanJ (lt : α → α → Bool) (l : List α) (aIdx i : Nat) : Nat → Nat → Nat
  | j, 0 => j
  | j, fuel+1 => if i ≤ j ∧ lessAt lt l aIdx j then peScanJ lt l aIdx i (j-1) fuel else j

/-- Loop of partitionEqual_func; returns the final position i. -/
def peLoop (lt : α → α → Bool) (aIdx b : Nat) : List α → Nat → Nat → Nat → List α × Nat
  | l, i, _, 0 => (l, i)
  | l, i, j, fuel+1 =>
    let i1 := peScanI lt l aIdx j i b
    let j1 := peScanJ lt l aIdx i1 j b
    if j1 < i1 then (l, i1)
    else peLoop lt aIdx b (swapAt l i1 j1) (i1+1) (j1-1) fuel

/-- partitionEqual_func: returns (data, newpivot). -/
def partitionEqual (lt : α → α → Bool) (a b pivot : Nat) (l : List α) : List α × Nat :=
  peLoop lt a b (swapAt l a pivot) (a+1) (b-1) b

/-- One step of the xorshift generator of sort's breakPatterns, on Nat
with explicit reduction mod 2^64. -/
def xorshiftNext (r : Nat) : Nat :=
  let r1 := (r ^^^ (r <<< 13)) % 18446744073709551616
  let r2 := (r1 ^^^ (r1 >>> 7)) % 18446744073709551616
  (r2 ^^^ (r2 <<< 17)) % 18446744073709551616

/-- bits.Len. -/
def bitsLen (n : Nat) : Nat := if n = 0 then 0 else n.log2 + 1

/-- nextPowerOfTwo of the sort package. -/
def nextPowerOfTwo (length : Nat) : Nat := 1 <<< bitsLen length

/-- breakPatterns_func: three pseudo-random swaps around the middle of
the range, seeded with the range length. -/
def breakPatterns (l : List α) (a b : Nat) : List α :=
  let length := b - a
  if 8 ≤ length then
    let modulus := nextPowerOfTwo length
    let idx := a + (length / 4) * 2 - 1
    let r1 := xorshiftNext length
    let o1 := (fun o => if length ≤ o then o - length else o) (r1 &&& (modulus - 1))
    let l1 := swapAt l (idx - 1) (a + o1)
    let r2 := xorshiftNext r1
    let o2 := (fun o => if length ≤ o then o - length else o) (r2 &&& (modulus - 1))
    let l2 := swapAt l1 idx (a + o2)
    let r3 := xorshiftNext r2
    let o3 := (fun o => if length ≤ o then o - length else o) (r3 &&& (modulus - 1))
    swapAt l2 (idx + 1) (a + o3)
  else l

/-- The straight-line prefix of one pdqsort_func loop iteration, from
the breakPatterns call through the partialInsertionSort attempt:
returns (data, sortedAlready, decremented limit, pivot). -/
def pdqBody (lt : α → α → Bool) (l : List α) (a b limit : Nat) (wasBalanced wasPartitioned : Bool) :
    List α × Bool × Nat × Nat :=
  let p1 : List α × Nat :=
    if wasBalanced then (l, limit) else (breakPatterns l a b, limit - 1)
  let cp := choosePivot lt p1.1 a b
  let p2 : List α × Nat × Hint :=
    if cp.2 = Hint.decreasing then
      (reverseRange a b p1.1, (b - 1) - (cp.1 - a), Hint.increasing)
    else (p1.1, cp.1, cp.2)
  let p3 : List α × Bool :=
    if wasBalanced ∧ wasPartitioned ∧ p2.2.2 = Hint.increasing then
      partialInsertionSort lt a b p2.1
    else (p2.1, false)
  (p3.1, p3.2, p1.2, p2.2.1)

/-- pdqsort_func (maxInsertion = 12).  The Go function is a loop with
tail recursion on the shorter partition; both the loop iterations and
the recursive calls run through the fuel argument, and every step
strictly shrinks the range b - a, so fuel = initial length + 1 is never
exhausted. -/
def pdqsort (lt : α → α → Bool) : Nat → List α → Nat → Nat → Nat → Bool → Bool → List α
  | 0, l, _, _, _, _, _ => l
  | fuel+1, l, a, b, limit, wasBalanced, wasPartitioned =>
    let length := b - a
    if length ≤ 12 then insertionSort lt a b l
    else if limit = 0 then heapSort lt a b l
    else
      let body := pdqBody lt l a b limit wasBalanced wasPartitioned
      let l3 := body.1
      let limit1 := body.2.2.1
      let pivot := body.2.2.2
      if body.2.1 then l3
      else if 0 < a ∧ ¬ lessAt lt l3 (a-1) pivot then
        let pe := partitionEqual lt a b pivot l3
        pdqsort lt fuel pe.1 pe.2 b limit1 wasBalanced wasPartitioned
      else
        let pt := partition lt a b pivot l3
        let mid := pt.2.1
        let wasBalanced2 := decide (length / 8 ≤ min (mid - a) (b - mid))
        if mid - a < b - mid then
          pdqsort lt fuel (pdqsort lt fuel pt.1 a mid limit1 true true)
            (mid+1) b limit1 wasBalanced2 pt.2.2
        else
          pdqsort lt fuel (pdqsort lt fuel pt.1 (mid+1) b limit1 true true)
            a mid limit1 wasBalanced2 pt.2.2

/-- The whole list is sorted for lt: no element is less than an earlier
one (position-wise, via the element comparisons the sort makes). -/
def RangeSorted (lt : α → α → Bool) (l : List α) : Prop :=
  ∀ i j : Nat, i < j → j < l.length → lessAt lt l j i = false

/-- The comparison value of the element at a position.  The correctness
proofs below assume the comparison closure orders elements by such an
integer value (the job comparison orders by the negated creation
instant, so ascending value order is newest-first). -/
def valAt (val : α → Int) (l : List α) (i : Nat) : Int := val (l.getD i default)

/-- The range [a, b) is sorted ascending for the value function. -/
def VSorted (val : α → Int) (l : List α) (a b : Nat) : Prop :=
  ∀ i j : Nat, a ≤ i → i < j → j < b → valAt val l i ≤ valAt val l j

/-- Two lists of equal length agreeing at every position outside [a, b)
(every mutation a sort stage makes stays inside its range). -/
def SameOutside (l l' : List α) (a b : Nat) : Prop :=
  l.length = l'.length ∧
    ∀ k : Nat, k < a ∨ b ≤ k → l.getD k default = l'.getD k default

/-- Max-heap shape at node r (with base offset first, heap size n):
each of its children present in the heap has at most its value. -/
def HeapAt (val : α → Int) (first : Nat) (l : List α) (n r : Nat) : Prop :=
  ∀ c : Nat, c < n → (c = 2*r+1 ∨ c = 2*r+2) →
    valAt val l (first+c) ≤ valAt val l (first+r)

/-- sort.Slice: pdqsort over the whole list with limit = bits.Len n. -/
def sortSlice (lt : α → α → Bool) (l : List α) : List α :=
  let n := l.length
  pdqsort lt (n+1) l 0 n (bitsLen n) true true

end GoSort

/-! ### Data model (src/main.go lines 19-51) -/

/-- Job (main.go 19-31). -/
structure Job where
  ID : String
  Name : String
  Status : String
  Pipeline : String
  Branch : String
  Duration : String
  Started : String
  Organization : String
  RunID : Int
  HTMLURL : String
  CreatedAt : GTime
deriving DecidableEq

instance : Inhabited Job :=
  ⟨⟨"", "", "", "", "", "", "", "", 0, "", ⟨0, 0, 0, 0, 0, 0⟩⟩⟩

/-- DashboardStats (main.go 33-39). -/
structure DashboardStats where
  Success : Nat
  Failed : Nat
  Running : Nat
  Pending : Nat
  Total : Nat
deriving DecidableEq

/-- RateLimitInfo (main.go 41-45). -/
structure RateLimitInfo where
  Remaining : Int
  Limit : Int
  ResetAt : GTime
deriving DecidableEq

/-- DashboardResponse (main.go 47-51). -/
structure DashboardResponse where
  Stats : DashboardStats
  Jobs : List Job
  RateLimit : RateLimitInfo
deriving DecidableEq

/-- What the collector reads from a github.Repository: the name (always
dereferenced by the code) and the two optional recency timestamps. -/
structure Repo where
  name : String
  pushedAt : Option GTime
  updatedAt : Option GTime
deriving DecidableEq

/-- What the collector reads from a github.WorkflowRun. -/
structure WRun where
  id : Int
  name : String
  runNumber : Option Int
  status : String
  conclusion : Option String
  runStartedAt : Option GTime
  createdAt : Option GTime
  updatedAt : Option GTime
  headBranch : Option String
  htmlURL : Option String
deriving DecidableEq

/-- The GitHub client as the collector sees it: each call either fails
(the err branch) or returns data together with the rate-limit snapshot
of the response, when the response carries one (resp != nil). -/
structure ApiEnv where
  listByOrg : String → Except String (List Repo × Option RateLimitInfo)
  listRuns : String → String → Except String (List WRun × Option RateLimitInfo)

/-! ### Collector (src/main.go lines 137-408) -/

/-- The period switch of fetchWorkflowRuns (main.go 145-156): start of
the time window. -/
def resolveStart (period : String) (now : GTime) : GTime :=
  if period = "today" then ⟨now.year, now.month, now.day, 1, 0, 0⟩
  else if period = "week" then addDays now (-7)
  else if period = "month" then ⟨now.year, now.month, 1, 0, 0, 0⟩
  else addDays now (-7)

/-- The endTime built for period today (main.go 217 and 291). -/
def todayEnd (now : GTime) : GTime := ⟨now.year, now.month, now.day, 23, 0, 0⟩

/-- Repository filter (main.go 194-226): keep a repository whose PushedAt
(else UpdatedAt) timestamp is not before startTime, and for today also
not after the 23:00 endTime; drop repositories with neither timestamp. -/
def repoKeep (period : String) (now startTime : GTime) (repo : Repo) : Bool :=
  match (match repo.pushedAt with | some t => some t | none => repo.updatedAt) with
  | none => false
  | some checkTime =>
    if ¬ before checkTime startTime then
      if period = "today" then ¬ after checkTime (todayEnd now) else true
    else false

/-- Status normalization (main.go 297-315). -/
def normalizeStatus (status : String) (conclusion : Option String) : String :=
  let s := status.toLower
  let c := match conclusion with | some c0 => c0.toLower | none => ""
  if s = "completed" then
    if c = "success" then "success"
    else if c = "failure" ∨ c = "cancelled" then "failed"
    else "failed"
  else if s = "in_progress" ∨ s = "queued" then "running"
  else "pending"

/-- Left-pad with zero digits to the given width. -/
def zeroPad (w : Nat) (s : String) : String :=
  if s.length < w then String.mk (List.replicate (w - s.length) '0') ++ s else s

/-- fmt.Sprintf of the format used at main.go 346 for the run id:
zero-pad to width 6, the sign counting toward the width. -/
def sprintf06d (n : Int) : String :=
  if n < 0 then "-" ++ zeroPad 5 (toString (-n)) else zeroPad 6 (toString n)

/-- Duration selection of the run loop (main.go 317-329). -/
def durationOf (now : GTime) (run : WRun) : String :=
  match run.updatedAt, run.runStartedAt with
  | some u, some s => formatDuration s u
  | u?, _ =>
    match run.createdAt with
    | some c =>
      match u? with
      | some u => formatDuration c u
      | none => formatDuration c now
    | none => "N/A"

/-- Started-time selection of the run loop (main.go 331-339). -/
def startedOf (now : GTime) (run : WRun) : String :=
  match run.runStartedAt with
  | some t => formatTimeAgo now t
  | none =>
    match run.createdAt with
    | some t => formatTimeAgo now t
    | none => "N/A"

/-- Projection of one surviving run into a Job record (main.go 297-383). -/
def mkJob (now : GTime) (orgName repoName : String) (run : WRun) : Job :=
  { ID := "JOB-" ++ sprintf06d run.id
  , Name := match run.runNumber with
      | some n => run.name ++ " #" ++ toString n
      | none => run.name
  , Status := normalizeStatus run.status run.conclusion
  , Pipeline := repoName
  , Branch := match run.headBranch with | some b => b | none => "N/A"
  , Duration := durationOf now run
  , Started := startedOf now run
  , Organization := orgName
  , RunID := run.id
  , HTMLURL := match run.htmlURL with
      | some u => u
      | none => "https://github.com/" ++ orgName ++ "/" ++ repoName
          ++ "/actions/runs/" ++ toString run.id
  , CreatedAt := match run.createdAt with | some t => t | none => now }

/-- The per-run window filter and projection (main.go 270-295): the
filter instant is RunStartedAt if present, else CreatedAt, else the run
is skipped; it must not be before startTime, and for today not after
the 23:00 endTime. -/
def processRun (period : String) (now startTime : GTime) (orgName repoName : String)
    (run : WRun) : Option Job :=
  match (match run.runStartedAt with | some t => some t | none => run.createdAt) with
  | none => none
  | some runTime =>
    if before runTime startTime then none
    else if period = "today" ∧ after runTime (todayEnd now) then none
    else some (mkJob now orgName repoName run)

/-- Accumulator of the nested collection loop: jobs collected so far and
the rate-limit snapshot observed last (nil until a call reports one). -/
structure FetchAcc where
  jobs : List Job
  rl : Option RateLimitInfo
deriving DecidableEq

/-- The runs of one repository projected to jobs, in API order. -/
def runsFold (period : String) (now startTime : GTime) (orgName repoName : String)
    (runs : List WRun) : List Job :=
  runs.filterMap (processRun period now startTime orgName repoName)

/-- Body of the repository loop (main.go 239-385): a failing run listing
skips the repository; a successful one updates the snapshot (when the
response has one) and appends the surviving runs as jobs. -/
def repoStep (env : ApiEnv) (period : String) (now startTime : GTime) (orgName : String)
    (acc : FetchAcc) (repoName : String) : FetchAcc :=
  match env.listRuns orgName repoName with
  | .error _ => acc
  | .ok (runs, rate) =>
    { jobs := acc.jobs ++ runsFold period now startTime orgName repoName runs
    , rl := match rate with | some r => some r | none => acc.rl }

/-- Body of the organization loop (main.go 161-389): a failing repository
listing skips the organization; a successful one updates the snapshot,
filters the repositories, and walks them in listing order. -/
def orgStep (env : ApiEnv) (period : String) (now startTime : GTime)
    (acc : FetchAcc) (orgName : String) : FetchAcc :=
  match env.listByOrg orgName with
  | .error _ => acc
  | .ok (repos, rate) =>
    let acc1 : FetchAcc := { acc with rl := match rate with | some r => some r | none => acc.rl }
    let filteredRepos := repos.filter (repoKeep period now startTime)
    filteredRepos.foldl (fun a repo => repoStep env period now startTime orgName a repo.name) acc1

/-- The comparison closure given to sort.Slice (main.go 394-396). -/
def jobLt (x y : Job) : Bool := after x.CreatedAt y.CreatedAt

/-- The Aggregator's sort (main.go 393-396). -/
def sortJobs (jobs : List Job) : List Job := GoSort.sortSlice jobLt jobs

/-- The fallback rate limit (main.go 399-405): 5000/5000 resetting one
hour from now. -/
def defaultRate (now : GTime) : RateLimitInfo := ⟨5000, 5000, addSecs now 3600⟩

/-- fetchWorkflowRuns (main.go 137-408).  The Go function's error result
is always nil: every API failure is handled by continue inside the
loops, and the single return statement passes nil. -/
def fetchWorkflowRuns (env : ApiEnv) (orgNames : List String) (period : String)
    (now : GTime) : Except String (List Job × RateLimitInfo) :=
  let startTime := resolveStart period now
  let acc := orgNames.foldl (orgStep env period now startTime) ⟨[], none⟩
  let allJobs := sortJobs acc.jobs
  let rateLimitInfo := match acc.rl with | some r => r | none => defaultRate now
  .ok (allJobs, rateLimitInfo)

/-- calculateStats (main.go 410-429). -/
def calculateStats (jobs : List Job) : DashboardStats :=
  jobs.foldl
    (fun stats job =>
      if job.Status = "success" then { stats with Success := stats.Success + 1 }
      else if job.Status = "failed" then { stats with Failed := stats.Failed + 1 }
      else if job.Status = "running" then { stats with Running := stats.Running + 1 }
      else if job.Status = "pending" then { stats with Pending := stats.Pending + 1 }
      else stats)
    { Success := 0, Failed := 0, Running := 0, Pending := 0, Total := jobs.length }

/-- Period validation of dashboardHandler (main.go 436-444): empty or
unknown values become week. -/
def validatePeriod (p : String) : String :=
  let p1 := if p = "" then "week" else p
  if p1 ≠ "today" ∧ p1 ≠ "week" ∧ p1 ≠ "month" then "week" else p1

/-- What the handler writes back: a JSON response or an HTTP 500. -/
inductive HandlerResult
  | response (r : DashboardResponse)
  | httpError (msg : String)
deriving DecidableEq

/-- dashboardHandler (main.go 431-478).  The rate-limit nil check at
main.go 461-467 is dead in the model because fetchWorkflowRuns already
substitutes the same default. -/
def dashboardHandler (env : ApiEnv) (orgNames : List String) (rawPeriod : String)
    (now : GTime) : HandlerResult :=
  let period := validatePeriod rawPeriod
  match fetchWorkflowRuns env orgNames period now with
  | .error e => .httpError ("Error fetching workflow runs: " ++ e)
  | .ok (jobs, rateLimit) =>
    .response { Stats := calculateStats jobs, Jobs := jobs, RateLimit := rateLimit }

/-! ### Spec-side definitions and concrete scenario data

Definitions written from the spec's wording (for refinement comparison)
and the concrete environments and inputs used by counterexamples and
witnesses. -/

/-- A job list already ordered newest-first: no later entry's creation
instant is after an earlier entry's (ties allowed). -/
def JobsSortedDesc (l : List Job) : Prop :=
  List.Pairwise (fun x y => jobLt y x = false) l

instance (l : List Job) : Decidable (JobsSortedDesc l) := by
  unfold JobsSortedDesc; exact List.instDecidablePairwise l

/-- A job used in concrete scenarios: only the status, the creation
second and the run id vary. -/
def jobOf (status : String) (k rid : Int) : Job :=
  { ID := "", Name := "", Status := status, Pipeline := "", Branch := "",
    Duration := "", Started := "", Organization := "", RunID := rid, HTMLURL := "",
    CreatedAt := ⟨1970, 1, 1, 0, 0, k⟩ }

/-- The 13-job input on which the sort reorders equal creation instants:
job ids 0..12, creation seconds 5, then eleven ties at 1, then 9. -/
def c6jobs : List Job :=
  [jobOf "success" 5 0, jobOf "success" 1 1, jobOf "success" 1 2, jobOf "success" 1 3,
   jobOf "success" 1 4, jobOf "success" 1 5, jobOf "success" 1 6, jobOf "success" 1 7,
   jobOf "success" 1 8, jobOf "success" 1 9, jobOf "success" 1 10, jobOf "success" 1 11,
   jobOf "success" 9 12]

/-- A concrete reference instant for the scenario environments. -/
def t2026 : GTime := ⟨2026, 10, 11, 12, 0, 0⟩

/-- An environment in which every API call fails, so in particular the
very first call of any cycle fails. -/
def c1env : ApiEnv :=
  { listByOrg := fun _ => .error "api down"
  , listRuns := fun _ _ => .error "api down" }

/-- A three-organization environment in which the second organization
fails its repository listing and the others each deliver one repository
with one successful workflow run created the previous day. -/
def env9 : ApiEnv :=
  { listByOrg := fun o =>
      if o = "org1" then
        .ok ([⟨"repo1", some ⟨2026, 10, 10, 9, 0, 0⟩, none⟩],
          some ⟨4999, 5000, ⟨2026, 10, 11, 13, 0, 0⟩⟩)
      else if o = "org3" then
        .ok ([⟨"repo3", some ⟨2026, 10, 10, 10, 0, 0⟩, none⟩],
          some ⟨4997, 5000, ⟨2026, 10, 11, 13, 0, 0⟩⟩)
      else .error "listing failed"
  , listRuns := fun o r =>
      if o = "org1" ∧ r = "repo1" then
        .ok ([{ id := 11, name := "build", runNumber := some 3, status := "completed",
                conclusion := some "success",
                runStartedAt := some ⟨2026, 10, 10, 9, 0, 0⟩,
                createdAt := some ⟨2026, 10, 10, 9, 0, 0⟩,
                updatedAt := some ⟨2026, 10, 10, 9, 5, 0⟩,
                headBranch := some "main", htmlURL := none }],
          some ⟨4998, 5000, ⟨2026, 10, 11, 13, 0, 0⟩⟩)
      else if o = "org3" ∧ r = "repo3" then
        .ok ([{ id := 31, name := "test", runNumber := none, status := "completed",
                conclusion := some "failure",
                runStartedAt := some ⟨2026, 10, 10, 10, 0, 0⟩,
                createdAt := some ⟨2026, 10, 10, 10, 0, 0⟩,
                updatedAt := some ⟨2026, 10, 10, 10, 2, 0⟩,
                headBranch := some "dev", htmlURL := none }],
          some ⟨4996, 5000, ⟨2026, 10, 11, 13, 0, 0⟩⟩)
      else .error "listing failed" }

/-- The rate-limit snapshots of one organization's run-listing calls, in
repository order. -/
def repoTrace (env : ApiEnv) (orgName : String) (repos : List Repo) : List RateLimitInfo :=
  repos.flatMap (fun repo =>
    match env.listRuns orgName repo.name with
    | .error _ => []
    | .ok (_, rate2) => rate2.toList)

/-- All rate-limit snapshots reported during a cycle, in the order the
calls are issued: each organization's repository listing first, then its
filtered repositories' run listings, in iteration order. -/
def ratesTrace (env : ApiEnv) (orgNames : List String) (period : String)
    (now startTime : GTime) : List RateLimitInfo :=
  orgNames.flatMap (fun orgName =>
    match env.listByOrg orgName with
    | .error _ => []
    | .ok (repos, rate) =>
      rate.toList ++ repoTrace env orgName (repos.filter (repoKeep period now startTime)))

/-- The full resolved window of a period: the start instant of the
switch at main.go 145-156, plus the 23:00 end bound that both filters
apply when the period is today. -/
def resolveWindow (period : String) (now : GTime) : GTime × Option GTime :=
  (resolveStart period now, if period = "today" then some (todayEnd now) else none)

/-- The window as the spec words it: today spans 01:00:00 through
23:00:00 of the current day; week starts at the current instant minus 7
days (an absolute 604800 seconds) with no upper bound; month starts at
00:00:00 on the 1st of the current month with no upper bound; any other
keyword behaves exactly like week. -/
def specWindow (period : String) (now : GTime) : GTime × Option GTime :=
  if period = "today" then
    (⟨now.year, now.month, now.day, 1, 0, 0⟩,
      some ⟨now.year, now.month, now.day, 23, 0, 0⟩)
  else if period = "month" then (⟨now.year, now.month, 1, 0, 0, 0⟩, none)
  else (addSecs now (-604800), none)

/-- A run started inside the today window (10:30) but created before it
(00:30 of the same day). -/
def c2run : WRun :=
  { id := 7, name := "nightly", runNumber := none, status := "in_progress",
    conclusion := none,
    runStartedAt := some ⟨2026, 10, 11, 10, 30, 0⟩,
    createdAt := some ⟨2026, 10, 11, 0, 30, 0⟩,
    updatedAt := none, headBranch := none, htmlURL := none }

/-- One organization, one repository pushed today, one run: c2run. -/
def env2 : ApiEnv :=
  { listByOrg := fun o =>
      if o = "org1" then
        .ok ([⟨"repo1", some ⟨2026, 10, 11, 11, 0, 0⟩, none⟩], none)
      else .error "listing failed"
  , listRuns := fun o r =>
      if o = "org1" ∧ r = "repo1" then .ok ([c2run], none)
      else .error "listing failed" }

/-- Duration formatting as the spec words it, over a nonnegative whole
number of elapsed seconds. -/
def specFmtDur (n : Nat) : String :=
  if 3600 ≤ n then
    toString (n / 3600) ++ "h " ++ toString (n / 60 % 60) ++ "m " ++ toString (n % 60) ++ "s"
  else if 60 ≤ n then
    toString (n / 60) ++ "m " ++ toString (n % 60) ++ "s"
  else
    toString n ++ "s"

/-- A run whose only timestamp is run_started_at: the code outputs the
sentinel for its duration although a start instant exists. -/
def c4run : WRun :=
  { id := 9, name := "probe", runNumber := none, status := "queued",
    conclusion := none,
    runStartedAt := some ⟨2026, 10, 11, 10, 0, 0⟩,
    createdAt := none, updatedAt := none, headBranch := none, htmlURL := none }

/-- One organization, one recently pushed repository, one run: c4run. -/
def env4 : ApiEnv :=
  { listByOrg := fun o =>
      if o = "org1" then
        .ok ([⟨"repo1", some ⟨2026, 10, 10, 11, 0, 0⟩, none⟩], none)
      else .error "listing failed"
  , listRuns := fun o r =>
      if o = "org1" ∧ r = "repo1" then .ok ([c4run], none)
      else .error "listing failed" }

/-- A run with created_at and updated_at but no run_started_at: the
duration pairs created_at with updated_at. -/
def c4run2 : WRun :=
  { id := 10, name := "probe2", runNumber := none, status := "queued",
    conclusion := none,
    runStartedAt := none,
    createdAt := some ⟨2026, 10, 11, 10, 0, 0⟩,
    updatedAt := some ⟨2026, 10, 11, 10, 4, 30⟩,
    headBranch := none, htmlURL := none }

/-- Relative-time formatting as the spec words it, over a nonnegative
whole number of elapsed seconds. -/
def specTimeAgo (n : Nat) : String :=
  if 86400 ≤ n then
    toString (n / 86400) ++ " day" ++ (if n / 86400 = 1 then "" else "s") ++ " ago"
  else if 3600 ≤ n then
    toString (n / 3600) ++ " hour" ++ (if n / 3600 = 1 then "" else "s") ++ " ago"
  else if 60 ≤ n then
    toString (n / 60) ++ " minute" ++ (if n / 60 = 1 then "" else "s") ++ " ago"
  else "just now"

/-! ### Permutation lemmas for the sort port

Every mutation the ported pdqsort performs is a swapAt, so every stage
returns a permutation of its input. -/

namespace GoSort

theorem cons_set_perm {α : Type} (a y : α) :
    ∀ (t : List α) (k : Nat), t.get? k = some y → List.Perm (y :: t.set k a) (a :: t)
  | t, 0, h => by
    cases t with
    | nil => simp at h
    | cons b t2 =>
      have hb : b = y := by simpa using h
      subst hb
      simpa using List.Perm.swap a b t2
  | t, k+1, h => by
    cases t with
    | nil => simp at h
    | cons b t2 =>
      have ih := cons_set_perm a y t2 k (by simpa using h)
      show List.Perm (y :: b :: t2.set k a) (a :: b :: t2)
      exact ((List.Perm.swap b y _).trans ((ih.cons b))).trans (List.Perm.swap a b t2)

theorem set_set_perm {α : Type} :
    ∀ (l : List α) (i j : Nat) (x y : α), i < j → l.get? i = some x →
      l.get? j = some y → List.Perm ((l.set i y).set j x) l
  | [], _, _, _, _, _, h1, _ => by simp at h1
  | a :: t, 0, j+1, x, y, _, h1, h2 => by
    have ha : a = x := by simpa using h1
    subst ha
    show List.Perm (y :: t.set j a) (a :: t)
    exact cons_set_perm a y t j (by simpa using h2)
  | a :: t, i+1, j+1, x, y, hij, h1, h2 => by
    show List.Perm (a :: (t.set i y).set j x) (a :: t)
    exact (set_set_perm t i j x y (by omega) (by simpa using h1) (by simpa using h2)).cons a

theorem set_self {α : Type} :
    ∀ (l : List α) (i : Nat) (x : α), l.get? i = some x → l.set i x = l
  | [], _, _, h => by simp at h
  | a :: t, 0, x, h => by
    have ha : a = x := by simpa using h
    subst ha; rfl
  | a :: t, i+1, x, h => by
    show a :: t.set i x = a :: t
    rw [set_self t i x (by simpa using h)]

theorem swapAt_perm {α : Type} (l : List α) (i j : Nat) : List.Perm (swapAt l i j) l := by
  unfold swapAt
  split
  case h_2 => exact .refl _
  case h_1 x y h1 h2 =>
    rcases Nat.lt_trichotomy i j with h | h | h
    · exact set_set_perm l i j x y h h1 h2
    · subst h
      have hxy : x = y := by rw [h1] at h2; exact (Option.some.injEq ..).mp h2
      subst hxy
      rw [List.set_set, set_self l i x h1]
    · rw [List.set_comm _ _ _ (by omega)]
      exact set_set_perm l j i y x h h2 h1

section PermLemmas

variable {α : Type} [Inhabited α] (lt : α → α → Bool)

theorem insertInner_perm (a : Nat) :
    ∀ (l : List α) (j : Nat), List.Perm (insertInner lt a l j) l
  | l, 0 => .refl l
  | l, j+1 => by
    unfold insertInner
    split
    · exact (insertInner_perm a _ j).trans (swapAt_perm l (j+1) j)
    · exact .refl l

theorem insertLoop_perm (a b : Nat) :
    ∀ (fuel : Nat) (l : List α) (i : Nat), List.Perm (insertLoop lt a b l i fuel) l
  | 0, l, _ => .refl l
  | fuel+1, l, i => by
    unfold insertLoop
    split
    · exact (insertLoop_perm a b fuel _ (i+1)).trans (insertInner_perm lt a l i)
    · exact .refl l

theorem insertionSort_perm (a b : Nat) (l : List α) :
    List.Perm (insertionSort lt a b l) l := insertLoop_perm lt a b b l (a+1)

theorem siftLoop_perm (first hi : Nat) :
    ∀ (fuel : Nat) (l : List α) (root : Nat), List.Perm (siftLoop lt first hi l root fuel) l
  | 0, l, _ => .refl l
  | fuel+1, l, root => by
    unfold siftLoop
    dsimp only
    split
    · exact .refl l
    · split <;> split
      · exact .refl l
      · exact (siftLoop_perm first hi fuel _ _).trans (swapAt_perm l _ _)
      · exact .refl l
      · exact (siftLoop_perm first hi fuel _ _).trans (swapAt_perm l _ _)

theorem siftDown_perm (first lo hi : Nat) (l : List α) :
    List.Perm (siftDown lt first lo hi l) l := siftLoop_perm lt first hi (hi+1) l lo

theorem heapInit_perm (first hi : Nat) :
    ∀ (k : Nat) (l : List α), List.Perm (heapInit lt first hi l k) l
  | 0, l => .refl l
  | k+1, l => by
    unfold heapInit
    exact (heapInit_perm first hi k _).trans (siftDown_perm lt first k hi l)

theorem heapExtract_perm (first : Nat) :
    ∀ (k : Nat) (l : List α), List.Perm (heapExtract lt first l k) l
  | 0, l => .refl l
  | k+1, l => by
    unfold heapExtract
    exact (heapExtract_perm first k _).trans
      ((siftDown_perm lt first 0 k _).trans (swapAt_perm l first (first+k)))

theorem heapSort_perm (a b : Nat) (l : List α) :
    List.Perm (heapSort lt a b l) l := by
  unfold heapSort
  exact (heapExtract_perm lt a (b-a) _).trans (heapInit_perm lt a (b-a) _ l)

omit [Inhabited α] in
theorem revLoop_perm :
    ∀ (fuel : Nat) (l : List α) (i j : Nat), List.Perm (revLoop l i j fuel) l
  | 0, l, _, _ => .refl l
  | fuel+1, l, i, j => by
    unfold revLoop
    split
    · exact (revLoop_perm fuel _ (i+1) (j-1)).trans (swapAt_perm l i j)
    · exact .refl l

omit [Inhabited α] in
theorem reverseRange_perm (a b : Nat) (l : List α) :
    List.Perm (reverseRange a b l) l := revLoop_perm b l a (b-1)

theorem pisShiftLeft_perm :
    ∀ (l : List α) (j : Nat), List.Perm (pisShiftLeft lt l j) l
  | l, 0 => .refl l
  | l, j+1 => by
    unfold pisShiftLeft
    split
    · exact .refl l
    · exact (pisShiftLeft_perm _ j).trans (swapAt_perm l (j+1) j)

theorem pisShiftRight_perm (b : Nat) :
    ∀ (fuel : Nat) (l : List α) (j : Nat), List.Perm (pisShiftRight lt b l j fuel) l
  | 0, l, _ => .refl l
  | fuel+1, l, j => by
    unfold pisShiftRight
    split
    · split
      · exact .refl l
      · exact (pisShiftRight_perm b fuel _ (j+1)).trans (swapAt_perm l j (j-1))
    · exact .refl l

theorem pisLoop_perm (a b : Nat) :
    ∀ (steps : Nat) (l : List α) (i : Nat), List.Perm (pisLoop lt a b l i steps).1 l
  | 0, l, _ => .refl l
  | steps+1, l, i => by
    unfold pisLoop
    dsimp only
    split
    · exact .refl l
    · split
      · exact .refl l
      · refine (pisLoop_perm a b steps _ _).trans ?_
        have h1 : List.Perm (swapAt l (pisScan lt l b i b) (pisScan lt l b i b - 1)) l :=
          swapAt_perm l _ _
        have h2 : List.Perm (if 2 ≤ pisScan lt l b i b - a then
            pisShiftLeft lt (swapAt l (pisScan lt l b i b) (pisScan lt l b i b - 1))
              (pisScan lt l b i b - 1)
          else swapAt l (pisScan lt l b i b) (pisScan lt l b i b - 1))
            (swapAt l (pisScan lt l b i b) (pisScan lt l b i b - 1)) := by
          split
          · exact pisShiftLeft_perm lt _ _
          · exact .refl _
        refine List.Perm.trans ?_ (h2.trans h1)
        split
        · exact pisShiftRight_perm lt b b _ _
        · exact .refl _

theorem partialInsertionSort_perm (a b : Nat) (l : List α) :
    List.Perm (partialInsertionSort lt a b l).1 l := pisLoop_perm lt a b 5 l (a+1)

theorem partLoop_perm (aIdx b : Nat) :
    ∀ (fuel : Nat) (l : List α) (i j : Nat), List.Perm (partLoop lt aIdx b l i j fuel).1 l
  | 0, l, _, _ => .refl l
  | fuel+1, l, i, j => by
    unfold partLoop
    dsimp only
    split
    · exact .refl l
    · exact (partLoop_perm aIdx b fuel _ _ _).trans (swapAt_perm l _ _)

theorem partition_perm (a b pivot : Nat) (l : List α) :
    List.Perm (partition lt a b pivot l).1 l := by
  unfold partition
  dsimp only
  split
  · exact (swapAt_perm _ _ _).trans (swapAt_perm l a pivot)
  · exact ((swapAt_perm _ _ _).trans
      ((partLoop_perm lt a b b _ _ _).trans (swapAt_perm _ _ _))).trans (swapAt_perm l a pivot)

theorem peLoop_perm (aIdx b : Nat) :
    ∀ (fuel : Nat) (l : List α) (i j : Nat), List.Perm (peLoop lt aIdx b l i j fuel).1 l
  | 0, l, _, _ => .refl l
  | fuel+1, l, i, j => by
    unfold peLoop
    dsimp only
    split
    · exact .refl l
    · exact (peLoop_perm aIdx b fuel _ _ _).trans (swapAt_perm l _ _)

theorem partitionEqual_perm (a b pivot : Nat) (l : List α) :
    List.Perm (partitionEqual lt a b pivot l).1 l :=
  (peLoop_perm lt a b b _ (a+1) (b-1)).trans (swapAt_perm l a pivot)

omit [Inhabited α] in
theorem breakPatterns_perm (l : List α) (a b : Nat) :
    List.Perm (breakPatterns l a b) l := by
  unfold breakPatterns
  dsimp only
  split
  · exact ((swapAt_perm _ _ _).trans (swapAt_perm _ _ _)).trans (swapAt_perm l _ _)
  · exact .refl l

theorem pdqBody_perm (l : List α) (a b limit : Nat) (wasB wasP : Bool) :
    List.Perm (pdqBody lt l a b limit wasB wasP).1 l := by
  unfold pdqBody
  dsimp only
  set p1 := (if wasB = true then (l, limit) else (breakPatterns l a b, limit - 1)) with hp1
  have h1 : List.Perm p1.1 l := by
    rw [hp1]
    split
    · exact .refl l
    · exact breakPatterns_perm l a b
  set cp := choosePivot lt p1.1 a b with hcp
  set p2 := (if cp.2 = Hint.decreasing then
      (reverseRange a b p1.1, b - 1 - (cp.1 - a), Hint.increasing)
    else (p1.1, cp.1, cp.2)) with hp2
  have h2 : List.Perm p2.1 p1.1 := by
    rw [hp2]
    split
    · exact reverseRange_perm a b _
    · exact .refl _
  refine List.Perm.trans ?_ (h2.trans h1)
  split
  · exact partialInsertionSort_perm lt a b _
  · exact .refl _

theorem pdqsort_perm :
    ∀ (fuel : Nat) (l : List α) (a b limit : Nat) (wasB wasP : Bool),
      List.Perm (pdqsort lt fuel l a b limit wasB wasP) l
  | 0, l, _, _, _, _, _ => .refl l
  | fuel+1, l, a, b, limit, wasB, wasP => by
    unfold pdqsort
    dsimp only
    split
    · exact insertionSort_perm lt a b l
    · split
      · exact heapSort_perm lt a b l
      · have base : List.Perm (pdqBody lt l a b limit wasB wasP).1 l :=
          pdqBody_perm lt l a b limit wasB wasP
        split
        · exact base
        · split
          · exact (pdqsort_perm fuel _ _ b _ wasB wasP).trans
              ((partitionEqual_perm lt a b _ _).trans base)
          · split
            · exact (pdqsort_perm fuel _ _ b _ _ _).trans
                ((pdqsort_perm fuel _ a _ _ _ _).trans
                  ((partition_perm lt a b _ _).trans base))
            · exact (pdqsort_perm fuel _ a _ _ _ _).trans
                ((pdqsort_perm fuel _ _ b _ _ _).trans
                  ((partition_perm lt a b _ _).trans base))

theorem sortSlice_perm (l : List α) : List.Perm (sortSlice lt l) l :=
  pdqsort_perm lt (l.length+1) l 0 l.length (bitsLen l.length) true true

end PermLemmas

/-! ### A sorted list passes through the sort unchanged

On input already sorted for lt, choosePivot counts no swaps, so the
increasing-hint path runs partialInsertionSort, which detects the sorted
range and returns before performing any swap. -/

section SortedId

variable {α : Type} [Inhabited α] (lt : α → α → Bool)

theorem insertInner_id (a : Nat) (l : List α) (hs : RangeSorted lt l) :
    ∀ i, i < l.length → insertInner lt a l i = l := by
  intro i hi
  cases i with
  | zero => rfl
  | succ j =>
    unfold insertInner
    rw [hs j (j+1) (by omega) hi]
    simp

theorem insertLoop_id (a b : Nat) (l : List α) (hs : RangeSorted lt l) (hb : b ≤ l.length) :
    ∀ fuel i, insertLoop lt a b l i fuel = l
  | 0, _ => rfl
  | fuel+1, i => by
    unfold insertLoop
    split
    · rw [insertInner_id lt a l hs i (by omega)]
      exact insertLoop_id a b l hs hb fuel (i+1)
    · rfl

theorem insertionSort_id (a b : Nat) (l : List α) (hs : RangeSorted lt l)
    (hb : b ≤ l.length) : insertionSort lt a b l = l :=
  insertLoop_id lt a b l hs hb b (a+1)

theorem order2_id (l : List α) (hs : RangeSorted lt l) (a b swaps : Nat)
    (hab : a < b) (hb : b < l.length) : order2 lt l a b swaps = (a, b, swaps) := by
  unfold order2
  rw [hs a b hab hb]
  simp

theorem median_id (l : List α) (hs : RangeSorted lt l) (a b c swaps : Nat)
    (hab : a < b) (hbc : b < c) (hc : c < l.length) :
    median lt l a b c swaps = (b, swaps) := by
  unfold median
  rw [order2_id lt l hs a b swaps hab (by omega)]
  dsimp only
  rw [order2_id lt l hs b c swaps hbc hc]
  dsimp only
  rw [order2_id lt l hs a b swaps hab (by omega)]

theorem medianAdjacent_id (l : List α) (hs : RangeSorted lt l) (i swaps : Nat)
    (h1 : 1 ≤ i) (h2 : i + 1 < l.length) : medianAdjacent lt l i swaps = (i, swaps) := by
  unfold medianAdjacent
  exact median_id lt l hs (i-1) i (i+1) swaps (by omega) (by omega) h2

theorem choosePivot_increasing (l : List α) (hs : RangeSorted lt l) (a b : Nat)
    (hab : a < b) (hb : b ≤ l.length) :
    (choosePivot lt l a b).2 = Hint.increasing := by
  unfold choosePivot
  dsimp only
  by_cases h8 : 8 ≤ b - a
  · rw [if_pos h8]
    by_cases h50 : 50 ≤ b - a
    · rw [if_pos h50]
      rw [medianAdjacent_id lt l hs _ 0 (by omega) (by omega)]
      dsimp only
      rw [medianAdjacent_id lt l hs _ 0 (by omega) (by omega)]
      dsimp only
      rw [medianAdjacent_id lt l hs _ 0 (by omega) (by omega)]
      dsimp only
      rw [median_id lt l hs _ _ _ 0 (by omega) (by omega) (by omega)]
      simp
    · rw [if_neg h50]
      rw [median_id lt l hs _ _ _ 0 (by omega) (by omega) (by omega)]
      simp
  · rw [if_neg h8]
    simp

theorem pisScan_id (l : List α) (hs : RangeSorted lt l) (b : Nat) (hb : b ≤ l.length) :
    ∀ fuel i, 1 ≤ i → i ≤ b → b ≤ i + fuel → pisScan lt l b i fuel = b := by
  intro fuel
  induction fuel with
  | zero =>
    intro i h1 h2 h3
    unfold pisScan
    omega
  | succ fuel ih =>
    intro i h1 h2 h3
    unfold pisScan
    by_cases hib : i < b
    · rw [hs (i-1) i (by omega) (by omega)]
      simp only [hib, Bool.false_eq_true, not_false_eq_true, and_true, true_and, if_pos]
      exact ih (i+1) (by omega) (by omega) (by omega)
    · have hieq : i = b := by omega
      simp [hib, hieq]

theorem partialInsertionSort_id (a b : Nat) (l : List α) (hs : RangeSorted lt l)
    (hab : a < b) (hb : b ≤ l.length) :
    partialInsertionSort lt a b l = (l, true) := by
  unfold partialInsertionSort
  rw [show (5:Nat) = 4+1 from rfl]
  unfold pisLoop
  dsimp only
  rw [pisScan_id lt l hs b hb b (a+1) (by omega) (by omega) (by omega)]
  simp

theorem pdqBody_id (l : List α) (hs : RangeSorted lt l) (a b limit : Nat)
    (hab : a < b) (hb : b ≤ l.length) :
    pdqBody lt l a b limit true true = (l, true, limit, (choosePivot lt l a b).1) := by
  have hcp := choosePivot_increasing lt l hs a b hab hb
  unfold pdqBody
  simp [hcp, partialInsertionSort_id lt a b l hs hab hb]

theorem pdqsort_id (l : List α) (hs : RangeSorted lt l) (fuel b limit : Nat)
    (hb : b = l.length) (hlim : 13 ≤ b → limit ≠ 0) :
    pdqsort lt (fuel+1) l 0 b limit true true = l := by
  unfold pdqsort
  dsimp only
  by_cases h12 : b - 0 ≤ 12
  · rw [if_pos h12]
    exact insertionSort_id lt 0 b l hs (by omega)
  · rw [if_neg h12]
    rw [if_neg (hlim (by omega))]
    rw [pdqBody_id lt l hs 0 b limit (by omega) (by omega)]
    simp

theorem sortSlice_id (l : List α) (hs : RangeSorted lt l) : sortSlice lt l = l := by
  unfold sortSlice
  dsimp only
  have hlen : l.length + 1 = l.length + 1 := rfl
  exact pdqsort_id lt l hs l.length l.length (bitsLen l.length) rfl
    (fun h => by unfold bitsLen; split <;> omega)

end SortedId

/-! ### Sortedness of the pdqsort port

The remaining sections prove that sortSlice actually sorts: assuming the
comparison closure orders elements by an integer value (valAt), every
stage keeps its mutations inside its range (SameOutside), and the final
list is VSorted.  The development follows the textbook correctness
arguments for insertion sort, heapsort and Hoare partitioning, plus the
sentinel argument pdqsort itself relies on: the element left of a
subrange is a former pivot bounding the subrange from below, which is
what stops the partial-insertion shifts at the subrange boundary. -/

section SwapFacts

variable {α : Type} [Inhabited α]

omit [Inhabited α] in
theorem swapAt_length (l : List α) (i j : Nat) : (swapAt l i j).length = l.length :=
  (swapAt_perm l i j).length_eq

theorem swapAt_eq_set (l : List α) (i j : Nat) (hi : i < l.length) (hj : j < l.length) :
    swapAt l i j = (l.set i (l.getD j default)).set j (l.getD i default) := by
  unfold swapAt
  simp only [List.get?_eq_getElem?, List.getElem?_eq_getElem hi, List.getElem?_eq_getElem hj]
  rw [List.getD_eq_getElem l default hi, List.getD_eq_getElem l default hj]

theorem swapAt_getD_fst (l : List α) (i j : Nat) (hi : i < l.length) (hj : j < l.length) :
    (swapAt l i j).getD i default = l.getD j default := by
  rw [swapAt_eq_set l i j hi hj]
  by_cases hij : i = j
  · subst hij
    rw [List.getD_eq_getElem?_getD, List.getElem?_set_self (by simpa using hi)]
    rfl
  · rw [List.getD_eq_getElem?_getD, List.getElem?_set_ne (show j ≠ i from fun h => hij h.symm),
      List.getElem?_set_self (by simpa using hi)]
    rfl

theorem swapAt_getD_snd (l : List α) (i j : Nat) (hi : i < l.length) (hj : j < l.length) :
    (swapAt l i j).getD j default = l.getD i default := by
  rw [swapAt_eq_set l i j hi hj]
  rw [List.getD_eq_getElem?_getD, List.getElem?_set_self (by simpa using hj)]
  rfl

theorem swapAt_getD_other (l : List α) (i j k : Nat) (hki : k ≠ i) (hkj : k ≠ j) :
    (swapAt l i j).getD k default = l.getD k default := by
  by_cases hi : i < l.length
  · by_cases hj : j < l.length
    · rw [swapAt_eq_set l i j hi hj]
      rw [List.getD_eq_getElem?_getD, List.getElem?_set_ne (fun h => hkj h.symm),
        List.getElem?_set_ne (fun h => hki h.symm), ← List.getD_eq_getElem?_getD]
    · unfold swapAt
      rw [List.get?_eq_getElem? l j, List.getElem?_eq_none (by omega)]
      split
      · rename_i hy
        exact absurd hy (by simp)
      · rfl
  · unfold swapAt
    rw [List.get?_eq_getElem? l i, List.getElem?_eq_none (by omega)]

end SwapFacts

section OutsideFacts

variable {α : Type} [Inhabited α]

theorem sameOutside_refl (l : List α) (a b : Nat) : SameOutside l l a b :=
  ⟨rfl, fun _ _ => rfl⟩

theorem sameOutside_trans {l1 l2 l3 : List α} {a b : Nat}
    (h1 : SameOutside l1 l2 a b) (h2 : SameOutside l2 l3 a b) : SameOutside l1 l3 a b :=
  ⟨h1.1.trans h2.1, fun k hk => (h1.2 k hk).trans (h2.2 k hk)⟩

theorem sameOutside_mono {l l' : List α} {a b a' b' : Nat}
    (h : SameOutside l l' a b) (ha : a' ≤ a) (hb : b ≤ b') : SameOutside l l' a' b' :=
  ⟨h.1, fun k hk => h.2 k (by omega)⟩

theorem swapAt_sameOutside (l : List α) (a b i j : Nat)
    (h1 : a ≤ i) (h2 : i < b) (h3 : a ≤ j) (h4 : j < b) :
    SameOutside l (swapAt l i j) a b :=
  ⟨(swapAt_length l i j).symm,
    fun k hk => (swapAt_getD_other l i j k (by omega) (by omega)).symm⟩

theorem getElem?_eq_of_sameOutside {l l' : List α} {a b : Nat}
    (h : SameOutside l l' a b) (k : Nat) (hk : k < a ∨ b ≤ k) : l[k]? = l'[k]? := by
  have hlen : l.length = l'.length := h.1
  by_cases hkl : k < l.length
  · rw [List.getElem?_eq_getElem hkl, List.getElem?_eq_getElem (by omega : k < l'.length)]
    have := h.2 k hk
    rw [List.getD_eq_getElem l default hkl,
      List.getD_eq_getElem l' default (by omega : k < l'.length)] at this
    rw [this]
  · rw [List.getElem?_eq_none (by omega), List.getElem?_eq_none (by omega)]

/-- The segment [a, b) of a list. -/
theorem seg_perm {l l' : List α} {a b : Nat} (hab : a ≤ b)
    (hout : SameOutside l l' a b) (hperm : List.Perm l l') (hb : b ≤ l.length) :
    List.Perm ((l.drop a).take (b - a)) ((l'.drop a).take (b - a)) := by
  have hlen : l.length = l'.length := hout.1
  have htake : l.take a = l'.take a := by
    apply List.ext_getElem?
    intro k
    rw [List.getElem?_take, List.getElem?_take]
    split
    · exact getElem?_eq_of_sameOutside hout k (Or.inl (by omega))
    · rfl
  have hdroph : l.drop b = l'.drop b := by
    apply List.ext_getElem?
    intro k
    rw [List.getElem?_drop, List.getElem?_drop]
    exact getElem?_eq_of_sameOutside hout (b + k) (Or.inr (by omega))
  have hdecomp : ∀ m : List α, m.take a ++ ((m.drop a).take (b - a) ++ m.drop b) = m := by
    intro m
    have h1 : (m.drop a).take (b - a) ++ (m.drop a).drop (b - a) = m.drop a :=
      List.take_append_drop (b - a) (m.drop a)
    have h2 : (m.drop a).drop (b - a) = m.drop b := by
      rw [List.drop_drop]
      congr 1
      omega
    rw [h2] at h1
    rw [h1]
    exact List.take_append_drop a m
  have hp : List.Perm (l.take a ++ ((l.drop a).take (b - a) ++ l.drop b))
      (l'.take a ++ ((l'.drop a).take (b - a) ++ l'.drop b)) := by
    rw [hdecomp l, hdecomp l']
    exact hperm
  rw [htake] at hp
  have hp2 := (List.perm_append_left_iff (l'.take a)).mp hp
  rw [hdroph] at hp2
  exact (List.perm_append_right_iff (l'.drop b)).mp hp2

theorem getD_mem_seg {l : List α} {a b k : Nat} (h1 : a ≤ k) (h2 : k < b)
    (hb : b ≤ l.length) : l.getD k default ∈ (l.drop a).take (b - a) := by
  have hlen : k - a < ((l.drop a).take (b - a)).length := by
    simp [List.length_take, List.length_drop]
    omega
  have : ((l.drop a).take (b - a))[k - a] = l.getD k default := by
    rw [List.getElem_take, List.getElem_drop]
    rw [List.getD_eq_getElem l default (by omega)]
    congr 1
    omega
  rw [← this]
  exact List.getElem_mem hlen

theorem seg_elem_getD {l : List α} {a b : Nat} {x : α} (hb : b ≤ l.length)
    (hx : x ∈ (l.drop a).take (b - a)) : ∃ k, a ≤ k ∧ k < b ∧ l.getD k default = x := by
  rw [List.mem_iff_getElem] at hx
  obtain ⟨idx, hidx, hval⟩ := hx
  have hidx2 : idx < b - a := by
    have := List.length_take (b - a) (l.drop a)
    omega
  refine ⟨a + idx, by omega, by omega, ?_⟩
  rw [List.getElem_take, List.getElem_drop] at hval
  rw [List.getD_eq_getElem l default (by omega)]
  exact hval

/-- A predicate of element values holding on [a, b) survives any stage
that permutes the list while keeping everything outside [a, b) fixed. -/
theorem allRange_transport (val : α → Int) (P : Int → Prop) {l l' : List α} {a b : Nat}
    (hperm : List.Perm l l') (hout : SameOutside l l' a b) (hb : b ≤ l.length)
    (h : ∀ k, a ≤ k → k < b → P (valAt val l k)) :
    ∀ k, a ≤ k → k < b → P (valAt val l' k) := by
  intro k hk1 hk2
  have hmem : l'.getD k default ∈ (l'.drop a).take (b - a) :=
    getD_mem_seg hk1 hk2 (by rw [← hout.1]; exact hb)
  have hmem2 : l'.getD k default ∈ (l.drop a).take (b - a) :=
    ((seg_perm (by omega) hout hperm hb).mem_iff).mpr hmem
  obtain ⟨m, hm1, hm2, hm3⟩ := seg_elem_getD hb hmem2
  unfold valAt
  rw [← hm3]
  exact h m hm1 hm2

end OutsideFacts

section SortCorrectness

variable {α : Type} [Inhabited α] {lt : α → α → Bool} {val : α → Int}

theorem lessAt_iff (hval : ∀ x y, lt x y = true ↔ val x < val y) (l : List α) (i j : Nat) :
    lessAt lt l i j = true ↔ valAt val l i < valAt val l j := hval _ _

theorem lessAt_false_iff (hval : ∀ x y, lt x y = true ↔ val x < val y) (l : List α) (i j : Nat) :
    lessAt lt l i j = false ↔ valAt val l j ≤ valAt val l i := by
  unfold lessAt valAt
  simp only [Bool.eq_false_iff, ne_eq, hval, Int.not_lt]

theorem valAt_swapAt_fst (l : List α) (i j : Nat) (hi : i < l.length) (hj : j < l.length) :
    valAt val (swapAt l i j) i = valAt val l j := by
  unfold valAt
  rw [swapAt_getD_fst l i j hi hj]

theorem valAt_swapAt_snd (l : List α) (i j : Nat) (hi : i < l.length) (hj : j < l.length) :
    valAt val (swapAt l i j) j = valAt val l i := by
  unfold valAt
  rw [swapAt_getD_snd l i j hi hj]

theorem valAt_swapAt_other (l : List α) (i j k : Nat) (hki : k ≠ i) (hkj : k ≠ j) :
    valAt val (swapAt l i j) k = valAt val l k := by
  unfold valAt
  rw [swapAt_getD_other l i j k hki hkj]

theorem vsorted_of_le {l : List α} {a b c : Nat} (h : VSorted val l a b) (hc : c ≤ b) :
    VSorted val l a c := fun i j h1 h2 h3 => h i j h1 h2 (by omega)

theorem vsorted_small {l : List α} {a b : Nat} (h : b ≤ a + 1) : VSorted val l a b :=
  fun _ _ h1 h2 h3 => absurd h3 (by omega)

theorem insertInner_sorts (hval : ∀ x y, lt x y = true ↔ val x < val y) (a i : Nat) :
    ∀ (j : Nat) (l : List α), a ≤ j → j ≤ i → i < l.length →
      VSorted val l a j →
      VSorted val l j (i+1) →
      (∀ p k : Nat, a ≤ p → p < j → j < k → k ≤ i → valAt val l p ≤ valAt val l k) →
      VSorted val (insertInner lt a l j) a (i+1) ∧
        SameOutside l (insertInner lt a l j) a (i+1)
  | 0, l, ha, hji, hil, h1, h2, h3 => by
    have ha0 : a = 0 := by omega
    subst ha0
    exact ⟨h2, sameOutside_refl l 0 (i+1)⟩
  | j+1, l, ha, hji, hil, h1, h2, h3 => by
    unfold insertInner
    split
    · rename_i hg
      obtain ⟨haj, hless⟩ := hg
      have hjl : j < l.length := by omega
      have hj1l : j + 1 < l.length := by omega
      have hm : valAt val l (j+1) < valAt val l j := (lessAt_iff hval l (j+1) j).mp hless
      have e1 : valAt val (swapAt l (j+1) j) (j+1) = valAt val l j :=
        valAt_swapAt_fst l (j+1) j hj1l hjl
      have e2 : valAt val (swapAt l (j+1) j) j = valAt val l (j+1) :=
        valAt_swapAt_snd l (j+1) j hj1l hjl
      have e3 : ∀ k, k ≠ j+1 → k ≠ j → valAt val (swapAt l (j+1) j) k = valAt val l k :=
        fun k hk1 hk2 => valAt_swapAt_other l (j+1) j k hk1 hk2
      have hlen : (swapAt l (j+1) j).length = l.length := swapAt_length l (j+1) j
      have s1 : VSorted val (swapAt l (j+1) j) a j := by
        intro p q hp hpq hq
        rw [e3 p (by omega) (by omega), e3 q (by omega) (by omega)]
        exact h1 p q hp hpq (by omega)
      have s2 : VSorted val (swapAt l (j+1) j) j (i+1) := by
        intro p q hp hpq hq
        rcases Nat.eq_or_lt_of_le hp with hpj | hpj
        · rw [← hpj, e2]
          rcases Nat.eq_or_lt_of_le (show j + 1 ≤ q by omega) with hq1 | hq1
          · rw [← hq1, e1]
            omega
          · rw [e3 q (by omega) (by omega)]
            exact h2 (j+1) q (le_refl _) hq1 hq
        · rcases Nat.eq_or_lt_of_le (show j + 1 ≤ p by omega) with hp1 | hp1
          · rw [← hp1, e1, e3 q (by omega) (by omega)]
            exact h3 j q (by omega) (by omega) (by omega) (by omega)
          · rw [e3 p (by omega) (by omega), e3 q (by omega) (by omega)]
            exact h2 p q (by omega) hpq hq
      have s3 : ∀ p k : Nat, a ≤ p → p < j → j < k → k ≤ i →
          valAt val (swapAt l (j+1) j) p ≤ valAt val (swapAt l (j+1) j) k := by
        intro p k hp hpj hjk hki2
        rw [e3 p (by omega) (by omega)]
        rcases Nat.eq_or_lt_of_le (show j + 1 ≤ k by omega) with hk | hk
        · rw [← hk, e1]
          exact h1 p j hp hpj (by omega)
        · rw [e3 k (by omega) (by omega)]
          exact le_trans (h1 p j hp hpj (by omega)) (h3 j k (by omega) (by omega) hk hki2)
      have ih := insertInner_sorts hval a i j (swapAt l (j+1) j) (by omega) (by omega)
        (by omega) s1 s2 s3
      refine ⟨ih.1, sameOutside_trans ?_ ih.2⟩
      exact swapAt_sameOutside l a (i+1) (j+1) j (by omega) (by omega) (by omega) (by omega)
    · rename_i hg
      by_cases haj : a < j + 1
      · have hfalse : lessAt lt l (j+1) j = false := by
          cases hlf : lessAt lt l (j+1) j
          · rfl
          · exact absurd ⟨haj, hlf⟩ hg
        have hmj : valAt val l j ≤ valAt val l (j+1) := (lessAt_false_iff hval l (j+1) j).mp hfalse
        refine ⟨?_, sameOutside_refl l a (i+1)⟩
        intro p q hp hpq hq
        by_cases hqj : q ≤ j
        · exact h1 p q hp hpq (by omega)
        · by_cases hpj : j + 1 ≤ p
          · exact h2 p q (by omega) hpq hq
          · have hpLj : valAt val l p ≤ valAt val l j := by
              rcases Nat.eq_or_lt_of_le (show p ≤ j by omega) with h | h
              · exact le_of_eq (by rw [h])
              · exact h1 p j hp h (by omega)
            have hj1q : valAt val l (j+1) ≤ valAt val l q := by
              rcases Nat.eq_or_lt_of_le (show j + 1 ≤ q by omega) with h | h
              · exact le_of_eq (by rw [h])
              · exact h2 (j+1) q (le_refl _) h hq
            exact le_trans (le_trans hpLj hmj) hj1q
      · have haeq : a = j + 1 := by omega
        refine ⟨?_, sameOutside_refl l a (i+1)⟩
        rw [haeq]
        exact h2
 
theorem insertLoop_sorts (hval : ∀ x y, lt x y = true ↔ val x < val y) (a b : Nat) :
    ∀ (fuel : Nat) (l : List α) (i : Nat), a + 1 ≤ i → b ≤ l.length → b ≤ i + fuel →
      VSorted val l a i →
      VSorted val (insertLoop lt a b l i fuel) a b ∧
        SameOutside l (insertLoop lt a b l i fuel) a b
  | 0, l, i, hai, hbl, hfuel, hs =>
    ⟨vsorted_of_le hs (by omega), sameOutside_refl l a b⟩
  | fuel+1, l, i, hai, hbl, hfuel, hs => by
    unfold insertLoop
    split
    · rename_i hib
      have hinner := insertInner_sorts hval a i i l (by omega) (le_refl i) (by omega)
        hs (vsorted_small (by omega)) (fun p k hp hpk hik hki => by omega)
      have hlen : (insertInner lt a l i).length = l.length := (insertInner_perm lt a l i).length_eq
      have ih := insertLoop_sorts hval a b fuel (insertInner lt a l i) (i+1) (by omega)
        (by omega) (by omega) hinner.1
      exact ⟨ih.1, sameOutside_trans
        (sameOutside_mono hinner.2 (le_refl a) (show i + 1 ≤ b by omega)) ih.2⟩
    · rename_i hib
      exact ⟨vsorted_of_le hs (by omega), sameOutside_refl l a b⟩

theorem insertionSort_sorts (hval : ∀ x y, lt x y = true ↔ val x < val y) (a b : Nat)
    (l : List α) (hb : b ≤ l.length) :
    VSorted val (insertionSort lt a b l) a b ∧ SameOutside l (insertionSort lt a b l) a b := by
  unfold insertionSort
  exact insertLoop_sorts hval a b b l (a+1) (le_refl _) hb (by omega) (vsorted_small (by omega))

theorem heap_root_max (first n : Nat) (l : List α)
    (hheap : ∀ r, HeapAt val first l n r) :
    ∀ c, c < n → valAt val l (first + c) ≤ valAt val l (first + 0) := by
  intro c
  induction c using Nat.strong_induction_on with
  | _ c ih =>
    intro hc
    cases Nat.eq_zero_or_pos c with
    | inl h =>
      subst h
      exact le_refl _
    | inr h =>
      have hp : c = 2*((c-1)/2)+1 ∨ c = 2*((c-1)/2)+2 := by omega
      exact le_trans (hheap ((c-1)/2) c hc hp) (ih ((c-1)/2) (by omega) (by omega))

theorem siftStep_heap (first hi k root c : Nat) (l : List α)
    (hkr : k ≤ root)
    (hlen : first + hi ≤ l.length)
    (hc1 : c = 2*root+1 ∨ c = 2*root+2)
    (hchi : c < hi)
    (hcmax : ∀ c2, c2 < hi → (c2 = 2*root+1 ∨ c2 = 2*root+2) →
      valAt val l (first+c2) ≤ valAt val l (first+c))
    (hA : ∀ r, k ≤ r → r ≠ root → HeapAt val first l hi r)
    (hB : k < root → ∀ c2, c2 < hi → (c2 = 2*root+1 ∨ c2 = 2*root+2) →
      valAt val l (first+c2) ≤ valAt val l (first + (root-1)/2))
    (hswap : valAt val l (first+root) < valAt val l (first+c)) :
    (∀ r, k ≤ r → r ≠ c → HeapAt val first (swapAt l (first+root) (first+c)) hi r) ∧
    (k < c → ∀ c2, c2 < hi → (c2 = 2*c+1 ∨ c2 = 2*c+2) →
      valAt val (swapAt l (first+root) (first+c)) (first+c2) ≤
        valAt val (swapAt l (first+root) (first+c)) (first + (c-1)/2)) := by
  have hrl : first + root < l.length := by omega
  have hcl : first + c < l.length := by omega
  have e1 : valAt val (swapAt l (first+root) (first+c)) (first+root) = valAt val l (first+c) :=
    valAt_swapAt_fst l (first+root) (first+c) hrl hcl
  have e2 : valAt val (swapAt l (first+root) (first+c)) (first+c) = valAt val l (first+root) :=
    valAt_swapAt_snd l (first+root) (first+c) hrl hcl
  have e3 : ∀ x, x ≠ root → x ≠ c →
      valAt val (swapAt l (first+root) (first+c)) (first+x) = valAt val l (first+x) :=
    fun x h1 h2 => valAt_swapAt_other l (first+root) (first+c) (first+x) (by omega) (by omega)
  constructor
  · intro r hkr2 hrc c2 hc2hi hc2r
    by_cases hrroot : r = root
    · subst hrroot
      by_cases hc2c : c2 = c
      · subst hc2c
        rw [e1, e2]
        exact le_of_lt hswap
      · rw [e1, e3 c2 (by omega) hc2c]
        exact hcmax c2 hc2hi hc2r
    · have hrpos : valAt val (swapAt l (first+root) (first+c)) (first+r) = valAt val l (first+r) :=
        e3 r hrroot hrc
      by_cases hc2root : c2 = root
      · have hkroot : k < root := by omega
        have hreq : r = (root-1)/2 := by omega
        rw [hc2root, e1, hrpos, hreq]
        exact hB hkroot c hchi hc1
      · by_cases hc2c : c2 = c
        · exfalso
          omega
        · rw [e3 c2 hc2root hc2c, hrpos]
          exact hA r hkr2 hrroot c2 hc2hi hc2r
  · intro hkc c2 hc2hi hc2r
    have hpc : (c-1)/2 = root := by omega
    rw [hpc, e1, e3 c2 (by omega) (by omega)]
    exact hA c (by omega) (by omega) c2 hc2hi hc2r

theorem siftLoop_heap (hval : ∀ x y, lt x y = true ↔ val x < val y) (first hi k : Nat) :
    ∀ (fuel : Nat) (l : List α) (root : Nat),
      k ≤ root → first + hi ≤ l.length → hi + 1 ≤ root + fuel →
      (∀ r, k ≤ r → r ≠ root → HeapAt val first l hi r) →
      (k < root → ∀ c, c < hi → (c = 2*root+1 ∨ c = 2*root+2) →
        valAt val l (first+c) ≤ valAt val l (first + (root-1)/2)) →
      (∀ r, k ≤ r → HeapAt val first (siftLoop lt first hi l root fuel) hi r) ∧
        SameOutside l (siftLoop lt first hi l root fuel) (first + root) (first + hi)
  | 0, l, root, hkr, hlen, hfuel, hA, hB => by
    refine ⟨?_, sameOutside_refl _ _ _⟩
    intro r hr
    by_cases hrr : r = root
    · subst hrr
      intro c hc hcr
      exfalso
      omega
    · exact hA r hr hrr
  | fuel+1, l, root, hkr, hlen, hfuel, hA, hB => by
    unfold siftLoop
    dsimp only
    split
    · rename_i hleaf
      refine ⟨?_, sameOutside_refl _ _ _⟩
      intro r hr
      by_cases hrr : r = root
      · subst hrr
        intro c hc hcr
        exfalso
        omega
      · exact hA r hr hrr
    · rename_i hleaf
      have hrhi : root < hi := by omega
      split
      · rename_i hsel
        have hchi : 2*root+1+1 < hi := hsel.1
        have hsib : valAt val l (first+(2*root+1)) < valAt val l (first+(2*root+1)+1) :=
          (lessAt_iff hval l _ _).mp hsel.2
        have hcmax : ∀ c2, c2 < hi → (c2 = 2*root+1 ∨ c2 = 2*root+2) →
            valAt val l (first+c2) ≤ valAt val l (first+(2*root+1+1)) := by
          intro c2 hc2 hc2e
          rcases hc2e with h | h
          · rw [h]
            exact le_of_lt hsib
          · rw [h]
        split
        · rename_i hstop
          have hstopf : lessAt lt l (first+root) (first+(2*root+1+1)) = false :=
            Bool.eq_false_iff.mpr hstop
          have hbound := (lessAt_false_iff hval l _ _).mp hstopf
          refine ⟨?_, sameOutside_refl _ _ _⟩
          intro r hr
          by_cases hrr : r = root
          · subst hrr
            intro c2 hc2 hc2e
            exact le_trans (hcmax c2 hc2 hc2e) hbound
          · exact hA r hr hrr
        · rename_i hless
          have hlesst : lessAt lt l (first+root) (first+(2*root+1+1)) = true := by
            cases hx : lessAt lt l (first+root) (first+(2*root+1+1))
            · exact absurd (by rw [hx]; exact Bool.false_ne_true) hless
            · rfl
          have hswap := (lessAt_iff hval l _ _).mp hlesst
          have hstep := siftStep_heap first hi k root (2*root+1+1) l hkr hlen
            (by omega) hchi hcmax hA hB hswap
          have hlen2 : first + hi ≤ (swapAt l (first+root) (first+(2*root+1+1))).length := by
            rw [swapAt_length]
            exact hlen
          have ih := siftLoop_heap hval first hi k fuel
            (swapAt l (first+root) (first+(2*root+1+1))) (2*root+1+1)
            (by omega) hlen2 (by omega) hstep.1 hstep.2
          refine ⟨ih.1, sameOutside_trans ?_ (sameOutside_mono ih.2 (by omega) (le_refl _))⟩
          exact swapAt_sameOutside l (first+root) (first+hi) (first+root) (first+(2*root+1+1))
            (le_refl _) (by omega) (by omega) (by omega)
      · rename_i hsel
        have hchi : 2*root+1 < hi := by omega
        have hcmax : ∀ c2, c2 < hi → (c2 = 2*root+1 ∨ c2 = 2*root+2) →
            valAt val l (first+c2) ≤ valAt val l (first+(2*root+1)) := by
          intro c2 hc2 hc2e
          rcases hc2e with h | h
          · rw [h]
          · have hsibf : lessAt lt l (first+(2*root+1)) (first+(2*root+1)+1) = false := by
              cases hx : lessAt lt l (first+(2*root+1)) (first+(2*root+1)+1)
              · rfl
              · exact absurd ⟨by omega, hx⟩ hsel
            have hbound := (lessAt_false_iff hval l _ _).mp hsibf
            rw [h]
            exact hbound
        split
        · rename_i hstop
          have hstopf : lessAt lt l (first+root) (first+(2*root+1)) = false :=
            Bool.eq_false_iff.mpr hstop
          have hbound := (lessAt_false_iff hval l _ _).mp hstopf
          refine ⟨?_, sameOutside_refl _ _ _⟩
          intro r hr
          by_cases hrr : r = root
          · subst hrr
            intro c2 hc2 hc2e
            exact le_trans (hcmax c2 hc2 hc2e) hbound
          · exact hA r hr hrr
        · rename_i hless
          have hlesst : lessAt lt l (first+root) (first+(2*root+1)) = true := by
            cases hx : lessAt lt l (first+root) (first+(2*root+1))
            · exact absurd (by rw [hx]; exact Bool.false_ne_true) hless
            · rfl
          have hswap := (lessAt_iff hval l _ _).mp hlesst
          have hstep := siftStep_heap first hi k root (2*root+1) l hkr hlen
            (by omega) hchi hcmax hA hB hswap
          have hlen2 : first + hi ≤ (swapAt l (first+root) (first+(2*root+1))).length := by
            rw [swapAt_length]
            exact hlen
          have ih := siftLoop_heap hval first hi k fuel
            (swapAt l (first+root) (first+(2*root+1))) (2*root+1)
            (by omega) hlen2 (by omega) hstep.1 hstep.2
          refine ⟨ih.1, sameOutside_trans ?_ (sameOutside_mono ih.2 (by omega) (le_refl _))⟩
          exact swapAt_sameOutside l (first+root) (first+hi) (first+root) (first+(2*root+1))
            (le_refl _) (by omega) (by omega) (by omega)

theorem siftDown_heap (hval : ∀ x y, lt x y = true ↔ val x < val y) (first hi k lo : Nat)
    (l : List α) (hklo : k ≤ lo) (hlen : first + hi ≤ l.length)
    (hA : ∀ r, k ≤ r → r ≠ lo → HeapAt val first l hi r)
    (hB : k < lo → ∀ c, c < hi → (c = 2*lo+1 ∨ c = 2*lo+2) →
      valAt val l (first+c) ≤ valAt val l (first + (lo-1)/2)) :
    (∀ r, k ≤ r → HeapAt val first (siftDown lt first lo hi l) hi r) ∧
      SameOutside l (siftDown lt first lo hi l) (first + lo) (first + hi) := by
  unfold siftDown
  exact siftLoop_heap hval first hi k (hi+1) l lo hklo hlen (by omega) hA hB

theorem valAt_eq_of_sameOutside {l l' : List α} {a b : Nat}
    (h : SameOutside l l' a b) (k : Nat) (hk : k < a ∨ b ≤ k) :
    valAt val l k = valAt val l' k := by
  unfold valAt
  rw [h.2 k hk]

theorem heapInit_heap (hval : ∀ x y, lt x y = true ↔ val x < val y) (first hi : Nat) :
    ∀ (kk : Nat) (l : List α), first + hi ≤ l.length →
      (∀ r, kk ≤ r → HeapAt val first l hi r) →
      (∀ r, HeapAt val first (heapInit lt first hi l kk) hi r) ∧
        SameOutside l (heapInit lt first hi l kk) first (first + hi)
  | 0, l, hlen, hinv => ⟨fun r => hinv r (Nat.zero_le r), sameOutside_refl _ _ _⟩
  | k+1, l, hlen, hinv => by
    unfold heapInit
    have hd := siftDown_heap hval first hi k k l (le_refl k) hlen
      (fun r h1 h2 => hinv r (by omega)) (fun h => absurd h (by omega))
    have hlen2 : first + hi ≤ (siftDown lt first k hi l).length := by
      rw [(siftDown_perm lt first k hi l).length_eq]
      exact hlen
    have ih := heapInit_heap hval first hi k (siftDown lt first k hi l) hlen2
      (fun r hr => hd.1 r hr)
    exact ⟨ih.1, sameOutside_trans (sameOutside_mono hd.2 (by omega) (le_refl _)) ih.2⟩

theorem heapExtract_sorts (hval : ∀ x y, lt x y = true ↔ val x < val y) (first hi0 : Nat) :
    ∀ (n : Nat) (l : List α), n ≤ hi0 → first + hi0 ≤ l.length →
      (∀ r, HeapAt val first l n r) →
      VSorted val l (first + n) (first + hi0) →
      (∀ p q : Nat, first ≤ p → p < first + n → first + n ≤ q → q < first + hi0 →
        valAt val l p ≤ valAt val l q) →
      VSorted val (heapExtract lt first l n) first (first + hi0) ∧
        SameOutside l (heapExtract lt first l n) first (first + hi0)
  | 0, l, hn, hlen, hheap, hsorted, hcross => by
    refine ⟨?_, sameOutside_refl _ _ _⟩
    intro p q h1 h2 h3
    exact hsorted p q (by omega) h2 h3
  | n+1, l, hn, hlen, hheap, hsorted, hcross => by
    unfold heapExtract
    have hfl : first < l.length := by omega
    have hnl : first + n < l.length := by omega
    have hmax := heap_root_max first (n+1) l hheap
    have e1 : valAt val (swapAt l first (first+n)) first = valAt val l (first+n) :=
      valAt_swapAt_fst l first (first+n) hfl hnl
    have e2 : valAt val (swapAt l first (first+n)) (first+n) = valAt val l first :=
      valAt_swapAt_snd l first (first+n) hfl hnl
    have e3 : ∀ x, x ≠ first → x ≠ first+n →
        valAt val (swapAt l first (first+n)) x = valAt val l x :=
      fun x h1 h2 => valAt_swapAt_other l first (first+n) x h1 h2
    have hA : ∀ r, 0 ≤ r → r ≠ 0 → HeapAt val first (swapAt l first (first+n)) n r := by
      intro r h0 hr0 c2 hc2 hc2e
      rw [e3 (first+c2) (by omega) (by omega), e3 (first+r) (by omega) (by omega)]
      exact hheap r c2 (by omega) hc2e
    have hlen1 : first + n ≤ (swapAt l first (first+n)).length := by
      rw [swapAt_length]
      omega
    have hd := siftDown_heap hval first n 0 0 (swapAt l first (first+n)) (le_refl 0) hlen1
      hA (fun h => absurd h (by omega))
    have hperm2 : List.Perm (siftDown lt first 0 n (swapAt l first (first+n)))
        (swapAt l first (first+n)) := siftDown_perm lt first 0 n _
    have hlen2 : first + hi0 ≤ (siftDown lt first 0 n (swapAt l first (first+n))).length := by
      rw [hperm2.length_eq, swapAt_length]
      exact hlen
    have hout2 : SameOutside (swapAt l first (first+n))
        (siftDown lt first 0 n (swapAt l first (first+n))) first (first + n) := hd.2
    have hq2 : ∀ q, first + n ≤ q →
        valAt val (siftDown lt first 0 n (swapAt l first (first+n))) q
          = valAt val (swapAt l first (first+n)) q :=
      fun q hq => (valAt_eq_of_sameOutside hout2 q (Or.inr hq)).symm
    have hsorted2 : VSorted val (siftDown lt first 0 n (swapAt l first (first+n)))
        (first + n) (first + hi0) := by
      intro p q h1 h2 h3
      rw [hq2 p h1, hq2 q (by omega)]
      rcases Nat.eq_or_lt_of_le h1 with hp | hp
      · rw [← hp, e2, e3 q (by omega) (by omega)]
        exact hcross first q (le_refl _) (by omega) (by omega) h3
      · rw [e3 p (by omega) (by omega), e3 q (by omega) (by omega)]
        exact hsorted p q (by omega) h2 h3
    have hcross1 : ∀ q, first + n ≤ q → q < first + hi0 →
        ∀ p, first ≤ p → p < first + n →
          valAt val (swapAt l first (first+n)) p
            ≤ valAt val (swapAt l first (first+n)) q := by
      intro q hq1 hq2v p hp1 hp2
      rcases Nat.eq_or_lt_of_le hp1 with hp | hp
      · rw [← hp, e1]
        rcases Nat.eq_or_lt_of_le hq1 with hqe | hqe
        · rw [← hqe, e2]
          have := hmax n (by omega)
          exact this
        · rw [e3 q (by omega) (by omega)]
          exact hcross (first+n) q (by omega) (by omega) (by omega) hq2v
      · rw [e3 p (by omega) (by omega)]
        rcases Nat.eq_or_lt_of_le hq1 with hqe | hqe
        · rw [← hqe, e2]
          have hpc : first + (p - first) = p := by omega
          have := hmax (p - first) (by omega)
          rw [hpc] at this
          exact this
        · rw [e3 q (by omega) (by omega)]
          exact hcross p q (by omega) (by omega) (by omega) hq2v
    have hcross2 : ∀ p q : Nat, first ≤ p → p < first + n → first + n ≤ q →
        q < first + hi0 →
        valAt val (siftDown lt first 0 n (swapAt l first (first+n))) p
          ≤ valAt val (siftDown lt first 0 n (swapAt l first (first+n))) q := by
      intro p q hp1 hp2 hq1 hq2v
      rw [hq2 q hq1]
      exact allRange_transport val
        (fun v => v ≤ valAt val (swapAt l first (first+n)) q)
        hperm2.symm hout2 hlen1 (fun p2 h1 h2 => hcross1 q hq1 hq2v p2 h1 h2) p hp1 hp2
    have ih := heapExtract_sorts hval first hi0 n (siftDown lt first 0 n (swapAt l first (first+n)))
      (by omega) hlen2 (fun r => hd.1 r (Nat.zero_le r)) hsorted2 hcross2
    refine ⟨ih.1, sameOutside_trans ?_ (sameOutside_trans
      (sameOutside_mono hout2 (le_refl _) (by omega)) ih.2)⟩
    exact swapAt_sameOutside l first (first + hi0) first (first+n)
      (le_refl _) (by omega) (by omega) (by omega)

theorem heapSort_sorts (hval : ∀ x y, lt x y = true ↔ val x < val y) (a b : Nat) (l : List α)
    (hab : a ≤ b) (hb : b ≤ l.length) :
    VSorted val (heapSort lt a b l) a b ∧ SameOutside l (heapSort lt a b l) a b := by
  unfold heapSort
  dsimp only
  have hib : a + (b - a) = b := by omega
  have hinit := heapInit_heap hval a (b-a) ((b-a-1)/2 + 1) l (by omega)
    (fun r hr c hc hce => ((by omega : False)).elim)
  have hleninit : a + (b - a) ≤ (heapInit lt a (b-a) l ((b-a-1)/2 + 1)).length := by
    rw [(heapInit_perm lt a (b-a) ((b-a-1)/2 + 1) l).length_eq]
    omega
  have hextract := heapExtract_sorts hval a (b-a) (b-a)
    (heapInit lt a (b-a) l ((b-a-1)/2 + 1)) (le_refl _) hleninit hinit.1
    (fun i j h1 h2 h3 => ((by omega : False)).elim)
    (fun p q h1 h2 h3 h4 => ((by omega : False)).elim)
  rw [hib] at hextract hinit
  exact ⟨hextract.1, sameOutside_trans hinit.2 hextract.2⟩

theorem revLoop_sameOutside (a b : Nat) :
    ∀ (fuel : Nat) (l : List α) (i j : Nat), a ≤ i → j < b →
      SameOutside l (revLoop l i j fuel) a b
  | 0, l, i, j, h1, h2 => sameOutside_refl _ _ _
  | fuel+1, l, i, j, h1, h2 => by
    unfold revLoop
    split
    · rename_i hij
      exact sameOutside_trans (swapAt_sameOutside l a b i j h1 (by omega) (by omega) h2)
        (revLoop_sameOutside a b fuel _ (i+1) (j-1) (by omega) (by omega))
    · exact sameOutside_refl _ _ _

theorem reverseRange_sameOutside (a b : Nat) (l : List α) :
    SameOutside l (reverseRange a b l) a b := by
  unfold reverseRange
  rcases Nat.eq_zero_or_pos b with h0 | h0
  · subst h0
    exact sameOutside_refl _ _ _
  · exact revLoop_sameOutside a b b l a (b-1) (le_refl a) (by omega)

theorem and_mask_lt (len r : Nat) (hlen : 8 ≤ len) :
    (if len ≤ r &&& (nextPowerOfTwo len - 1) then (r &&& (nextPowerOfTwo len - 1)) - len
     else r &&& (nextPowerOfTwo len - 1)) < len := by
  have h1 : r &&& (nextPowerOfTwo len - 1) ≤ nextPowerOfTwo len - 1 := Nat.and_le_right
  have h2 : nextPowerOfTwo len ≤ 2 * len := by
    unfold nextPowerOfTwo bitsLen
    rw [if_neg (by omega), Nat.shiftLeft_eq, one_mul, pow_succ]
    have := Nat.log2_self_le (show len ≠ 0 by omega)
    omega
  split <;> omega

theorem breakPatterns_sameOutside (l : List α) (a b : Nat) :
    SameOutside l (breakPatterns l a b) a b := by
  unfold breakPatterns
  dsimp only
  split
  · rename_i hlen
    have h1 := and_mask_lt (b-a) (xorshiftNext (b-a)) hlen
    have h2 := and_mask_lt (b-a) (xorshiftNext (xorshiftNext (b-a))) hlen
    have h3 := and_mask_lt (b-a) (xorshiftNext (xorshiftNext (xorshiftNext (b-a)))) hlen
    have hq : 2 ≤ (b-a)/4 := by omega
    refine sameOutside_trans (swapAt_sameOutside _ a b _ _ ?_ ?_ ?_ ?_)
      (sameOutside_trans (swapAt_sameOutside _ a b _ _ ?_ ?_ ?_ ?_)
        (swapAt_sameOutside _ a b _ _ ?_ ?_ ?_ ?_)) <;> omega
  · exact sameOutside_refl _ _ _

theorem pisScan_spec (l : List α) (b : Nat) :
    ∀ (fuel i : Nat),
      i ≤ pisScan lt l b i fuel ∧
      (i ≤ b → pisScan lt l b i fuel ≤ b) ∧
      (∀ k, i ≤ k → k < pisScan lt l b i fuel → lessAt lt l k (k-1) = false) ∧
      (b ≤ i + fuel → pisScan lt l b i fuel < b →
        lessAt lt l (pisScan lt l b i fuel) (pisScan lt l b i fuel - 1) = true)
  | 0, i => by
    unfold pisScan
    refine ⟨le_refl _, fun h => h, fun k h1 h2 => absurd h1 (by omega), fun h1 h2 => ?_⟩
    exact absurd h2 (by omega)
  | fuel+1, i => by
    unfold pisScan
    split
    · rename_i hg
      have ih := pisScan_spec l b fuel (i+1)
      refine ⟨by omega, fun h => ih.2.1 (by omega), ?_, fun h1 h2 => ih.2.2.2 (by omega) h2⟩
      intro k hk1 hk2
      rcases Nat.eq_or_lt_of_le hk1 with he | he
      · rw [← he]
        exact Bool.eq_false_iff.mpr hg.2
      · exact ih.2.2.1 k (by omega) hk2
    · rename_i hg
      refine ⟨le_refl _, fun h => h, fun k h1 h2 => absurd h1 (by omega), fun h1 h2 => ?_⟩
      by_cases hx : lessAt lt l i (i-1) = true
      · exact hx
      · exact absurd ⟨h2, fun hc => hx hc⟩ hg

theorem partScanI_spec (l : List α) (aIdx jj : Nat) :
    ∀ (fuel i : Nat),
      i ≤ partScanI lt l aIdx jj i fuel ∧
      (i ≤ jj + 1 → partScanI lt l aIdx jj i fuel ≤ jj + 1) ∧
      (∀ k, i ≤ k → k < partScanI lt l aIdx jj i fuel → lessAt lt l k aIdx = true) ∧
      (jj + 1 ≤ i + fuel → partScanI lt l aIdx jj i fuel ≤ jj →
        lessAt lt l (partScanI lt l aIdx jj i fuel) aIdx = false)
  | 0, i => by
    unfold partScanI
    refine ⟨le_refl _, fun h => h, fun k h1 h2 => absurd h1 (by omega), fun h1 h2 => ?_⟩
    exact absurd h2 (by omega)
  | fuel+1, i => by
    unfold partScanI
    split
    · rename_i hg
      have ih := partScanI_spec l aIdx jj fuel (i+1)
      refine ⟨by omega, fun h => ih.2.1 (by omega), ?_, fun h1 h2 => ih.2.2.2 (by omega) h2⟩
      intro k hk1 hk2
      rcases Nat.eq_or_lt_of_le hk1 with he | he
      · rw [← he]
        exact hg.2
      · exact ih.2.2.1 k (by omega) hk2
    · rename_i hg
      refine ⟨le_refl _, fun h => h, fun k h1 h2 => absurd h1 (by omega), fun h1 h2 => ?_⟩
      by_cases hx : lessAt lt l i aIdx = true
      · exact absurd ⟨h2, hx⟩ hg
      · exact Bool.eq_false_iff.mpr hx

theorem partScanJ_spec (l : List α) (aIdx ii : Nat) :
    ∀ (fuel j : Nat),
      partScanJ lt l aIdx ii j fuel ≤ j ∧
      (ii ≤ j + 1 → ii ≤ partScanJ lt l aIdx ii j fuel + 1) ∧
      (∀ k, partScanJ lt l aIdx ii j fuel < k → k ≤ j → lessAt lt l k aIdx = false) ∧
      (1 ≤ ii → j + 2 ≤ ii + fuel → ii ≤ partScanJ lt l aIdx ii j fuel →
        lessAt lt l (partScanJ lt l aIdx ii j fuel) aIdx = true)
  | 0, j => by
    unfold partScanJ
    refine ⟨le_refl _, fun h => h, fun k h1 h2 => absurd h1 (by omega), fun h0 h1 h2 => ?_⟩
    exact absurd h2 (by omega)
  | fuel+1, j => by
    unfold partScanJ
    split
    · rename_i hg
      have ih := partScanJ_spec l aIdx ii fuel (j-1)
      have hji : ii ≤ j := hg.1
      refine ⟨by omega, fun h => ih.2.1 (by omega), ?_,
        fun h0 h1 h2 => ih.2.2.2 h0 (by omega) h2⟩
      intro k hk1 hk2
      rcases Nat.eq_or_lt_of_le hk2 with he | he
      · rw [he]
        exact Bool.eq_false_iff.mpr hg.2
      · exact ih.2.2.1 k hk1 (by omega)
    · rename_i hg
      refine ⟨le_refl _, fun h => h, fun k h1 h2 => absurd h1 (by omega), fun h0 h1 h2 => ?_⟩
      by_cases hx : lessAt lt l j aIdx = true
      · exact hx
      · exact absurd ⟨h2, fun hc => hx hc⟩ hg

theorem peScanI_spec (l : List α) (aIdx jj : Nat) :
    ∀ (fuel i : Nat),
      i ≤ peScanI lt l aIdx jj i fuel ∧
      (i ≤ jj + 1 → peScanI lt l aIdx jj i fuel ≤ jj + 1) ∧
      (∀ k, i ≤ k → k < peScanI lt l aIdx jj i fuel → lessAt lt l aIdx k = false) ∧
      (jj + 1 ≤ i + fuel → peScanI lt l aIdx jj i fuel ≤ jj →
        lessAt lt l aIdx (peScanI lt l aIdx jj i fuel) = true)
  | 0, i => by
    unfold peScanI
    refine ⟨le_refl _, fun h => h, fun k h1 h2 => absurd h1 (by omega), fun h1 h2 => ?_⟩
    exact absurd h2 (by omega)
  | fuel+1, i => by
    unfold peScanI
    split
    · rename_i hg
      have ih := peScanI_spec l aIdx jj fuel (i+1)
      refine ⟨by omega, fun h => ih.2.1 (by omega), ?_, fun h1 h2 => ih.2.2.2 (by omega) h2⟩
      intro k hk1 hk2
      rcases Nat.eq_or_lt_of_le hk1 with he | he
      · rw [← he]
        exact Bool.eq_false_iff.mpr hg.2
      · exact ih.2.2.1 k (by omega) hk2
    · rename_i hg
      refine ⟨le_refl _, fun h => h, fun k h1 h2 => absurd h1 (by omega), fun h1 h2 => ?_⟩
      by_cases hx : lessAt lt l aIdx i = true
      · exact hx
      · exact absurd ⟨h2, fun hc => hx hc⟩ hg

theorem peScanJ_spec (l : List α) (aIdx ii : Nat) :
    ∀ (fuel j : Nat),
      peScanJ lt l aIdx ii j fuel ≤ j ∧
      (ii ≤ j + 1 → ii ≤ peScanJ lt l aIdx ii j fuel + 1) ∧
      (∀ k, peScanJ lt l aIdx ii j fuel < k → k ≤ j → lessAt lt l aIdx k = true) ∧
      (1 ≤ ii → j + 2 ≤ ii + fuel → ii ≤ peScanJ lt l aIdx ii j fuel →
        lessAt lt l aIdx (peScanJ lt l aIdx ii j fuel) = false)
  | 0, j => by
    unfold peScanJ
    refine ⟨le_refl _, fun h => h, fun k h1 h2 => absurd h1 (by omega), fun h0 h1 h2 => ?_⟩
    exact absurd h2 (by omega)
  | fuel+1, j => by
    unfold peScanJ
    split
    · rename_i hg
      have ih := peScanJ_spec l aIdx ii fuel (j-1)
      have hji : ii ≤ j := hg.1
      refine ⟨by omega, fun h => ih.2.1 (by omega), ?_,
        fun h0 h1 h2 => ih.2.2.2 h0 (by omega) h2⟩
      intro k hk1 hk2
      rcases Nat.eq_or_lt_of_le hk2 with he | he
      · rw [he]
        exact hg.2
      · exact ih.2.2.1 k hk1 (by omega)
    · rename_i hg
      refine ⟨le_refl _, fun h => h, fun k h1 h2 => absurd h1 (by omega), fun h0 h1 h2 => ?_⟩
      by_cases hx : lessAt lt l aIdx j = true
      · exact absurd ⟨h2, hx⟩ hg
      · exact Bool.eq_false_iff.mpr hx

theorem order2_bounds (lt : α → α → Bool) (l : List α) (x y s lo hi : Nat)
    (hx : lo ≤ x) (hx2 : x < hi) (hy : lo ≤ y) (hy2 : y < hi) :
    (lo ≤ (order2 lt l x y s).1 ∧ (order2 lt l x y s).1 < hi) ∧
    (lo ≤ (order2 lt l x y s).2.1 ∧ (order2 lt l x y s).2.1 < hi) := by
  unfold order2
  split
  · exact ⟨⟨hy, hy2⟩, hx, hx2⟩
  · exact ⟨⟨hx, hx2⟩, hy, hy2⟩

theorem median_bounds (lt : α → α → Bool) (l : List α) (a b c s lo hi : Nat)
    (ha : lo ≤ a) (ha2 : a < hi) (hb : lo ≤ b) (hb2 : b < hi) (hc : lo ≤ c) (hc2 : c < hi) :
    lo ≤ (median lt l a b c s).1 ∧ (median lt l a b c s).1 < hi := by
  unfold median
  dsimp only
  have h1 := order2_bounds lt l a b s lo hi ha ha2 hb hb2
  have h2 := order2_bounds lt l (order2 lt l a b s).2.1 c (order2 lt l a b s).2.2 lo hi
    h1.2.1 h1.2.2 hc hc2
  have h3 := order2_bounds lt l (order2 lt l a b s).1
    (order2 lt l (order2 lt l a b s).2.1 c (order2 lt l a b s).2.2).1
    (order2 lt l (order2 lt l a b s).2.1 c (order2 lt l a b s).2.2).2.2 lo hi
    h1.1.1 h1.1.2 h2.1.1 h2.1.2
  exact h3.2

theorem medianAdjacent_bounds (lt : α → α → Bool) (l : List α) (i s lo hi : Nat)
    (h1 : lo ≤ i - 1) (h2 : i + 1 < hi) :
    lo ≤ (medianAdjacent lt l i s).1 ∧ (medianAdjacent lt l i s).1 < hi := by
  unfold medianAdjacent
  exact median_bounds lt l (i-1) i (i+1) s lo hi h1 (by omega) (by omega) (by omega)
    (by omega) h2

theorem choosePivot_hint_fst (r : Nat × Nat) :
    (if r.2 = 0 then (r.1, Hint.increasing) else if r.2 = 12 then (r.1, Hint.decreasing)
     else (r.1, Hint.unknown)).1 = r.1 := by
  split
  · rfl
  · split <;> rfl

theorem choosePivot_bounds (lt : α → α → Bool) (l : List α) (a b : Nat) (hab : a < b) :
    a ≤ (choosePivot lt l a b).1 ∧ (choosePivot lt l a b).1 < b := by
  unfold choosePivot
  dsimp only
  rw [choosePivot_hint_fst]
  split
  · rename_i h8
    split
    · rename_i h50
      have hq : 12 ≤ (b-a)/4 := by omega
      have hi0 := medianAdjacent_bounds lt l (a + (b-a)/4*1) 0 a b (by omega) (by omega)
      have hj0 := medianAdjacent_bounds lt l (a + (b-a)/4*2)
        (medianAdjacent lt l (a + (b-a)/4*1) 0).2 a b (by omega) (by omega)
      have hk0 := medianAdjacent_bounds lt l (a + (b-a)/4*3)
        (medianAdjacent lt l (a + (b-a)/4*2)
          (medianAdjacent lt l (a + (b-a)/4*1) 0).2).2 a b (by omega) (by omega)
      exact median_bounds lt l _ _ _ _ a b hi0.1 hi0.2 hj0.1 hj0.2 hk0.1 hk0.2
    · rename_i h50
      have hq : 2 ≤ (b-a)/4 := by omega
      exact median_bounds lt l _ _ _ _ a b (by omega) (by omega) (by omega) (by omega)
        (by omega) (by omega)
  · rename_i h8
    exact ⟨by omega, by omega⟩

theorem vsorted_of_pairs {l : List α} {a b : Nat}
    (h : ∀ k, a < k → k < b → valAt val l (k-1) ≤ valAt val l k) :
    VSorted val l a b := by
  have key : ∀ j i : Nat, a ≤ i → i < j → j < b → valAt val l i ≤ valAt val l j := by
    intro j
    induction j using Nat.strong_induction_on with
    | _ j ih =>
      intro i hai hij hjb
      rcases Nat.eq_or_lt_of_le (show i + 1 ≤ j by omega) with he | he
      · have hpair := h j (by omega) hjb
        have hj1 : j - 1 = i := by omega
        rw [hj1] at hpair
        exact hpair
      · exact le_trans (ih (j-1) (by omega) i hai (by omega) (by omega))
          (by have hpair := h j (by omega) hjb; exact hpair)
  intro i j h1 h2 h3
  exact key j i h1 h2 h3

theorem sentinel_transport {l l' : List α} {a b : Nat}
    (hperm : List.Perm l l') (hout : SameOutside l l' a b) (hb : b ≤ l.length)
    (hsent : 0 < a → ∀ k, a ≤ k → k < b → valAt val l (a-1) ≤ valAt val l k) :
    0 < a → ∀ k, a ≤ k → k < b → valAt val l' (a-1) ≤ valAt val l' k := by
  intro h0 k hk1 hk2
  have he : valAt val l (a-1) = valAt val l' (a-1) :=
    valAt_eq_of_sameOutside hout (a-1) (Or.inl (by omega))
  rw [← he]
  exact allRange_transport val (fun v => valAt val l (a-1) ≤ v) hperm hout hb
    (hsent h0) k hk1 hk2

theorem pisShiftLeft_sorts (hval : ∀ x y, lt x y = true ↔ val x < val y) (a t : Nat) :
    ∀ (J : Nat) (l : List α), a ≤ J → J ≤ t → t < l.length →
      (0 < a → ∀ k, a ≤ k → k ≤ t → valAt val l (a-1) ≤ valAt val l k) →
      VSorted val l a J →
      VSorted val l J (t+1) →
      (∀ p k : Nat, a ≤ p → p < J → J < k → k ≤ t → valAt val l p ≤ valAt val l k) →
      VSorted val (pisShiftLeft lt l J) a (t+1) ∧
        SameOutside l (pisShiftLeft lt l J) a (t+1)
  | 0, l, ha, hjt, htl, hsent, h1, h2, h3 => by
    have ha0 : a = 0 := by omega
    subst ha0
    exact ⟨h2, sameOutside_refl l 0 (t+1)⟩
  | J+1, l, ha, hjt, htl, hsent, h1, h2, h3 => by
    unfold pisShiftLeft
    split
    · rename_i hg
      have hfalse : lessAt lt l (J+1) J = false := Bool.eq_false_iff.mpr hg
      have hmj : valAt val l J ≤ valAt val l (J+1) := (lessAt_false_iff hval l (J+1) J).mp hfalse
      refine ⟨?_, sameOutside_refl l a (t+1)⟩
      intro p q hp hpq hq
      by_cases hqj : q ≤ J
      · exact h1 p q hp hpq (by omega)
      · by_cases hpj : J + 1 ≤ p
        · exact h2 p q (by omega) hpq hq
        · have hpLj : valAt val l p ≤ valAt val l J := by
            rcases Nat.eq_or_lt_of_le (show p ≤ J by omega) with h | h
            · exact le_of_eq (by rw [h])
            · exact h1 p J hp h (by omega)
          have hj1q : valAt val l (J+1) ≤ valAt val l q := by
            rcases Nat.eq_or_lt_of_le (show J + 1 ≤ q by omega) with h | h
            · exact le_of_eq (by rw [h])
            · exact h2 (J+1) q (le_refl _) h hq
          exact le_trans (le_trans hpLj hmj) hj1q
    · rename_i hg
      have hless : lessAt lt l (J+1) J = true := by
        cases hx : lessAt lt l (J+1) J
        · exact absurd (by rw [hx]; exact Bool.false_ne_true) hg
        · rfl
      have hm : valAt val l (J+1) < valAt val l J := (lessAt_iff hval l (J+1) J).mp hless
      have haj : a ≤ J := by
        rcases Nat.eq_or_lt_of_le ha with he | he
        · exfalso
          have h0a : 0 < a := by omega
          have hs := hsent h0a (J+1) (by omega) hjt
          have hd : a - 1 = J := by omega
          rw [hd] at hs
          omega
        · omega
      have hjl : J < l.length := by omega
      have hj1l : J + 1 < l.length := by omega
      have e1 : valAt val (swapAt l (J+1) J) (J+1) = valAt val l J :=
        valAt_swapAt_fst l (J+1) J hj1l hjl
      have e2 : valAt val (swapAt l (J+1) J) J = valAt val l (J+1) :=
        valAt_swapAt_snd l (J+1) J hj1l hjl
      have e3 : ∀ k, k ≠ J+1 → k ≠ J → valAt val (swapAt l (J+1) J) k = valAt val l k :=
        fun k hk1 hk2 => valAt_swapAt_other l (J+1) J k hk1 hk2
      have hlen : (swapAt l (J+1) J).length = l.length := swapAt_length l (J+1) J
      have hsent2 : 0 < a → ∀ k, a ≤ k → k ≤ t →
          valAt val (swapAt l (J+1) J) (a-1) ≤ valAt val (swapAt l (J+1) J) k := by
        intro h0a k hk1 hk2
        rw [e3 (a-1) (by omega) (by omega)]
        by_cases hkJ1 : k = J+1
        · rw [hkJ1, e1]
          exact hsent h0a J (by omega) (by omega)
        · by_cases hkJ : k = J
          · rw [hkJ, e2]
            exact hsent h0a (J+1) (by omega) hjt
          · rw [e3 k hkJ1 hkJ]
            exact hsent h0a k hk1 hk2
      have s1 : VSorted val (swapAt l (J+1) J) a J := by
        intro p q hp hpq hq
        rw [e3 p (by omega) (by omega), e3 q (by omega) (by omega)]
        exact h1 p q hp hpq (by omega)
      have s2 : VSorted val (swapAt l (J+1) J) J (t+1) := by
        intro p q hp hpq hq
        rcases Nat.eq_or_lt_of_le hp with hpj | hpj
        · rw [← hpj, e2]
          rcases Nat.eq_or_lt_of_le (show J + 1 ≤ q by omega) with hq1 | hq1
          · rw [← hq1, e1]
            omega
          · rw [e3 q (by omega) (by omega)]
            exact h2 (J+1) q (le_refl _) hq1 hq
        · rcases Nat.eq_or_lt_of_le (show J + 1 ≤ p by omega) with hp1 | hp1
          · rw [← hp1, e1, e3 q (by omega) (by omega)]
            exact h3 J q (by omega) (by omega) (by omega) (by omega)
          · rw [e3 p (by omega) (by omega), e3 q (by omega) (by omega)]
            exact h2 p q (by omega) hpq hq
      have s3 : ∀ p k : Nat, a ≤ p → p < J → J < k → k ≤ t →
          valAt val (swapAt l (J+1) J) p ≤ valAt val (swapAt l (J+1) J) k := by
        intro p k hp hpj hjk hkt
        rw [e3 p (by omega) (by omega)]
        rcases Nat.eq_or_lt_of_le (show J + 1 ≤ k by omega) with hk | hk
        · rw [← hk, e1]
          exact h1 p J hp hpj (by omega)
        · rw [e3 k (by omega) (by omega)]
          exact le_trans (h1 p J hp hpj (by omega)) (h3 J k (by omega) (by omega) hk hkt)
      have ih := pisShiftLeft_sorts hval a t J (swapAt l (J+1) J) haj (by omega)
        (by omega) hsent2 s1 s2 s3
      refine ⟨ih.1, sameOutside_trans ?_ ih.2⟩
      exact swapAt_sameOutside l a (t+1) (J+1) J (by omega) (by omega) haj (by omega)

theorem pisShiftRight_sameOutside (b : Nat) :
    ∀ (fuel : Nat) (l : List α) (j : Nat),
      SameOutside l (pisShiftRight lt b l j fuel) (j-1) b
  | 0, l, j => sameOutside_refl _ _ _
  | fuel+1, l, j => by
    unfold pisShiftRight
    split
    · rename_i hjb
      split
      · exact sameOutside_refl _ _ _
      · refine sameOutside_trans
          (swapAt_sameOutside l (j-1) b j (j-1) (by omega) hjb (le_refl _) (by omega)) ?_
        exact sameOutside_mono (pisShiftRight_sameOutside b fuel _ (j+1)) (by omega) (le_refl _)
    · exact sameOutside_refl _ _ _

theorem pisLoop_spec (hval : ∀ x y, lt x y = true ↔ val x < val y) (a b : Nat) :
    ∀ (steps : Nat) (l : List α) (i : Nat),
      a + 1 ≤ i → i ≤ b → b ≤ l.length →
      VSorted val l a i →
      (0 < a → ∀ k, a ≤ k → k < b → valAt val l (a-1) ≤ valAt val l k) →
      ((pisLoop lt a b l i steps).2 = true → VSorted val (pisLoop lt a b l i steps).1 a b) ∧
        SameOutside l (pisLoop lt a b l i steps).1 a b
  | 0, l, i, hai, hib, hbl, hs, hsent =>
    ⟨fun h => absurd h Bool.false_ne_true, sameOutside_refl _ _ _⟩
  | steps+1, l, i, hai, hib, hbl, hs, hsent => by
    unfold pisLoop
    dsimp only
    have hscan := @pisScan_spec _ _ lt l b b i
    split
    · rename_i hi1b
      refine ⟨fun _ => ?_, sameOutside_refl _ _ _⟩
      apply vsorted_of_pairs
      intro k hk1 hk2
      by_cases hki : k < i
      · exact hs (k-1) k (by omega) (by omega) hki
      · exact (lessAt_false_iff hval l k (k-1)).mp (hscan.2.2.1 k (by omega) (by omega))
    · rename_i hi1b
      split
      · exact ⟨fun h => absurd h Bool.false_ne_true, sameOutside_refl _ _ _⟩
      · rename_i h50
        have hii1 : i ≤ pisScan lt l b i b := hscan.1
        have hi1le : pisScan lt l b i b ≤ b := hscan.2.1 hib
        have hi1lt : pisScan lt l b i b < b := by
          rcases Nat.eq_or_lt_of_le hi1le with he | he
          · exact absurd he hi1b
          · exact he
        have hstop : lessAt lt l (pisScan lt l b i b) (pisScan lt l b i b - 1) = true :=
          hscan.2.2.2 (by omega) hi1lt
        set i1 := pisScan lt l b i b with hi1def
        have hmlt : valAt val l i1 < valAt val l (i1-1) := (lessAt_iff hval l i1 (i1-1)).mp hstop
        have hs1 : VSorted val l a i1 := by
          apply vsorted_of_pairs
          intro k hk1 hk2
          by_cases hki : k < i
          · exact hs (k-1) k (by omega) (by omega) hki
          · exact (lessAt_false_iff hval l k (k-1)).mp (hscan.2.2.1 k (by omega) (by omega))
        have hi1l : i1 < l.length := by omega
        have hi11l : i1 - 1 < l.length := by omega
        set l1 := swapAt l i1 (i1-1) with hl1def
        have f3 : ∀ k, k ≠ i1 → k ≠ i1-1 → valAt val l1 k = valAt val l k :=
          fun k h1 h2 => valAt_swapAt_other l i1 (i1-1) k h1 h2
        have hout1 : SameOutside l l1 a b :=
          swapAt_sameOutside l a b i1 (i1-1) (by omega) hi1lt (by omega) (by omega)
        have hperm1 : List.Perm l1 l := swapAt_perm l i1 (i1-1)
        have hlen1 : l1.length = l.length := hperm1.length_eq
        have hsent1 : 0 < a → ∀ k, a ≤ k → k < b → valAt val l1 (a-1) ≤ valAt val l1 k :=
          sentinel_transport hperm1.symm hout1 hbl hsent
        set l2 := (if 2 ≤ i1 - a then pisShiftLeft lt l1 (i1-1) else l1) with hl2def
        have hl2 : VSorted val l2 a i1 ∧ SameOutside l1 l2 a i1 := by
          rw [hl2def]
          split
          · rename_i h2a
            have hshift := pisShiftLeft_sorts hval a (i1-1) (i1-1) l1 (by omega) (le_refl _)
              (by omega)
              (fun h0 k hk1 hk2 => hsent1 h0 k hk1 (by omega))
              (by
                intro p q hp hpq hq
                rw [f3 p (by omega) (by omega), f3 q (by omega) (by omega)]
                exact hs1 p q hp hpq (by omega))
              (vsorted_small (by omega))
              (fun p k hp hpk hik hki => by omega)
            have hconv : i1 - 1 + 1 = i1 := by omega
            rw [hconv] at hshift
            exact hshift
          · rename_i h2a
            exact ⟨vsorted_small (by omega), sameOutside_refl _ _ _⟩
        have hperm2 : List.Perm l2 l1 := by
          rw [hl2def]
          split
          · exact pisShiftLeft_perm lt l1 (i1-1)
          · exact .refl _
        have hlen2 : l2.length = l1.length := hperm2.length_eq
        set l3 := (if 2 ≤ b - i1 then pisShiftRight lt b l2 (i1+1) b else l2) with hl3def
        have hout3 : SameOutside l2 l3 i1 b := by
          rw [hl3def]
          split
          · exact sameOutside_mono (pisShiftRight_sameOutside b b l2 (i1+1)) (by omega) (le_refl _)
          · exact sameOutside_refl _ _ _
        have hperm3 : List.Perm l3 l2 := by
          rw [hl3def]
          split
          · exact pisShiftRight_perm lt b b l2 (i1+1)
          · exact .refl _
        have hs3 : VSorted val l3 a i1 := by
          intro p q hp hpq hq
          rw [← valAt_eq_of_sameOutside hout3 p (Or.inl (by omega)),
            ← valAt_eq_of_sameOutside hout3 q (Or.inl hq)]
          exact hl2.1 p q hp hpq hq
        have houtA : SameOutside l l3 a b :=
          sameOutside_trans hout1 (sameOutside_trans
            (sameOutside_mono hl2.2 (le_refl _) (by omega))
            (sameOutside_mono hout3 (by omega) (le_refl _)))
        have hpermA : List.Perm l l3 := (hperm3.trans (hperm2.trans hperm1)).symm
        have hsent3 : 0 < a → ∀ k, a ≤ k → k < b → valAt val l3 (a-1) ≤ valAt val l3 k :=
          sentinel_transport hpermA houtA hbl hsent
        have hlen3 : b ≤ l3.length := by
          rw [hperm3.length_eq, hlen2, hlen1]
          exact hbl
        have ih := pisLoop_spec hval a b steps l3 i1 (by omega) (by omega) hlen3 hs3 hsent3
        exact ⟨ih.1, sameOutside_trans houtA ih.2⟩

theorem partialInsertionSort_spec (hval : ∀ x y, lt x y = true ↔ val x < val y) (a b : Nat)
    (l : List α) (hab : a < b) (hbl : b ≤ l.length)
    (hsent : 0 < a → ∀ k, a ≤ k → k < b → valAt val l (a-1) ≤ valAt val l k) :
    ((partialInsertionSort lt a b l).2 = true →
      VSorted val (partialInsertionSort lt a b l).1 a b) ∧
      SameOutside l (partialInsertionSort lt a b l).1 a b := by
  unfold partialInsertionSort
  exact pisLoop_spec hval a b 5 l (a+1) (le_refl _) (by omega) hbl
    (vsorted_small (by omega)) hsent

theorem partLoop_spec (hval : ∀ x y, lt x y = true ↔ val x < val y) (a b : Nat) :
    ∀ (fuel : Nat) (l : List α) (i j : Nat),
      a + 1 ≤ i → i ≤ j + 1 → j + 1 ≤ b → b ≤ l.length → b ≤ i + fuel →
      (∀ k, a < k → k < i → valAt val l k < valAt val l a) →
      (∀ k, j < k → k ≤ b - 1 → valAt val l a ≤ valAt val l k) →
      (i ≤ (partLoop lt a b l i j fuel).2 + 1 ∧ (partLoop lt a b l i j fuel).2 ≤ j) ∧
      SameOutside l (partLoop lt a b l i j fuel).1 (a+1) b ∧
      (∀ k, a < k → k ≤ (partLoop lt a b l i j fuel).2 →
        valAt val (partLoop lt a b l i j fuel).1 k
          < valAt val (partLoop lt a b l i j fuel).1 a) ∧
      (∀ k, (partLoop lt a b l i j fuel).2 < k → k ≤ b - 1 →
        valAt val (partLoop lt a b l i j fuel).1 a
          ≤ valAt val (partLoop lt a b l i j fuel).1 k)
  | 0, l, i, j, hai, hij, hjb, hbl, hfuel, hL, hR => by
    unfold partLoop
    refine ⟨⟨hij, le_refl _⟩, sameOutside_refl _ _ _, ?_, ?_⟩
    · intro k hk1 hk2
      exact hL k hk1 (by omega)
    · intro k hk1 hk2
      exact absurd hk2 (by omega)
  | fuel+1, l, i, j, hai, hij, hjb, hbl, hfuel, hL, hR => by
    unfold partLoop
    dsimp only
    have hsi := @partScanI_spec _ _ lt l a j b i
    have hsj := @partScanJ_spec _ _ lt l a (partScanI lt l a j i b) b j
    set i1 := partScanI lt l a j i b with hi1def
    set j1 := partScanJ lt l a i1 j b with hj1def
    have hii1 : i ≤ i1 := hsi.1
    have hi1j : i1 ≤ j + 1 := hsi.2.1 hij
    have hscanIvals : ∀ k, i ≤ k → k < i1 → valAt val l k < valAt val l a :=
      fun k h1 h2 => (lessAt_iff hval l k a).mp (hsi.2.2.1 k h1 h2)
    have hj1j : j1 ≤ j := hsj.1
    have hi1j1 : i1 ≤ j1 + 1 := hsj.2.1 hi1j
    have hscanJvals : ∀ k, j1 < k → k ≤ j → valAt val l a ≤ valAt val l k :=
      fun k h1 h2 => (lessAt_false_iff hval l k a).mp (hsj.2.2.1 k h1 h2)
    split
    · rename_i hdone
      refine ⟨⟨by omega, hj1j⟩, sameOutside_refl _ _ _, ?_, ?_⟩
      · intro k hk1 hk2
        by_cases hki : k < i
        · exact hL k hk1 hki
        · exact hscanIvals k (by omega) (by omega)
      · intro k hk1 hk2
        by_cases hkj : k ≤ j
        · exact hscanJvals k hk1 hkj
        · exact hR k (by omega) hk2
    · rename_i hdone
      have hle : i1 ≤ j1 := by omega
      have hstopI : valAt val l a ≤ valAt val l i1 :=
        (lessAt_false_iff hval l i1 a).mp (hsi.2.2.2 (by omega) (by omega))
      have hstopJ : valAt val l j1 < valAt val l a :=
        (lessAt_iff hval l j1 a).mp (hsj.2.2.2 (by omega) (by omega) hle)
      have hi1j1s : i1 < j1 := by
        rcases Nat.eq_or_lt_of_le hle with he | he
        · exfalso
          rw [he] at hstopI
          omega
        · exact he
      have hi1l : i1 < l.length := by omega
      have hj1l : j1 < l.length := by omega
      have g1 : valAt val (swapAt l i1 j1) i1 = valAt val l j1 :=
        valAt_swapAt_fst l i1 j1 hi1l hj1l
      have g2 : valAt val (swapAt l i1 j1) j1 = valAt val l i1 :=
        valAt_swapAt_snd l i1 j1 hi1l hj1l
      have g3 : ∀ k, k ≠ i1 → k ≠ j1 → valAt val (swapAt l i1 j1) k = valAt val l k :=
        fun k h1 h2 => valAt_swapAt_other l i1 j1 k h1 h2
      have hL2 : ∀ k, a < k → k < i1 + 1 → valAt val (swapAt l i1 j1) k
          < valAt val (swapAt l i1 j1) a := by
        intro k hk1 hk2
        rw [g3 a (by omega) (by omega)]
        by_cases hki1 : k = i1
        · rw [hki1, g1]
          exact hstopJ
        · rw [g3 k hki1 (by omega)]
          by_cases hki : k < i
          · exact hL k hk1 hki
          · exact hscanIvals k (by omega) (by omega)
      have hR2 : ∀ k, j1 - 1 < k → k ≤ b - 1 → valAt val (swapAt l i1 j1) a
          ≤ valAt val (swapAt l i1 j1) k := by
        intro k hk1 hk2
        rw [g3 a (by omega) (by omega)]
        by_cases hkj1 : k = j1
        · rw [hkj1, g2]
          exact hstopI
        · rw [g3 k (by omega) hkj1]
          by_cases hkj : k ≤ j
          · exact hscanJvals k (by omega) hkj
          · exact hR k (by omega) hk2
      have hlen2 : b ≤ (swapAt l i1 j1).length := by
        rw [swapAt_length]
        exact hbl
      have ih := partLoop_spec hval a b fuel (swapAt l i1 j1) (i1+1) (j1-1)
        (by omega) (by omega) (by omega) hlen2 (by omega) hL2 hR2
      refine ⟨⟨by omega, by omega⟩, ?_, ih.2.2.1, ih.2.2.2⟩
      exact sameOutside_trans
        (swapAt_sameOutside l (a+1) b i1 j1 (by omega) (by omega) (by omega) (by omega))
        ih.2.1

theorem partition_spec (hval : ∀ x y, lt x y = true ↔ val x < val y) (a b pivot : Nat)
    (l : List α) (hab : a < b) (hpiva : a ≤ pivot) (hpivb : pivot < b) (hbl : b ≤ l.length) :
    (a ≤ (partition lt a b pivot l).2.1 ∧ (partition lt a b pivot l).2.1 < b) ∧
    SameOutside l (partition lt a b pivot l).1 a b ∧
    (∀ k, a ≤ k → k < (partition lt a b pivot l).2.1 →
      valAt val (partition lt a b pivot l).1 k
        ≤ valAt val (partition lt a b pivot l).1 (partition lt a b pivot l).2.1) ∧
    (∀ k, (partition lt a b pivot l).2.1 < k → k < b →
      valAt val (partition lt a b pivot l).1 (partition lt a b pivot l).2.1
        ≤ valAt val (partition lt a b pivot l).1 k) := by
  unfold partition
  dsimp only
  have hal : a < l.length := by omega
  have hpl : pivot < l.length := by omega
  set l0 := swapAt l a pivot with hl0def
  have hout0 : SameOutside l l0 a b :=
    swapAt_sameOutside l a b a pivot (le_refl _) (by omega) hpiva hpivb
  have hlen0 : l0.length = l.length := swapAt_length l a pivot
  have hsi := @partScanI_spec _ _ lt l0 a (b-1) b (a+1)
  have hsj := @partScanJ_spec _ _ lt l0 a (partScanI lt l0 a (b-1) (a+1) b) b (b-1)
  set i1 := partScanI lt l0 a (b-1) (a+1) b with hi1def
  set j1 := partScanJ lt l0 a i1 (b-1) b with hj1def
  have hii1 : a + 1 ≤ i1 := hsi.1
  have hi1b : i1 ≤ b := by
    have := hsi.2.1 (by omega)
    omega
  have hscanIvals : ∀ k, a + 1 ≤ k → k < i1 → valAt val l0 k < valAt val l0 a :=
    fun k h1 h2 => (lessAt_iff hval l0 k a).mp (hsi.2.2.1 k h1 h2)
  have hj1b : j1 ≤ b - 1 := hsj.1
  have hi1j1 : i1 ≤ j1 + 1 := by
    have := hsj.2.1 (by omega)
    omega
  have hscanJvals : ∀ k, j1 < k → k ≤ b - 1 → valAt val l0 a ≤ valAt val l0 k :=
    fun k h1 h2 => (lessAt_false_iff hval l0 k a).mp (hsj.2.2.1 k h1 h2)
  split
  · rename_i hdone
    dsimp only
    have hj1ge : a ≤ j1 := by omega
    have hj1l : j1 < l0.length := by omega
    have hal0 : a < l0.length := by omega
    have g1 : valAt val (swapAt l0 j1 a) j1 = valAt val l0 a :=
      valAt_swapAt_fst l0 j1 a hj1l hal0
    have g2 : valAt val (swapAt l0 j1 a) a = valAt val l0 j1 :=
      valAt_swapAt_snd l0 j1 a hj1l hal0
    have g3 : ∀ k, k ≠ j1 → k ≠ a → valAt val (swapAt l0 j1 a) k = valAt val l0 k :=
      fun k h1 h2 => valAt_swapAt_other l0 j1 a k h1 h2
    refine ⟨⟨hj1ge, by omega⟩, ?_, ?_, ?_⟩
    · exact sameOutside_trans hout0
        (swapAt_sameOutside l0 a b j1 a hj1ge (by omega) (le_refl _) (by omega))
    · intro k hk1 hk2
      rw [g1]
      rcases Nat.eq_or_lt_of_le hk1 with he | he
      · rw [← he, g2]
        exact le_of_lt (hscanIvals j1 (by omega) (by omega))
      · rw [g3 k (by omega) (by omega)]
        exact le_of_lt (hscanIvals k (by omega) (by omega))
    · intro k hk1 hk2
      rw [g1, g3 k (by omega) (by omega)]
      exact hscanJvals k hk1 (by omega)
  · rename_i hdone
    dsimp only
    have hle : i1 ≤ j1 := by omega
    have hstopI : valAt val l0 a ≤ valAt val l0 i1 :=
      (lessAt_false_iff hval l0 i1 a).mp (hsi.2.2.2 (by omega) (by omega))
    have hstopJ : valAt val l0 j1 < valAt val l0 a :=
      (lessAt_iff hval l0 j1 a).mp (hsj.2.2.2 (by omega) (by omega) hle)
    have hi1j1s : i1 < j1 := by
      rcases Nat.eq_or_lt_of_le hle with he | he
      · exfalso
        rw [he] at hstopI
        omega
      · exact he
    have hi1l : i1 < l0.length := by omega
    have hj1l : j1 < l0.length := by omega
    have g1 : valAt val (swapAt l0 i1 j1) i1 = valAt val l0 j1 :=
      valAt_swapAt_fst l0 i1 j1 hi1l hj1l
    have g2 : valAt val (swapAt l0 i1 j1) j1 = valAt val l0 i1 :=
      valAt_swapAt_snd l0 i1 j1 hi1l hj1l
    have g3 : ∀ k, k ≠ i1 → k ≠ j1 → valAt val (swapAt l0 i1 j1) k = valAt val l0 k :=
      fun k h1 h2 => valAt_swapAt_other l0 i1 j1 k h1 h2
    have hL2 : ∀ k, a < k → k < i1 + 1 → valAt val (swapAt l0 i1 j1) k
        < valAt val (swapAt l0 i1 j1) a := by
      intro k hk1 hk2
      rw [g3 a (by omega) (by omega)]
      by_cases hki1 : k = i1
      · rw [hki1, g1]
        exact hstopJ
      · rw [g3 k hki1 (by omega)]
        exact hscanIvals k (by omega) (by omega)
    have hR2 : ∀ k, j1 - 1 < k → k ≤ b - 1 → valAt val (swapAt l0 i1 j1) a
        ≤ valAt val (swapAt l0 i1 j1) k := by
      intro k hk1 hk2
      rw [g3 a (by omega) (by omega)]
      by_cases hkj1 : k = j1
      · rw [hkj1, g2]
        exact hstopI
      · rw [g3 k (by omega) hkj1]
        exact hscanJvals k (by omega) hk2
    have hlen2 : b ≤ (swapAt l0 i1 j1).length := by
      rw [swapAt_length, hlen0]
      exact hbl
    have hpl2 := partLoop_spec hval a b b (swapAt l0 i1 j1) (i1+1) (j1-1)
      (by omega) (by omega) (by omega) hlen2 (by omega) hL2 hR2
    set r := partLoop lt a b (swapAt l0 i1 j1) (i1+1) (j1-1) b with hrdef
    have hra : a < r.2 := by omega
    have hrb : r.2 ≤ j1 - 1 := hpl2.1.2
    have hvala : valAt val r.1 a = valAt val (swapAt l0 i1 j1) a :=
      (valAt_eq_of_sameOutside hpl2.2.1 a (Or.inl (by omega))).symm
    have hrlen : r.1.length = (swapAt l0 i1 j1).length := by
      rw [hrdef]
      exact (partLoop_perm lt a b b (swapAt l0 i1 j1) (i1+1) (j1-1)).length_eq
    have hral : r.2 < r.1.length := by omega
    have haal : a < r.1.length := by omega
    have q1 : valAt val (swapAt r.1 r.2 a) r.2 = valAt val r.1 a :=
      valAt_swapAt_fst r.1 r.2 a hral haal
    have q2 : valAt val (swapAt r.1 r.2 a) a = valAt val r.1 r.2 :=
      valAt_swapAt_snd r.1 r.2 a hral haal
    have q3 : ∀ k, k ≠ r.2 → k ≠ a → valAt val (swapAt r.1 r.2 a) k = valAt val r.1 k :=
      fun k h1 h2 => valAt_swapAt_other r.1 r.2 a k h1 h2
    refine ⟨⟨by omega, by omega⟩, ?_, ?_, ?_⟩
    · refine sameOutside_trans hout0 (sameOutside_trans
        (swapAt_sameOutside l0 a b i1 j1 (by omega) (by omega) (by omega) (by omega))
        (sameOutside_trans (sameOutside_mono hpl2.2.1 (by omega) (le_refl _)) ?_))
      exact swapAt_sameOutside r.1 a b r.2 a (by omega) (by omega) (le_refl _) (by omega)
    · intro k hk1 hk2
      rw [q1]
      rcases Nat.eq_or_lt_of_le hk1 with he | he
      · rw [← he, q2]
        exact le_of_lt (hpl2.2.2.1 r.2 hra (le_refl _))
      · rw [q3 k (by omega) (by omega)]
        exact le_of_lt (hpl2.2.2.1 k (by omega) (by omega))
    · intro k hk1 hk2
      rw [q1, q3 k (by omega) (by omega)]
      exact hpl2.2.2.2 k (by omega) (by omega)

theorem peLoop_spec (hval : ∀ x y, lt x y = true ↔ val x < val y) (a b : Nat) :
    ∀ (fuel : Nat) (l : List α) (i j : Nat),
      a + 1 ≤ i → i ≤ j + 1 → j + 1 ≤ b → b ≤ l.length → b ≤ i + fuel →
      (∀ k, a ≤ k → k < i → valAt val l k ≤ valAt val l a) →
      (∀ k, j < k → k ≤ b - 1 → valAt val l a < valAt val l k) →
      (i ≤ (peLoop lt a b l i j fuel).2 ∧ (peLoop lt a b l i j fuel).2 ≤ j + 1) ∧
      SameOutside l (peLoop lt a b l i j fuel).1 (a+1) b ∧
      (∀ k, a ≤ k → k < (peLoop lt a b l i j fuel).2 →
        valAt val (peLoop lt a b l i j fuel).1 k
          ≤ valAt val (peLoop lt a b l i j fuel).1 a) ∧
      (∀ k, (peLoop lt a b l i j fuel).2 ≤ k → k ≤ b - 1 →
        valAt val (peLoop lt a b l i j fuel).1 a
          < valAt val (peLoop lt a b l i j fuel).1 k)
  | 0, l, i, j, hai, hij, hjb, hbl, hfuel, hL, hR => by
    unfold peLoop
    refine ⟨⟨le_refl _, hij⟩, sameOutside_refl _ _ _, ?_, ?_⟩
    · intro k hk1 hk2
      exact hL k hk1 hk2
    · intro k hk1 hk2
      exact absurd hk2 (by omega)
  | fuel+1, l, i, j, hai, hij, hjb, hbl, hfuel, hL, hR => by
    unfold peLoop
    dsimp only
    have hsi := @peScanI_spec _ _ lt l a j b i
    have hsj := @peScanJ_spec _ _ lt l a (peScanI lt l a j i b) b j
    set i1 := peScanI lt l a j i b with hi1def
    set j1 := peScanJ lt l a i1 j b with hj1def
    have hii1 : i ≤ i1 := hsi.1
    have hi1j : i1 ≤ j + 1 := hsi.2.1 hij
    have hscanIvals : ∀ k, i ≤ k → k < i1 → valAt val l k ≤ valAt val l a :=
      fun k h1 h2 => (lessAt_false_iff hval l a k).mp (hsi.2.2.1 k h1 h2)
    have hj1j : j1 ≤ j := hsj.1
    have hi1j1 : i1 ≤ j1 + 1 := hsj.2.1 hi1j
    have hscanJvals : ∀ k, j1 < k → k ≤ j → valAt val l a < valAt val l k :=
      fun k h1 h2 => (lessAt_iff hval l a k).mp (hsj.2.2.1 k h1 h2)
    split
    · rename_i hdone
      refine ⟨⟨hii1, hi1j⟩, sameOutside_refl _ _ _, ?_, ?_⟩
      · intro k hk1 hk2
        by_cases hki : k < i
        · exact hL k hk1 hki
        · exact hscanIvals k (by omega) hk2
      · intro k hk1 hk2
        by_cases hkj : k ≤ j
        · exact hscanJvals k (by omega) hkj
        · exact hR k (by omega) hk2
    · rename_i hdone
      have hle : i1 ≤ j1 := by omega
      have hstopI : valAt val l a < valAt val l i1 :=
        (lessAt_iff hval l a i1).mp (hsi.2.2.2 (by omega) (by omega))
      have hstopJ : valAt val l j1 ≤ valAt val l a :=
        (lessAt_false_iff hval l a j1).mp (hsj.2.2.2 (by omega) (by omega) hle)
      have hi1j1s : i1 < j1 := by
        rcases Nat.eq_or_lt_of_le hle with he | he
        · exfalso
          rw [he] at hstopI
          omega
        · exact he
      have hi1l : i1 < l.length := by omega
      have hj1l : j1 < l.length := by omega
      have g1 : valAt val (swapAt l i1 j1) i1 = valAt val l j1 :=
        valAt_swapAt_fst l i1 j1 hi1l hj1l
      have g2 : valAt val (swapAt l i1 j1) j1 = valAt val l i1 :=
        valAt_swapAt_snd l i1 j1 hi1l hj1l
      have g3 : ∀ k, k ≠ i1 → k ≠ j1 → valAt val (swapAt l i1 j1) k = valAt val l k :=
        fun k h1 h2 => valAt_swapAt_other l i1 j1 k h1 h2
      have hL2 : ∀ k, a ≤ k → k < i1 + 1 → valAt val (swapAt l i1 j1) k
          ≤ valAt val (swapAt l i1 j1) a := by
        intro k hk1 hk2
        rw [g3 a (by omega) (by omega)]
        by_cases hki1 : k = i1
        · rw [hki1, g1]
          exact hstopJ
        · rw [g3 k hki1 (by omega)]
          by_cases hki : k < i
          · exact hL k hk1 hki
          · exact hscanIvals k (by omega) (by omega)
      have hR2 : ∀ k, j1 - 1 < k → k ≤ b - 1 → valAt val (swapAt l i1 j1) a
          < valAt val (swapAt l i1 j1) k := by
        intro k hk1 hk2
        rw [g3 a (by omega) (by omega)]
        by_cases hkj1 : k = j1
        · rw [hkj1, g2]
          exact hstopI
        · rw [g3 k (by omega) hkj1]
          by_cases hkj : k ≤ j
          · exact hscanJvals k (by omega) hkj
          · exact hR k (by omega) hk2
      have hlen2 : b ≤ (swapAt l i1 j1).length := by
        rw [swapAt_length]
        exact hbl
      have ih := peLoop_spec hval a b fuel (swapAt l i1 j1) (i1+1) (j1-1)
        (by omega) (by omega) (by omega) hlen2 (by omega) hL2 hR2
      refine ⟨⟨by omega, by omega⟩, ?_, ih.2.2.1, ih.2.2.2⟩
      exact sameOutside_trans
        (swapAt_sameOutside l (a+1) b i1 j1 (by omega) (by omega) (by omega) (by omega))
        ih.2.1

theorem partitionEqual_spec (hval : ∀ x y, lt x y = true ↔ val x < val y) (a b pivot : Nat)
    (l : List α) (hab : a < b) (hpiva : a ≤ pivot) (hpivb : pivot < b) (hbl : b ≤ l.length) :
    (a + 1 ≤ (partitionEqual lt a b pivot l).2 ∧ (partitionEqual lt a b pivot l).2 ≤ b) ∧
    SameOutside l (partitionEqual lt a b pivot l).1 a b ∧
    (∀ k, a ≤ k → k < (partitionEqual lt a b pivot l).2 →
      valAt val (partitionEqual lt a b pivot l).1 k ≤ valAt val l pivot) ∧
    (∀ k, (partitionEqual lt a b pivot l).2 ≤ k → k < b →
      valAt val l pivot < valAt val (partitionEqual lt a b pivot l).1 k) := by
  unfold partitionEqual
  have hal : a < l.length := by omega
  have hpl : pivot < l.length := by omega
  have hv0 : valAt val (swapAt l a pivot) a = valAt val l pivot :=
    valAt_swapAt_fst l a pivot hal hpl
  have hout0 : SameOutside l (swapAt l a pivot) a b :=
    swapAt_sameOutside l a b a pivot (le_refl _) (by omega) hpiva hpivb
  have hlen0 : b ≤ (swapAt l a pivot).length := by
    rw [swapAt_length]
    exact hbl
  have hpe := peLoop_spec hval a b b (swapAt l a pivot) (a+1) (b-1)
    (le_refl _) (by omega) (by omega) hlen0 (by omega)
    (fun k h1 h2 => le_of_eq (by rw [show k = a by omega]))
    (fun k h1 h2 => absurd h1 (by omega))
  set r := peLoop lt a b (swapAt l a pivot) (a+1) (b-1) b with hrdef
  have hva : valAt val r.1 a = valAt val l pivot := by
    rw [← hv0]
    exact (valAt_eq_of_sameOutside hpe.2.1 a (Or.inl (by omega))).symm
  refine ⟨⟨hpe.1.1, by omega⟩, sameOutside_trans hout0
    (sameOutside_mono hpe.2.1 (by omega) (le_refl _)), ?_, ?_⟩
  · intro k hk1 hk2
    rw [← hva]
    exact hpe.2.2.1 k hk1 hk2
  · intro k hk1 hk2
    rw [← hva]
    exact hpe.2.2.2 k hk1 (by omega)

theorem vsorted_eq_on {l l' : List α} {a b : Nat}
    (h : VSorted val l a b)
    (he : ∀ k, a ≤ k → k < b → valAt val l' k = valAt val l k) :
    VSorted val l' a b := by
  intro i j h1 h2 h3
  rw [he i h1 (by omega), he j (by omega) h3]
  exact h i j h1 h2 h3

theorem vsorted_glue {l : List α} {a mid b : Nat}
    (_hmid1 : a ≤ mid) (_hmid2 : mid < b)
    (hleft : VSorted val l a mid)
    (hright : VSorted val l (mid+1) b)
    (hlb : ∀ k, a ≤ k → k < mid → valAt val l k ≤ valAt val l mid)
    (hrb : ∀ k, mid < k → k < b → valAt val l mid ≤ valAt val l k) :
    VSorted val l a b := by
  intro i j h1 h2 h3
  by_cases hjm : j < mid
  · exact hleft i j h1 h2 hjm
  · by_cases him : mid < i
    · exact hright i j (by omega) h2 h3
    · have hi : valAt val l i ≤ valAt val l mid := by
        rcases Nat.eq_or_lt_of_le (show i ≤ mid by omega) with he | he
        · exact le_of_eq (by rw [he])
        · exact hlb i h1 he
      have hj : valAt val l mid ≤ valAt val l j := by
        rcases Nat.eq_or_lt_of_le (show mid ≤ j by omega) with he | he
        · exact le_of_eq (by rw [he])
        · exact hrb j he h3
      exact le_trans hi hj

theorem pdqBody_spec (hval : ∀ x y, lt x y = true ↔ val x < val y)
    (l : List α) (a b limit : Nat) (wB wP : Bool)
    (hab : 12 < b - a) (hbl : b ≤ l.length)
    (hsent : 0 < a → ∀ k, a ≤ k → k < b → valAt val l (a-1) ≤ valAt val l k) :
    SameOutside l (pdqBody lt l a b limit wB wP).1 a b ∧
    (a ≤ (pdqBody lt l a b limit wB wP).2.2.2 ∧ (pdqBody lt l a b limit wB wP).2.2.2 < b) ∧
    ((pdqBody lt l a b limit wB wP).2.1 = true →
      VSorted val (pdqBody lt l a b limit wB wP).1 a b) := by
  unfold pdqBody
  dsimp only
  set p1 := (if wB = true then (l, limit) else (breakPatterns l a b, limit - 1)) with hp1
  have h1p : List.Perm p1.1 l := by
    rw [hp1]
    split
    · exact .refl l
    · exact breakPatterns_perm l a b
  have h1o : SameOutside l p1.1 a b := by
    rw [hp1]
    split
    · exact sameOutside_refl _ _ _
    · exact breakPatterns_sameOutside l a b
  have h1len : b ≤ p1.1.length := by
    rw [h1p.length_eq]
    exact hbl
  have h1sent := sentinel_transport h1p.symm h1o hbl hsent
  set cp := choosePivot lt p1.1 a b with hcp
  have hcpb : a ≤ cp.1 ∧ cp.1 < b := by
    rw [hcp]
    exact choosePivot_bounds lt p1.1 a b (by omega)
  set p2 := (if cp.2 = Hint.decreasing then
      (reverseRange a b p1.1, b - 1 - (cp.1 - a), Hint.increasing)
    else (p1.1, cp.1, cp.2)) with hp2
  have h2p : List.Perm p2.1 p1.1 := by
    rw [hp2]
    split
    · exact reverseRange_perm a b _
    · exact .refl _
  have h2o : SameOutside p1.1 p2.1 a b := by
    rw [hp2]
    split
    · exact reverseRange_sameOutside a b p1.1
    · exact sameOutside_refl _ _ _
  have h2piv : a ≤ p2.2.1 ∧ p2.2.1 < b := by
    rw [hp2]
    split
    · dsimp only
      omega
    · dsimp only
      exact hcpb
  have h2len : b ≤ p2.1.length := by
    rw [h2p.length_eq]
    exact h1len
  have h2sent := sentinel_transport h2p.symm h2o h1len h1sent
  have hps := partialInsertionSort_spec hval a b p2.1 (by omega) h2len h2sent
  refine ⟨?_, h2piv, ?_⟩
  · split
    · exact sameOutside_trans h1o (sameOutside_trans h2o hps.2)
    · exact sameOutside_trans h1o h2o
  · split
    · exact hps.1
    · intro h
      exact absurd h Bool.false_ne_true

theorem pdqsort_sorts (hval : ∀ x y, lt x y = true ↔ val x < val y) :
    ∀ (fuel : Nat) (l : List α) (a b limit : Nat) (wB wP : Bool),
      b ≤ l.length → b - a ≤ fuel →
      (0 < a → ∀ k, a ≤ k → k < b → valAt val l (a-1) ≤ valAt val l k) →
      VSorted val (pdqsort lt fuel l a b limit wB wP) a b ∧
        SameOutside l (pdqsort lt fuel l a b limit wB wP) a b
  | 0, l, a, b, limit, wB, wP, hbl, hfuel, hsent => by
    unfold pdqsort
    exact ⟨vsorted_small (by omega), sameOutside_refl _ _ _⟩
  | fuel+1, l, a, b, limit, wB, wP, hbl, hfuel, hsent => by
    unfold pdqsort
    dsimp only
    split
    · exact insertionSort_sorts hval a b l hbl
    · rename_i hsmall
      have h12 : 12 < b - a := by omega
      split
      · exact heapSort_sorts hval a b l (by omega) hbl
      · rename_i hlimit
        have hbody := pdqBody_spec hval l a b limit wB wP h12 hbl hsent
        have hbperm : List.Perm (pdqBody lt l a b limit wB wP).1 l :=
          pdqBody_perm lt l a b limit wB wP
        set body := pdqBody lt l a b limit wB wP with hbodydef
        have hblen : b ≤ body.1.length := by
          rw [hbperm.length_eq]
          exact hbl
        have hbsent := sentinel_transport hbperm.symm hbody.1 hbl hsent
        split
        · rename_i htrue
          exact ⟨hbody.2.2 htrue, hbody.1⟩
        · rename_i hfalse
          split
          · rename_i hpecond
            have h0a : 0 < a := hpecond.1
            have hplf : lessAt lt body.1 (a-1) body.2.2.2 = false :=
              Bool.eq_false_iff.mpr hpecond.2
            have hvb : valAt val body.1 body.2.2.2 ≤ valAt val body.1 (a-1) :=
              (lessAt_false_iff hval body.1 (a-1) body.2.2.2).mp hplf
            have hveqp : valAt val body.1 (a-1) = valAt val body.1 body.2.2.2 :=
              le_antisymm (hbsent h0a body.2.2.2 hbody.2.1.1 hbody.2.1.2) hvb
            have hpes := partitionEqual_spec hval a b body.2.2.2 body.1 (by omega)
              hbody.2.1.1 hbody.2.1.2 hblen
            have hpeperm : List.Perm (partitionEqual lt a b body.2.2.2 body.1).1 body.1 :=
              partitionEqual_perm lt a b body.2.2.2 body.1
            set pe := partitionEqual lt a b body.2.2.2 body.1 with hpedef
            have hpelen : b ≤ pe.1.length := by
              rw [hpeperm.length_eq]
              exact hblen
            have hpesent := sentinel_transport hpeperm.symm hpes.2.1 hblen hbsent
            have hveq : ∀ k, a ≤ k → k < pe.2 →
                valAt val pe.1 k = valAt val body.1 body.2.2.2 := by
              intro k hk1 hk2
              refine le_antisymm (hpes.2.2.1 k hk1 hk2) ?_
              have h1 : valAt val pe.1 (a-1) ≤ valAt val pe.1 k :=
                hpesent h0a k hk1 (by omega)
              have h2 : valAt val pe.1 (a-1) = valAt val body.1 (a-1) :=
                (valAt_eq_of_sameOutside hpes.2.1 (a-1) (Or.inl (by omega))).symm
              rw [h2, hveqp] at h1
              exact h1
            have hrec := pdqsort_sorts hval fuel pe.1 pe.2 b body.2.2.1 wB wP hpelen
              (by omega)
              (fun h0pe k hk1 hk2 =>
                le_trans (le_of_eq (hveq (pe.2 - 1) (by omega) (by omega)))
                  (le_of_lt (hpes.2.2.2 k (by omega) hk2)))
            have hrperm : List.Perm (pdqsort lt fuel pe.1 pe.2 b body.2.2.1 wB wP) pe.1 :=
              pdqsort_perm lt fuel pe.1 pe.2 b body.2.2.1 wB wP
            set rec := pdqsort lt fuel pe.1 pe.2 b body.2.2.1 wB wP with hrecdef
            have hrout : SameOutside pe.1 rec pe.2 b := hrec.2
            have hrright : ∀ k, pe.2 ≤ k → k < b →
                valAt val body.1 body.2.2.2 < valAt val rec k := by
              intro k hk1 hk2
              exact allRange_transport val (fun v => valAt val body.1 body.2.2.2 < v)
                hrperm.symm hrout hpelen (fun k2 h1 h2 => hpes.2.2.2 k2 h1 h2) k hk1 hk2
            have hleft2 : ∀ k, a ≤ k → k < pe.2 →
                valAt val rec k = valAt val body.1 body.2.2.2 := by
              intro k hk1 hk2
              rw [← valAt_eq_of_sameOutside hrout k (Or.inl hk2)]
              exact hveq k hk1 hk2
            constructor
            · intro i j h1 h2 h3
              by_cases hjpe : j < pe.2
              · rw [hleft2 i h1 (by omega), hleft2 j (by omega) hjpe]
              · by_cases hipe : i < pe.2
                · rw [hleft2 i h1 hipe]
                  exact le_of_lt (hrright j (by omega) h3)
                · exact hrec.1 i j (by omega) h2 h3
            · exact sameOutside_trans hbody.1 (sameOutside_trans hpes.2.1
                (sameOutside_mono hrout (by omega) (le_refl _)))
          · rename_i hpecond
            have hpt := partition_spec hval a b body.2.2.2 body.1 (by omega)
              hbody.2.1.1 hbody.2.1.2 hblen
            have hptperm : List.Perm (partition lt a b body.2.2.2 body.1).1 body.1 :=
              partition_perm lt a b body.2.2.2 body.1
            set pt := partition lt a b body.2.2.2 body.1 with hptdef
            have hptlen : b ≤ pt.1.length := by
              rw [hptperm.length_eq]
              exact hblen
            have hptsent := sentinel_transport hptperm.symm hpt.2.1 hblen hbsent
            have hmid1 : a ≤ pt.2.1 := hpt.1.1
            have hmid2 : pt.2.1 < b := hpt.1.2
            split
            · rename_i hbr
              have hin := pdqsort_sorts hval fuel pt.1 a pt.2.1 body.2.2.1 true true
                (by omega) (by omega)
                (fun h0 k hk1 hk2 => hptsent h0 k hk1 (by omega))
              have hinperm : List.Perm (pdqsort lt fuel pt.1 a pt.2.1 body.2.2.1 true true)
                  pt.1 := pdqsort_perm lt fuel pt.1 a pt.2.1 body.2.2.1 true true
              set inner := pdqsort lt fuel pt.1 a pt.2.1 body.2.2.1 true true with hindef
              have hinlen : b ≤ inner.length := by
                rw [hinperm.length_eq]
                exact hptlen
              have hinhigh : ∀ k, pt.2.1 ≤ k → valAt val inner k = valAt val pt.1 k :=
                fun k hk => (valAt_eq_of_sameOutside hin.2 k (Or.inr hk)).symm
              have hout := pdqsort_sorts hval fuel inner (pt.2.1+1) b body.2.2.1
                (decide ((b - a) / 8 ≤ min (pt.2.1 - a) (b - pt.2.1))) pt.2.2
                hinlen (by omega)
                (by
                  intro h0 k hk1 hk2
                  rw [hinhigh (pt.2.1+1-1) (by omega), hinhigh k (by omega)]
                  exact hpt.2.2.2 k (by omega) hk2)
              have houtperm : List.Perm (pdqsort lt fuel inner (pt.2.1+1) b body.2.2.1
                  (decide ((b - a) / 8 ≤ min (pt.2.1 - a) (b - pt.2.1))) pt.2.2) inner :=
                pdqsort_perm lt fuel inner (pt.2.1+1) b body.2.2.1 _ pt.2.2
              set outer := pdqsort lt fuel inner (pt.2.1+1) b body.2.2.1
                (decide ((b - a) / 8 ≤ min (pt.2.1 - a) (b - pt.2.1))) pt.2.2 with houtdef
              have houtlow : ∀ k, k < pt.2.1 + 1 → valAt val outer k = valAt val inner k :=
                fun k hk => (valAt_eq_of_sameOutside hout.2 k (Or.inl hk)).symm
              constructor
              · refine vsorted_glue hmid1 hmid2 ?_ hout.1 ?_ ?_
                · exact vsorted_eq_on hin.1 (fun k hk1 hk2 => houtlow k (by omega))
                · intro k hk1 hk2
                  rw [houtlow k (by omega), houtlow pt.2.1 (by omega), hinhigh pt.2.1 (le_refl _)]
                  exact allRange_transport val (fun v => v ≤ valAt val pt.1 pt.2.1)
                    hinperm.symm hin.2 (by omega)
                    (fun k2 h1 h2 => hpt.2.2.1 k2 h1 h2) k hk1 hk2
                · intro k hk1 hk2
                  rw [houtlow pt.2.1 (by omega), hinhigh pt.2.1 (le_refl _)]
                  exact allRange_transport val (fun v => valAt val pt.1 pt.2.1 ≤ v)
                    houtperm.symm hout.2 hinlen
                    (fun k2 h1 h2 => by
                      rw [hinhigh k2 (by omega)]
                      exact hpt.2.2.2 k2 (by omega) h2) k (by omega) hk2
              · exact sameOutside_trans hbody.1 (sameOutside_trans hpt.2.1
                  (sameOutside_trans (sameOutside_mono hin.2 (le_refl _) (by omega))
                    (sameOutside_mono hout.2 (by omega) (le_refl _))))
            · rename_i hbr
              have hin := pdqsort_sorts hval fuel pt.1 (pt.2.1+1) b body.2.2.1 true true
                hptlen (by omega)
                (fun h0 k hk1 hk2 => hpt.2.2.2 k (by omega) hk2)
              have hinperm : List.Perm (pdqsort lt fuel pt.1 (pt.2.1+1) b body.2.2.1 true true)
                  pt.1 := pdqsort_perm lt fuel pt.1 (pt.2.1+1) b body.2.2.1 true true
              set inner := pdqsort lt fuel pt.1 (pt.2.1+1) b body.2.2.1 true true with hindef
              have hinlen : b ≤ inner.length := by
                rw [hinperm.length_eq]
                exact hptlen
              have hinlow : ∀ k, k < pt.2.1 + 1 → valAt val inner k = valAt val pt.1 k :=
                fun k hk => (valAt_eq_of_sameOutside hin.2 k (Or.inl hk)).symm
              have hout := pdqsort_sorts hval fuel inner a pt.2.1 body.2.2.1
                (decide ((b - a) / 8 ≤ min (pt.2.1 - a) (b - pt.2.1))) pt.2.2
                (by omega) (by omega)
                (by
                  intro h0 k hk1 hk2
                  rw [hinlow (a-1) (by omega), hinlow k (by omega)]
                  exact hptsent h0 k hk1 (by omega))
              have houtperm : List.Perm (pdqsort lt fuel inner a pt.2.1 body.2.2.1
                  (decide ((b - a) / 8 ≤ min (pt.2.1 - a) (b - pt.2.1))) pt.2.2) inner :=
                pdqsort_perm lt fuel inner a pt.2.1 body.2.2.1 _ pt.2.2
              set outer := pdqsort lt fuel inner a pt.2.1 body.2.2.1
                (decide ((b - a) / 8 ≤ min (pt.2.1 - a) (b - pt.2.1))) pt.2.2 with houtdef
              have houthigh : ∀ k, pt.2.1 ≤ k → valAt val outer k = valAt val inner k :=
                fun k hk => (valAt_eq_of_sameOutside hout.2 k (Or.inr hk)).symm
              constructor
              · refine vsorted_glue hmid1 hmid2 hout.1 ?_ ?_ ?_
                · exact vsorted_eq_on hin.1 (fun k hk1 hk2 => houthigh k (by omega))
                · intro k hk1 hk2
                  rw [houthigh pt.2.1 (le_refl _), hinlow pt.2.1 (by omega)]
                  exact allRange_transport val (fun v => v ≤ valAt val pt.1 pt.2.1)
                    houtperm.symm hout.2 (by omega)
                    (fun k2 h1 h2 => by
                      rw [hinlow k2 (by omega)]
                      exact hpt.2.2.1 k2 h1 h2) k hk1 hk2
                · intro k hk1 hk2
                  rw [houthigh pt.2.1 (le_refl _), hinlow pt.2.1 (by omega),
                    houthigh k (by omega)]
                  exact allRange_transport val (fun v => valAt val pt.1 pt.2.1 ≤ v)
                    hinperm.symm hin.2 hptlen
                    (fun k2 h1 h2 => hpt.2.2.2 k2 (by omega) h2) k (by omega) hk2
              · exact sameOutside_trans hbody.1 (sameOutside_trans hpt.2.1
                  (sameOutside_trans (sameOutside_mono hin.2 (by omega) (le_refl _))
                    (sameOutside_mono hout.2 (le_refl _) (by omega))))

theorem sortSlice_sorts (hval : ∀ x y, lt x y = true ↔ val x < val y) (l : List α) :
    VSorted val (sortSlice lt l) 0 l.length := by
  unfold sortSlice
  dsimp only
  exact (pdqsort_sorts hval (l.length+1) l 0 l.length (bitsLen l.length) true true
    (le_refl _) (by omega) (fun h0 => absurd h0 (by omega))).1

end SortCorrectness

end GoSort

/-! ### Aggregator lemmas -/

theorem calcStep_fold :
    ∀ (jobs : List Job) (s0 : DashboardStats),
      jobs.foldl
        (fun stats job =>
          if job.Status = "success" then { stats with Success := stats.Success + 1 }
          else if job.Status = "failed" then { stats with Failed := stats.Failed + 1 }
          else if job.Status = "running" then { stats with Running := stats.Running + 1 }
          else if job.Status = "pending" then { stats with Pending := stats.Pending + 1 }
          else stats) s0 =
      { Success := s0.Success + jobs.countP (fun j => decide (j.Status = "success"))
      , Failed := s0.Failed + jobs.countP (fun j => decide (j.Status = "failed"))
      , Running := s0.Running + jobs.countP (fun j => decide (j.Status = "running"))
      , Pending := s0.Pending + jobs.countP (fun j => decide (j.Status = "pending"))
      , Total := s0.Total }
  | [], s0 => by simp
  | j :: t, s0 => by
    rw [List.foldl_cons]
    split_ifs with h1 h2 h3 h4 <;>
        rw [calcStep_fold t _] <;>
        (try simp_all [List.countP_cons, DashboardStats.mk.injEq]) <;>
        (try omega)

/-- calculateStats counts each status predicate over the list and takes
the length as total. -/
theorem calculateStats_countP (jobs : List Job) :
    calculateStats jobs =
      { Success := jobs.countP (fun j => decide (j.Status = "success"))
      , Failed := jobs.countP (fun j => decide (j.Status = "failed"))
      , Running := jobs.countP (fun j => decide (j.Status = "running"))
      , Pending := jobs.countP (fun j => decide (j.Status = "pending"))
      , Total := jobs.length } := by
  unfold calculateStats
  rw [calcStep_fold jobs _]
  simp

/-- Stats are invariant under permutation of the job list. -/
theorem calculateStats_perm (l1 l2 : List Job) (h : List.Perm l1 l2) :
    calculateStats l1 = calculateStats l2 := by
  rw [calculateStats_countP, calculateStats_countP]
  rw [h.countP_eq, h.countP_eq, h.countP_eq, h.countP_eq, h.length_eq]

theorem rangeSorted_of_sortedDesc (l : List Job) (h : JobsSortedDesc l) :
    GoSort.RangeSorted jobLt l := by
  intro i j hij hj
  unfold GoSort.lessAt
  rw [List.getD_eq_getElem l default (show j < l.length from hj),
    List.getD_eq_getElem l default (show i < l.length by omega)]
  exact List.pairwise_iff_getElem.mp h i j (by omega) hj hij

theorem sortJobs_perm (jobs : List Job) : List.Perm (sortJobs jobs) jobs :=
  GoSort.sortSlice_perm jobLt jobs

theorem sortJobs_id (jobs : List Job) (h : JobsSortedDesc jobs) : sortJobs jobs = jobs :=
  GoSort.sortSlice_id jobLt jobs (rangeSorted_of_sortedDesc jobs h)

/-- Sum of the four status counters over a list whose statuses all lie
in the four dashboard values. -/
theorem countP_status_sum :
    ∀ (jobs : List Job), (∀ j ∈ jobs, j.Status = "success" ∨ j.Status = "failed" ∨
        j.Status = "running" ∨ j.Status = "pending") →
      jobs.countP (fun j => decide (j.Status = "success"))
        + jobs.countP (fun j => decide (j.Status = "failed"))
        + jobs.countP (fun j => decide (j.Status = "running"))
        + jobs.countP (fun j => decide (j.Status = "pending")) = jobs.length
  | [], _ => by simp
  | j :: t, h => by
    have ih := countP_status_sum t (fun x hx => h x (List.mem_cons_of_mem j hx))
    simp only [List.countP_cons, List.length_cons]
    rcases h j (List.mem_cons_self j t) with h1 | h1 | h1 | h1 <;> simp [h1] <;> omega

set_option maxRecDepth 4000 in
/-- C6 counterexample: the Aggregator's sort is NOT stable.  On the
13-job input c6jobs (run ids 0..12 in collection order, where jobs 1..11
share one creation instant), the sorted output lists run id 6 before run
ids 3, 4, 5 and 2, although all of them have equal creation instants and
appear in ascending id order in the input; so equal-instant jobs do not
keep their relative collection order. -/
theorem C6_counterexample :
    (sortJobs c6jobs).map Job.RunID = [12, 0, 6, 3, 4, 5, 2, 7, 8, 9, 10, 11, 1]
    ∧ c6jobs.map Job.RunID = [0, 1, 2, 3, 4, 5, 6, 7, 8, 9, 10, 11, 12]
    ∧ (c6jobs.getD 2 default).CreatedAt = (c6jobs.getD 6 default).CreatedAt :=
  ⟨by decide, by decide, by decide⟩

/-- The job comparison closure orders jobs by the negated creation
instant: ascending in that value is descending in creation time. -/
theorem jobLt_val (x y : Job) :
    jobLt x y = true ↔ (-(toSecs x.CreatedAt)) < (-(toSecs y.CreatedAt)) := by
  unfold jobLt after
  simp only [decide_eq_true_eq]
  omega

/-- The Aggregator's sort really sorts: its output is ordered
newest-first (creation instant descending, ties in whatever order the
pdqsort leaves them). -/
theorem sortJobs_sorted (jobs : List Job) : JobsSortedDesc (sortJobs jobs) := by
  have hv := @GoSort.sortSlice_sorts Job _ jobLt (fun j => -(toSecs j.CreatedAt))
    jobLt_val jobs
  have hlen : (GoSort.sortSlice jobLt jobs).length = jobs.length :=
    (GoSort.sortSlice_perm jobLt jobs).length_eq
  unfold JobsSortedDesc sortJobs
  rw [List.pairwise_iff_getElem]
  intro i j hi hj hij
  have h := hv i j (Nat.zero_le i) hij (by omega)
  unfold GoSort.valAt at h
  rw [List.getD_eq_getElem _ default (show i < (GoSort.sortSlice jobLt jobs).length by omega),
    List.getD_eq_getElem _ default
      (show j < (GoSort.sortSlice jobLt jobs).length by omega)] at h
  dsimp only at h
  rw [Bool.eq_false_iff]
  intro hc
  have hlt := (jobLt_val _ _).mp hc
  omega

/-- C6 amended: the Aggregator sorts the collected jobs by creation
instant descending with Go's sort.Slice pdqsort: the output is a
permutation of the input ordered newest-first, but jobs with equal
creation instants are NOT guaranteed to keep their relative collection
order (the sort is unstable).  Applying the Aggregator a second time
leaves the ordering unchanged (a sorted list passes through the sort
untouched) and yields identical stats (stats depend only on the multiset
of jobs). -/
theorem C6_amended_sorted_desc_perm_stats_idem (jobs : List Job) :
    List.Perm (sortJobs jobs) jobs
    ∧ JobsSortedDesc (sortJobs jobs)
    ∧ sortJobs (sortJobs jobs) = sortJobs jobs
    ∧ calculateStats (sortJobs jobs) = calculateStats jobs :=
  ⟨sortJobs_perm jobs, sortJobs_sorted jobs,
    sortJobs_id (sortJobs jobs) (sortJobs_sorted jobs),
    calculateStats_perm _ _ (sortJobs_perm jobs)⟩

/-- C10: for every job list in which each status is one of success,
failed, running, pending, the computed DashboardStats satisfies
Success + Failed + Running + Pending = Total, and Total is the number of
jobs in the list. -/
theorem C10_stats_sum_invariant (jobs : List Job)
    (h : ∀ j ∈ jobs, j.Status = "success" ∨ j.Status = "failed" ∨
      j.Status = "running" ∨ j.Status = "pending") :
    (calculateStats jobs).Success + (calculateStats jobs).Failed
        + (calculateStats jobs).Running + (calculateStats jobs).Pending
      = (calculateStats jobs).Total
    ∧ (calculateStats jobs).Total = jobs.length := by
  rw [calculateStats_countP]
  exact ⟨countP_status_sum jobs h, rfl⟩

/-- C10 witness: the stats sum invariant on a concrete three-job list. -/
theorem C10_witness :
    (∀ j ∈ [jobOf "success" 3 1, jobOf "running" 2 2, jobOf "failed" 1 3],
      j.Status = "success" ∨ j.Status = "failed" ∨ j.Status = "running" ∨
        j.Status = "pending")
    ∧ ((calculateStats [jobOf "success" 3 1, jobOf "running" 2 2, jobOf "failed" 1 3]).Success
        + (calculateStats [jobOf "success" 3 1, jobOf "running" 2 2, jobOf "failed" 1 3]).Failed
        + (calculateStats [jobOf "success" 3 1, jobOf "running" 2 2, jobOf "failed" 1 3]).Running
        + (calculateStats [jobOf "success" 3 1, jobOf "running" 2 2, jobOf "failed" 1 3]).Pending
      = (calculateStats [jobOf "success" 3 1, jobOf "running" 2 2, jobOf "failed" 1 3]).Total
      ∧ (calculateStats [jobOf "success" 3 1, jobOf "running" 2 2, jobOf "failed" 1 3]).Total
        = [jobOf "success" 3 1, jobOf "running" 2 2, jobOf "failed" 1 3].length) :=
  ⟨by decide, C10_stats_sum_invariant _ (by decide)⟩

/-- C3: for every raw status and optional conclusion, compared through
toLower, the normalized status is success iff status is completed with
conclusion success; failed iff status is completed with any other or
absent conclusion; running iff status is in_progress or queued (and not
completed); pending otherwise — and the result is always one of the
four values. -/
theorem C3_status_normalization (status : String) (conclusion : Option String) :
    (normalizeStatus status conclusion = "success" ↔
      status.toLower = "completed" ∧ conclusion.map String.toLower = some "success")
    ∧ (normalizeStatus status conclusion = "failed" ↔
      status.toLower = "completed" ∧ conclusion.map String.toLower ≠ some "success")
    ∧ (normalizeStatus status conclusion = "running" ↔
      status.toLower ≠ "completed" ∧
        (status.toLower = "in_progress" ∨ status.toLower = "queued"))
    ∧ (normalizeStatus status conclusion = "pending" ↔
      status.toLower ≠ "completed" ∧ status.toLower ≠ "in_progress" ∧
        status.toLower ≠ "queued")
    ∧ (normalizeStatus status conclusion = "success"
      ∨ normalizeStatus status conclusion = "failed"
      ∨ normalizeStatus status conclusion = "running"
      ∨ normalizeStatus status conclusion = "pending") := by
  unfold normalizeStatus
  by_cases hc : status.toLower = "completed"
  · cases conclusion with
    | none => simp [hc]
    | some c0 =>
      by_cases hcs : c0.toLower = "success"
      · simp [hc, hcs]
      · simp [hc, hcs]
  · by_cases h2 : status.toLower = "in_progress"
    · simp [hc, h2]
    · by_cases h3 : status.toLower = "queued" <;> simp [hc, h2, h3]

/-! ### Error handling (claims C1 and C9) -/

/-- C1 counterexample: with a single configured organization whose very
first API call (its repository listing) fails, the handler still
returns a DashboardResponse (empty job list, zero stats, default rate
limit) instead of surfacing an error — the claimed total cycle failure
never happens because the error branch only logs and continues. -/
theorem C1_counterexample :
    dashboardHandler c1env ["org1"] "week" t2026
      = HandlerResult.response
          { Stats := { Success := 0, Failed := 0, Running := 0, Pending := 0, Total := 0 }
          , Jobs := []
          , RateLimit := defaultRate t2026 } := by
  rfl

/-- C1 amended: fetchWorkflowRuns never returns an error (its only
return statement passes nil), so for every environment, organization
list, raw period and instant the dashboard handler produces a
DashboardResponse assembled from the fetched jobs — even when the first
API call fails, in which case that organization is simply skipped. -/
theorem C1_amended_no_total_failure (env : ApiEnv) (orgNames : List String)
    (rawPeriod : String) (now : GTime) :
    ∃ jobs rateLimit,
      fetchWorkflowRuns env orgNames (validatePeriod rawPeriod) now
        = .ok (jobs, rateLimit)
      ∧ dashboardHandler env orgNames rawPeriod now
        = .response { Stats := calculateStats jobs, Jobs := jobs, RateLimit := rateLimit } :=
  ⟨_, _, rfl, rfl⟩

/-- Skipping an organization whose repository listing fails leaves the
whole fold unchanged. -/
theorem orgStep_skip (env : ApiEnv) (period : String) (now startTime : GTime)
    (o e : String) (horg : env.listByOrg o = .error e) (acc : FetchAcc) :
    orgStep env period now startTime acc o = acc := by
  unfold orgStep
  rw [horg]

/-- C9: a failing unit after the first successful call is skipped
without aborting the cycle: listing failures for one organization make
the whole fetch equal to the fetch without that organization (same jobs,
same rate limit, still no error), and a repository whose run listing
fails contributes nothing to the accumulator. -/
theorem C9_partial_failure_skips_unit (env : ApiEnv) (period : String) (now : GTime)
    (pre post : List String) (o e : String)
    (horg : env.listByOrg o = .error e) :
    fetchWorkflowRuns env (pre ++ o :: post) period now
      = fetchWorkflowRuns env (pre ++ post) period now
    ∧ (∀ (acc : FetchAcc) (orgName repoName e2 : String),
        env.listRuns orgName repoName = .error e2 →
        repoStep env period now (resolveStart period now) orgName acc repoName = acc) := by
  constructor
  · unfold fetchWorkflowRuns
    dsimp only
    rw [List.foldl_append, List.foldl_append, List.foldl_cons,
      orgStep_skip env period now (resolveStart period now) o e horg]
  · intro acc orgName repoName e2 hrun
    unfold repoStep
    rw [hrun]

/-- C9 witness: in the three-organization scenario where the second
organization fails its repository listing, the fetch equals the fetch
over organizations 1 and 3 alone, and that response still carries one
job from each of the two surviving organizations with no error. -/
theorem C9_witness :
    fetchWorkflowRuns env9 (["org1"] ++ "org2" :: ["org3"]) "week" t2026
      = fetchWorkflowRuns env9 (["org1"] ++ ["org3"]) "week" t2026
    ∧ (fetchWorkflowRuns env9 ["org1", "org2", "org3"] "week" t2026).toOption.map
        (fun p => p.1.map (fun j => (j.Organization, j.RunID)))
      = some [("org3", 31), ("org1", 11)] :=
  ⟨(C9_partial_failure_skips_unit env9 "week" t2026 ["org1"] ["org3"] "org2"
      "listing failed" (by rfl)).1,
    by rfl⟩

/-! ### Rate-limit tracking (claim C5) -/

theorem repoFold_rl (env : ApiEnv) (period : String) (now startTime : GTime)
    (orgName : String) :
    ∀ (repos : List Repo) (acc : FetchAcc),
      (repos.foldl (fun a repo => repoStep env period now startTime orgName a repo.name) acc).rl
        = (repoTrace env orgName repos).getLast?.or acc.rl
  | [], acc => by simp [repoTrace]
  | repo :: rest, acc => by
    rw [List.foldl_cons, repoFold_rl env period now startTime orgName rest _]
    unfold repoTrace
    rw [List.flatMap_cons, List.getLast?_append]
    unfold repoStep
    cases hr : env.listRuns orgName repo.name with
    | error e => simp [hr]
    | ok p =>
      obtain ⟨runs, rate⟩ := p
      simp only [hr]
      cases rate with
      | none => simp
      | some r2 => simp [Option.or_assoc]

theorem orgFold_rl (env : ApiEnv) (period : String) (now startTime : GTime) :
    ∀ (orgNames : List String) (acc : FetchAcc),
      (orgNames.foldl (orgStep env period now startTime) acc).rl
        = (ratesTrace env orgNames period now startTime).getLast?.or acc.rl
  | [], acc => by simp [ratesTrace]
  | o :: rest, acc => by
    rw [List.foldl_cons, orgFold_rl env period now startTime rest _]
    unfold ratesTrace
    rw [List.flatMap_cons, List.getLast?_append]
    unfold orgStep
    cases ho : env.listByOrg o with
    | error e => simp [ho]
    | ok p =>
      obtain ⟨repos, rate⟩ := p
      simp only [ho]
      rw [repoFold_rl env period now startTime o _ _]
      rw [List.getLast?_append]
      cases rate with
      | none => simp [Option.or_assoc]
      | some r =>
        simp only [Option.toList_some, List.getLast?_singleton]
        cases hq : (repoTrace env o (repos.filter (repoKeep period now startTime))).getLast? with
        | none => simp [Option.or_assoc]
        | some q => simp [Option.or_assoc]

/-- C5: the rate_limit of the response is the last snapshot reported by
the successful API calls of the cycle in call order (organization
listing first, then the filtered repositories' run listings, per
organization in configured order); when no call reported one it is the
default 5000/5000 snapshot resetting one hour after the current
instant. -/
theorem C5_rate_limit_last_write_wins (env : ApiEnv) (orgNames : List String)
    (period : String) (now : GTime) :
    ∃ jobs,
      fetchWorkflowRuns env orgNames period now
        = .ok (jobs,
            ((ratesTrace env orgNames period now (resolveStart period now)).getLast?).getD
              (defaultRate now)) := by
  have h := orgFold_rl env period now (resolveStart period now) orgNames ⟨[], none⟩
  rw [Option.or_none] at h
  refine ⟨sortJobs (List.foldl (orgStep env period now (resolveStart period now))
    ⟨[], none⟩ orgNames).jobs, ?_⟩
  unfold fetchWorkflowRuns
  dsimp only
  rw [h]
  cases (ratesTrace env orgNames period now (resolveStart period now)).getLast? with
  | none => rfl
  | some r => rfl

/-! ### Time window resolution (claim C8) -/

/-- Calendar day arithmetic agrees with absolute-second arithmetic when
the clock fields are in range. -/
theorem addDays_eq_addSecs (t : GTime) (h : ClockValid t) (n : Int) :
    addDays t n = addSecs t (n * 86400) := by
  obtain ⟨h1, h2, h3, h4, h5, h6⟩ := h
  unfold addDays addSecs toSecs
  dsimp only
  have hz : (daysFromCivil t.year t.month t.day * 86400 + t.hour * 3600 + t.minute * 60
      + t.second + n * 86400) / 86400 = daysFromCivil t.year t.month t.day + n := by omega
  have hm : (daysFromCivil t.year t.month t.day * 86400 + t.hour * 3600 + t.minute * 60
      + t.second + n * 86400) % 86400 = t.hour * 3600 + t.minute * 60 + t.second := by omega
  rw [hz, hm]
  have ha : (t.hour * 3600 + t.minute * 60 + t.second) / 3600 = t.hour := by omega
  have hb : (t.hour * 3600 + t.minute * 60 + t.second) / 60 % 60 = t.minute := by omega
  have hc : (t.hour * 3600 + t.minute * 60 + t.second) % 60 = t.second := by omega
  rw [ha, hb, hc]

/-- C8: for every period keyword and current local instant, the resolved
window is: today from 01:00:00 to 23:00:00 of the current day; week from
the current instant minus 7 days with no upper bound; month from
00:00:00 on the 1st of the current month with no upper bound; and any
other keyword resolves exactly like week, with the handler also
validating such keywords to week. -/
theorem C8_window_resolution (period : String) (now : GTime) (h : ClockValid now) :
    resolveWindow period now = specWindow period now
    ∧ (period ≠ "today" ∧ period ≠ "week" ∧ period ≠ "month" →
        resolveWindow period now = resolveWindow "week" now
        ∧ validatePeriod period = "week") := by
  have hweek : addDays now (-7) = addSecs now (-604800) := by
    rw [addDays_eq_addSecs now h (-7)]
    norm_num
  constructor
  · unfold resolveWindow specWindow resolveStart todayEnd
    by_cases h1 : period = "today"
    · simp [h1]
    · by_cases h2 : period = "week"
      · simp [h1, h2, hweek]
      · by_cases h3 : period = "month"
        · simp [h1, h2, h3]
        · simp [h1, h2, h3, hweek]
  · intro ⟨h1, h2, h3⟩
    constructor
    · unfold resolveWindow resolveStart todayEnd
      simp [h1, h2, h3]
    · by_cases h0 : period = "" <;> simp [validatePeriod, h0, h1, h2, h3]

/-- C8 witness: the window resolution applied to the unknown keyword
banana at a concrete instant. -/
theorem C8_witness :
    ClockValid t2026
    ∧ (resolveWindow "banana" t2026 = specWindow "banana" t2026
      ∧ ("banana" ≠ "today" ∧ "banana" ≠ "week" ∧ "banana" ≠ "month" →
          resolveWindow "banana" t2026 = resolveWindow "week" t2026
          ∧ validatePeriod "banana" = "week")) :=
  ⟨by decide, C8_window_resolution "banana" t2026 (by decide)⟩

/-! ### The today window invariant (claim C2) -/

/-- C2 counterexample: for period today the response contains a job
whose CreatedAt field (00:30 local) lies before the 01:00 window start:
the run filter tests run_started_at (10:30, inside the window) while the
job keeps the raw created_at. -/
theorem C2_counterexample :
    (fetchWorkflowRuns env2 ["org1"] "today" t2026).toOption.map
        (fun p => p.1.map Job.CreatedAt)
      = some [⟨2026, 10, 11, 0, 30, 0⟩]
    ∧ before ⟨2026, 10, 11, 0, 30, 0⟩ ⟨2026, 10, 11, 1, 0, 0⟩ = true :=
  ⟨by rfl, by decide⟩

/-- C2 amended: for period today, every run surviving the per-run filter
has its filter instant — run_started_at if present, else created_at —
inside [01:00:00, 23:00:00] of the current day; the produced Job's
CreatedAt field is the raw created_at (or now when absent), which may
differ from the filter instant and fall outside that window. -/
theorem C2_amended_filter_instant_in_window (now : GTime) (orgName repoName : String)
    (run : WRun) (job : Job)
    (h : processRun "today" now (resolveStart "today" now) orgName repoName run = some job) :
    ∃ t, run.runStartedAt.or run.createdAt = some t
      ∧ before t ⟨now.year, now.month, now.day, 1, 0, 0⟩ = false
      ∧ after t ⟨now.year, now.month, now.day, 23, 0, 0⟩ = false
      ∧ job.CreatedAt = (match run.createdAt with | some c => c | none => now) := by
  unfold processRun at h
  cases hrt : (match run.runStartedAt with | some t => some t | none => run.createdAt) with
  | none =>
    rw [hrt] at h
    exact absurd h (by simp)
  | some t =>
    rw [hrt] at h
    dsimp only at h
    refine ⟨t, ?_, ?_, ?_, ?_⟩
    · rw [← hrt]
      cases run.runStartedAt <;> rfl
    · by_cases hb : before t (resolveStart "today" now) = true
      · rw [if_pos hb] at h
        exact absurd h (by simp)
      · have : resolveStart "today" now = ⟨now.year, now.month, now.day, 1, 0, 0⟩ := by
          unfold resolveStart
          simp
        rw [this] at hb
        simp only [Bool.not_eq_true] at hb
        exact hb
    · by_cases hb : before t (resolveStart "today" now) = true
      · rw [if_pos hb] at h
        exact absurd h (by simp)
      · rw [if_neg hb] at h
        by_cases ha : after t (todayEnd now) = true
        · rw [if_pos (by exact ⟨rfl, ha⟩)] at h
          exact absurd h (by simp)
        · have : todayEnd now = ⟨now.year, now.month, now.day, 23, 0, 0⟩ := rfl
          rw [this] at ha
          simp only [Bool.not_eq_true] at ha
          exact ha
    · by_cases hb : before t (resolveStart "today" now) = true
      · rw [if_pos hb] at h
        exact absurd h (by simp)
      · rw [if_neg hb] at h
        by_cases ha : after t (todayEnd now) = true
        · rw [if_pos (by exact ⟨rfl, ha⟩)] at h
          exact absurd h (by simp)
        · rw [if_neg (by intro hx; exact ha hx.2)] at h
          have hj : mkJob now orgName repoName run = job := by
            exact Option.some.inj h
          rw [← hj]
          unfold mkJob
          rfl

/-- C2 witness: the amended window statement discharged on the concrete
run c2run at the reference instant. -/
theorem C2_witness :
    processRun "today" t2026 (resolveStart "today" t2026) "org1" "repo1" c2run
      = some (mkJob t2026 "org1" "repo1" c2run)
    ∧ (∃ t, c2run.runStartedAt.or c2run.createdAt = some t
        ∧ before t ⟨t2026.year, t2026.month, t2026.day, 1, 0, 0⟩ = false
        ∧ after t ⟨t2026.year, t2026.month, t2026.day, 23, 0, 0⟩ = false
        ∧ (mkJob t2026 "org1" "repo1" c2run).CreatedAt
          = (match c2run.createdAt with | some c => c | none => t2026)) :=
  ⟨by rfl, C2_amended_filter_instant_in_window t2026 "org1" "repo1" c2run
    (mkJob t2026 "org1" "repo1" c2run) (by rfl)⟩

/-! ### Duration formatting (claim C4) -/

theorem append_s_ne_NA (x : String) : x ++ "s" ≠ "N/A" := by
  intro hcontra
  have hdata : (x ++ "s").data = "N/A".data := by rw [hcontra]
  rw [String.data_append] at hdata
  have h1 : (x.data ++ "s".data).getLast? = some 's' := by
    simp [show ("s" : String).data = ['s'] from rfl]
  rw [hdata] at h1
  simp at h1

/-- No branch of the duration formatter can produce the sentinel. -/
theorem fmtDurSecs_ne_NA (d : Int) : fmtDurSecs d ≠ "N/A" := by
  unfold fmtDurSecs
  dsimp only
  split
  · exact append_s_ne_NA _
  · split
    · exact append_s_ne_NA _
    · exact append_s_ne_NA _

theorem ofNat_pos_of (m : Nat) (h : 0 < m) : (0:Int) < Int.ofNat m := by
  rw [Int.ofNat_eq_coe]
  exact_mod_cast h

theorem ofNat_not_pos (m : Nat) (h : m = 0) : ¬ (0:Int) < Int.ofNat m := by
  rw [Int.ofNat_eq_coe, h]
  simp

theorem fmtDurSecs_ofNat (n : Nat) : fmtDurSecs (Int.ofNat n) = specFmtDur n := by
  unfold fmtDurSecs specFmtDur
  dsimp only
  have e1 : Int.tdiv (Int.ofNat n) 3600 = Int.ofNat (n / 3600) := rfl
  have e2 : (Int.tdiv (Int.ofNat n) 60).tmod 60 = Int.ofNat (n / 60 % 60) := rfl
  have e3 : Int.tmod (Int.ofNat n) 60 = Int.ofNat (n % 60) := rfl
  rw [e1, e2, e3]
  by_cases hh : 3600 ≤ n
  · rw [if_pos (ofNat_pos_of _ (by omega)), if_pos hh]
    rfl
  · rw [if_neg (ofNat_not_pos _ (by omega)), if_neg hh]
    by_cases hm : 60 ≤ n
    · rw [if_pos (ofNat_pos_of _ (by omega)), if_pos hm]
      have hid : n / 60 % 60 = n / 60 := Nat.mod_eq_of_lt (by omega)
      rw [hid]
      rfl
    · rw [if_neg (ofNat_not_pos _ (by omega)), if_neg hm]
      rw [Nat.mod_eq_of_lt (show n < 60 by omega)]
      rfl

/-- C4 counterexample: the response built over env4 contains a job with
duration sentinel N/A even though its run has a start instant
(run_started_at is set); the claim said the sentinel appears only when
the run has no start instant at all. -/
theorem C4_counterexample :
    (fetchWorkflowRuns env4 ["org1"] "week" t2026).toOption.map
        (fun p => p.1.map Job.Duration)
      = some ["N/A"]
    ∧ c4run.runStartedAt = some ⟨2026, 10, 11, 10, 0, 0⟩ :=
  ⟨by rfl, by rfl⟩

/-- C4 amended: the h/m/s formatting with truncated components is as
claimed (3661 s gives 1h 1m 1s and so on), but the timestamp selection
differs from the claim: the duration is updated_at minus run_started_at
when both are present; otherwise, when created_at is present, it is
measured from created_at to updated_at when updated_at is present (also
when run_started_at is absent), or from created_at to the current
instant when updated_at is absent — the updated_at-absent case is the
only place the current instant substitutes; and the sentinel N/A
appears exactly when created_at is absent and the pair (run_started_at,
updated_at) is incomplete — so a run carrying only run_started_at still
shows N/A. -/
theorem C4_amended_duration_rule :
    (∀ n : Nat, fmtDurSecs (Int.ofNat n) = specFmtDur n)
    ∧ (∀ (now : GTime) (run : WRun) (u s : GTime),
        run.updatedAt = some u → run.runStartedAt = some s →
        durationOf now run = formatDuration s u)
    ∧ (∀ (now : GTime) (run : WRun) (c u : GTime),
        run.createdAt = some c → run.runStartedAt = none → run.updatedAt = some u →
        durationOf now run = formatDuration c u)
    ∧ (∀ (now : GTime) (run : WRun) (c : GTime),
        run.createdAt = some c → run.updatedAt = none →
        durationOf now run = formatDuration c now)
    ∧ (∀ (now : GTime) (run : WRun),
        durationOf now run = "N/A" ↔
          run.createdAt = none ∧ (run.runStartedAt = none ∨ run.updatedAt = none)) := by
  refine ⟨fmtDurSecs_ofNat, ?_, ?_, ?_, ?_⟩
  · intro now run u s hu hs
    unfold durationOf
    rw [hu, hs]
  · intro now run c u hc hs hu
    unfold durationOf
    rw [hu, hs, hc]
  · intro now run c hc hu
    unfold durationOf
    rw [hu, hc]
  · intro now run
    unfold durationOf
    cases hu : run.updatedAt with
    | some u =>
      cases hs : run.runStartedAt with
      | some s => simp [formatDuration, fmtDurSecs_ne_NA]
      | none =>
        cases hc : run.createdAt with
        | some c => simp [formatDuration, fmtDurSecs_ne_NA]
        | none => simp
    | none =>
      cases hc : run.createdAt with
      | some c => simp [formatDuration, fmtDurSecs_ne_NA]
      | none => simp

/-- C4 witness: the amended duration rule at concrete inputs, including
the spec's three formatting examples. -/
theorem C4_witness :
    fmtDurSecs (Int.ofNat 3661) = specFmtDur 3661
    ∧ specFmtDur 3661 = "1h 1m 1s"
    ∧ specFmtDur 125 = "2m 5s"
    ∧ specFmtDur 9 = "9s"
    ∧ (c4run2.createdAt = some ⟨2026, 10, 11, 10, 0, 0⟩ ∧ c4run2.runStartedAt = none ∧
        c4run2.updatedAt = some ⟨2026, 10, 11, 10, 4, 30⟩ ∧
        durationOf t2026 c4run2
          = formatDuration ⟨2026, 10, 11, 10, 0, 0⟩ ⟨2026, 10, 11, 10, 4, 30⟩)
    ∧ (c2run.createdAt = some ⟨2026, 10, 11, 0, 30, 0⟩ ∧ c2run.updatedAt = none ∧
        durationOf t2026 c2run = formatDuration ⟨2026, 10, 11, 0, 30, 0⟩ t2026)
    ∧ (durationOf t2026 c4run = "N/A" ↔
        c4run.createdAt = none ∧ (c4run.runStartedAt = none ∨ c4run.updatedAt = none)) :=
  ⟨C4_amended_duration_rule.1 3661, by rfl, by rfl, by rfl,
    ⟨by rfl, by rfl, by rfl, C4_amended_duration_rule.2.2.1 t2026 c4run2
      ⟨2026, 10, 11, 10, 0, 0⟩ ⟨2026, 10, 11, 10, 4, 30⟩ (by rfl) (by rfl) (by rfl)⟩,
    ⟨by rfl, by rfl, C4_amended_duration_rule.2.2.2.1 t2026 c2run
      ⟨2026, 10, 11, 0, 30, 0⟩ (by rfl) (by rfl)⟩,
    C4_amended_duration_rule.2.2.2.2 t2026 c4run⟩

/-! ### Relative time formatting (claim C7) -/

theorem pluralize_ofNat (k : Nat) : pluralize (Int.ofNat k) = if k = 1 then "" else "s" := by
  unfold pluralize
  by_cases hk : k = 1
  · rw [if_pos (by rw [Int.ofNat_eq_coe]; exact_mod_cast hk), if_pos hk]
  · rw [if_neg (by rw [Int.ofNat_eq_coe]; exact_mod_cast hk), if_neg hk]

theorem formatTimeAgo_ofNat (now t : GTime) (k : Nat)
    (hk : toSecs now - toSecs t = Int.ofNat k) :
    formatTimeAgo now t = specTimeAgo k := by
  unfold formatTimeAgo specTimeAgo
  dsimp only
  rw [hk]
  have e1 : Int.tdiv (Int.ofNat k) 86400 = Int.ofNat (k / 86400) := rfl
  have e2 : Int.tdiv (Int.ofNat k) 3600 = Int.ofNat (k / 3600) := rfl
  have e3 : Int.tdiv (Int.ofNat k) 60 = Int.ofNat (k / 60) := rfl
  rw [e1, e2, e3, pluralize_ofNat, pluralize_ofNat, pluralize_ofNat]
  by_cases h1 : 86400 ≤ k
  · rw [if_pos (ofNat_pos_of _ (by omega)), if_pos h1]
    rfl
  · rw [if_neg (ofNat_not_pos _ (by omega)), if_neg h1]
    by_cases h2 : 3600 ≤ k
    · rw [if_pos (ofNat_pos_of _ (by omega)), if_pos h2]
      rfl
    · rw [if_neg (ofNat_not_pos _ (by omega)), if_neg h2]
      by_cases h3 : 60 ≤ k
      · rw [if_pos (ofNat_pos_of _ (by omega)), if_pos h3]
        rfl
      · rw [if_neg (ofNat_not_pos _ (by omega)), if_neg h3]

/-- C7: for every past instant the relative-time string follows the
day / hour / minute / just-now thresholds with truncated counts and an
s appended exactly when the count is not 1. -/
theorem C7_time_ago_format (now t : GTime) (h : toSecs t ≤ toSecs now) :
    formatTimeAgo now t = specTimeAgo (toSecs now - toSecs t).toNat :=
  formatTimeAgo_ofNat now t (toSecs now - toSecs t).toNat
    (by rw [Int.ofNat_eq_coe, Int.toNat_of_nonneg (by omega)])

/-- C7 witness: the three spec examples, via the theorem at concrete
instants 90000 seconds, 3 hours and 45 seconds in the past. -/
theorem C7_witness :
    (toSecs ⟨2026, 10, 10, 11, 0, 0⟩ ≤ toSecs t2026
      ∧ formatTimeAgo t2026 ⟨2026, 10, 10, 11, 0, 0⟩
        = specTimeAgo (toSecs t2026 - toSecs ⟨2026, 10, 10, 11, 0, 0⟩).toNat
      ∧ specTimeAgo (toSecs t2026 - toSecs ⟨2026, 10, 10, 11, 0, 0⟩).toNat = "1 day ago")
    ∧ (formatTimeAgo t2026 ⟨2026, 10, 11, 9, 0, 0⟩
        = specTimeAgo (toSecs t2026 - toSecs ⟨2026, 10, 11, 9, 0, 0⟩).toNat
      ∧ specTimeAgo (toSecs t2026 - toSecs ⟨2026, 10, 11, 9, 0, 0⟩).toNat = "3 hours ago")
    ∧ (formatTimeAgo t2026 ⟨2026, 10, 11, 11, 59, 15⟩
        = specTimeAgo (toSecs t2026 - toSecs ⟨2026, 10, 11, 11, 59, 15⟩).toNat
      ∧ specTimeAgo (toSecs t2026 - toSecs ⟨2026, 10, 11, 11, 59, 15⟩).toNat = "just now") :=
  ⟨⟨by decide, C7_time_ago_format t2026 ⟨2026, 10, 10, 11, 0, 0⟩ (by decide), by rfl⟩,
    ⟨C7_time_ago_format t2026 ⟨2026, 10, 11, 9, 0, 0⟩ (by decide), by rfl⟩,
    ⟨C7_time_ago_format t2026 ⟨2026, 10, 11, 11, 59, 15⟩ (by decide), by rfl⟩⟩

end Dash
